import Mathlib

/-! Smart pointers: control blocks, shared, weak, exclusive and intrusive handles.

A shallow embedding of the reference-counting code of the repository.

Addresses are natural numbers and `0` is `nullptr`.  The heap maps the address of a
control block to its fields; a block that was never allocated or that has been
deleted is absent (`none`).  An operation that dereferences an absent block has no
defined outcome and returns `none`.

The managed type `T` is abstract: running its destructor is recorded in the heap's
`destroyed` log and, when `T` derives from `EnableSharedFromThis`, runs
`~EnableSharedFromThis` on the object's `weak_this` member.

The counters are `size_t`; they are natural numbers reduced modulo `SIZE_T_MOD`
wherever the source can wrap.
-/

namespace SmartPointers

/-- Number of values of a `size_t` counter (64-bit target). -/
def SIZE_T_MOD : Nat := 2 ^ 64

/-- `++counter` on a `size_t`. -/
def size_t_inc (n : Nat) : Nat := (n + 1) % SIZE_T_MOD

/-- `--counter` on a `size_t`: wraps to the largest value at zero. -/
def size_t_dec (n : Nat) : Nat := (n + SIZE_T_MOD - 1) % SIZE_T_MOD

namespace SharedFromThis

/-- The two classes derived from `BaseBlock`. -/
inductive BlockShape where
  | ControlBlockPointer
  | ControlBlockObject
deriving DecidableEq, Repr

/-- Fields of a control block.  For `ControlBlockPointer`, `object_` is the member of
that name; for `ControlBlockObject` it is the address of `buffer_`, where the value
was constructed in place. -/
structure Block where
  shape : BlockShape
  object_ : Nat
  strong_counter_ : Nat
  weak_counter_ : Nat
deriving DecidableEq, Repr

/-- Fields of a `WeakPtr<T>`. -/
structure WeakPtr where
  block_ : Nat
  observed_ : Nat
deriving DecidableEq, Repr

/-- Fields of a `SharedPtr<T>`. -/
structure SharedPtr where
  block_ : Nat
  observed_ : Nat
deriving DecidableEq, Repr

/-- Modelled from the spec: the exception type `BadWeakPtr`, declared in `sw_fwd.h`,
which is not among the sources.  The spec names it the distinct error that signals the
promotion of an expired weak handle; it carries no data. -/
inductive BadWeakPtr where
  | mk
deriving DecidableEq, Repr

/-- Memory as the control blocks see it.
`blocks b` are the fields of the block allocated at `b`;
`weak_this a` is the `weak_this` member of the object living at `a` when its type
derives from `EnableSharedFromThis` (`none` otherwise);
`destroyed` lists, in order, the addresses on which the destructor of the managed
value has been run; `deleted` lists the blocks on which `delete this` has been run. -/
structure Heap where
  blocks : Nat → Option Block
  weak_this : Nat → Option WeakPtr
  destroyed : List Nat
  deleted : List Nat

/-- A heap with nothing allocated. -/
def Heap.empty : Heap :=
  { blocks := fun _ => none, weak_this := fun _ => none, destroyed := [], deleted := [] }

/-- Overwrite the fields of the block at `b`. -/
def Heap.setBlock (h : Heap) (b : Nat) (blk : Block) : Heap :=
  { h with blocks := Function.update h.blocks b (some blk) }

/-- The memory effect of `delete this` on the block at `b`. -/
def Heap.deleteBlock (h : Heap) (b : Nat) : Heap :=
  { h with blocks := Function.update h.blocks b none, deleted := h.deleted ++ [b] }

/-- The memory effect of `new ControlBlock...` returning the address `b`: the allocator
returns a non-null address that is not in use. -/
def Heap.newBlock (h : Heap) (b : Nat) (blk : Block) : Option Heap :=
  if b = 0 then none
  else match h.blocks b with
    | some _ => none
    | none => some (h.setBlock b blk)

/-- Destructor `~EnableSharedFromThis` of the object whose `weak_this` is `w`:
decrements the weak counter of the block through `GetWeakCounter()` when `weak_this`
is wired. -/
def EnableSharedFromThis.destructor (h : Heap) (w : WeakPtr) : Option Heap :=
  if w.block_ ≠ 0 then
    match h.blocks w.block_ with
    | none => none
    | some blk =>
      some (h.setBlock w.block_ { blk with weak_counter_ := size_t_dec blk.weak_counter_ })
  else some h

/-- Destructor `~T()` of the managed value at address `a`. -/
def destroyValue (h : Heap) (a : Nat) : Option Heap :=
  match h.weak_this a with
  | none => some { h with destroyed := h.destroyed ++ [a] }
  | some w =>
    match EnableSharedFromThis.destructor h w with
    | none => none
    | some h1 =>
      some { h1 with weak_this := Function.update h1.weak_this a none,
                     destroyed := h1.destroyed ++ [a] }

/-- Expression `delete object_` of `ControlBlockPointer`: nothing happens on a null
pointer. -/
def deleteObject (h : Heap) (a : Nat) : Option Heap :=
  if a = 0 then some h else destroyValue h a

/-- `ControlBlockPointer<T>::DecStrongCounter` on the block `blk` stored at `b`. -/
def ControlBlockPointer.DecStrongCounter (h : Heap) (b : Nat) (blk : Block) : Option Heap :=
  if blk.strong_counter_ > 1 then
    some (h.setBlock b { blk with strong_counter_ := blk.strong_counter_ - 1 })
  else if (blk.strong_counter_ = 1 ∧ blk.weak_counter_ = 0) ∨
          (blk.strong_counter_ = 0 ∧ blk.weak_counter_ = 0) then
    match deleteObject h blk.object_ with
    | none => none
    | some h1 => some (h1.deleteBlock b)
  else if (blk.strong_counter_ = 0 ∧ blk.weak_counter_ ≠ 0) ∨
          (blk.weak_counter_ ≠ 0 ∧ blk.strong_counter_ = 1) then
    match deleteObject
        (h.setBlock b { blk with strong_counter_ := size_t_dec blk.strong_counter_ })
        blk.object_ with
    | none => none
    | some h1 =>
      match h1.blocks b with
      | none => none
      | some blk1 => if blk1.weak_counter_ = 0 then some (h1.deleteBlock b) else some h1
  else some h

/-- `ControlBlockPointer<T>::DecWeakCounter` on the block `blk` stored at `b`. -/
def ControlBlockPointer.DecWeakCounter (h : Heap) (b : Nat) (blk : Block) : Option Heap :=
  if blk.weak_counter_ > 1 then
    some (h.setBlock b { blk with weak_counter_ := blk.weak_counter_ - 1 })
  else if (blk.weak_counter_ = 1 ∧ blk.strong_counter_ = 0) ∨
          (blk.weak_counter_ = 0 ∧ blk.strong_counter_ = 0) then
    some (h.deleteBlock b)
  else if (blk.weak_counter_ = 1 ∧ blk.strong_counter_ ≠ 0) ∨
          (blk.weak_counter_ = 0 ∧ blk.strong_counter_ ≠ 0) then
    some (h.setBlock b { blk with weak_counter_ := size_t_dec blk.weak_counter_ })
  else some h

/-- `ControlBlockObject<T>::DecStrongCounter` on the block `blk` stored at `b`. -/
def ControlBlockObject.DecStrongCounter (h : Heap) (b : Nat) (blk : Block) : Option Heap :=
  if blk.strong_counter_ > 1 then
    some (h.setBlock b { blk with strong_counter_ := blk.strong_counter_ - 1 })
  else if (blk.strong_counter_ = 1 ∧ blk.weak_counter_ = 0) ∨
          (blk.strong_counter_ = 0 ∧ blk.weak_counter_ = 0) then
    match destroyValue h blk.object_ with
    | none => none
    | some h1 => some (h1.deleteBlock b)
  else if (blk.strong_counter_ = 0 ∧ blk.weak_counter_ ≠ 0) ∨
          (blk.weak_counter_ ≠ 0 ∧ blk.strong_counter_ = 1) then
    match destroyValue
        (h.setBlock b { blk with strong_counter_ := size_t_dec blk.strong_counter_ })
        blk.object_ with
    | none => none
    | some h1 =>
      match h1.blocks b with
      | none => none
      | some blk1 => if blk1.weak_counter_ = 0 then some (h1.deleteBlock b) else some h1
  else some h

/-- `ControlBlockObject<T>::DecWeakCounter` on the block `blk` stored at `b`: the
first `if` is not chained to the second one. -/
def ControlBlockObject.DecWeakCounter (h : Heap) (b : Nat) (blk : Block) : Option Heap :=
  let blk1 : Block :=
    if blk.weak_counter_ > 1 then { blk with weak_counter_ := blk.weak_counter_ - 1 } else blk
  if (blk1.weak_counter_ = 1 ∧ blk1.strong_counter_ = 0) ∨
     (blk1.weak_counter_ = 0 ∧ blk1.strong_counter_ = 0) then
    some (h.deleteBlock b)
  else if (blk1.weak_counter_ = 1 ∧ blk1.strong_counter_ ≠ 0) ∨
          (blk1.weak_counter_ = 0 ∧ blk1.strong_counter_ ≠ 0) then
    some (h.setBlock b { blk1 with weak_counter_ := size_t_dec blk1.weak_counter_ })
  else some (h.setBlock b blk1)

/-- Virtual call `block->IncStrongCounter()`; a call through a null or dangling
pointer has no defined outcome. -/
def BaseBlock.IncStrongCounter (h : Heap) (b : Nat) : Option Heap :=
  if b = 0 then none
  else match h.blocks b with
    | none => none
    | some blk =>
      some (h.setBlock b { blk with strong_counter_ := size_t_inc blk.strong_counter_ })

/-- Virtual call `block->IncWeakCounter()`. -/
def BaseBlock.IncWeakCounter (h : Heap) (b : Nat) : Option Heap :=
  if b = 0 then none
  else match h.blocks b with
    | none => none
    | some blk =>
      some (h.setBlock b { blk with weak_counter_ := size_t_inc blk.weak_counter_ })

/-- Virtual call `block->DecStrongCounter()`, dispatched on the dynamic type (after
the dispatch `this` is not null). -/
def BaseBlock.DecStrongCounter (h : Heap) (b : Nat) : Option Heap :=
  if b = 0 then none
  else match h.blocks b with
    | none => none
    | some blk =>
      match blk.shape with
      | .ControlBlockPointer => ControlBlockPointer.DecStrongCounter h b blk
      | .ControlBlockObject => ControlBlockObject.DecStrongCounter h b blk

/-- Virtual call `block->DecWeakCounter()`, dispatched on the dynamic type. -/
def BaseBlock.DecWeakCounter (h : Heap) (b : Nat) : Option Heap :=
  if b = 0 then none
  else match h.blocks b with
    | none => none
    | some blk =>
      match blk.shape with
      | .ControlBlockPointer => ControlBlockPointer.DecWeakCounter h b blk
      | .ControlBlockObject => ControlBlockObject.DecWeakCounter h b blk

/-- Virtual call `block->GetStrongCounter()`. -/
def BaseBlock.GetStrongCounter (h : Heap) (b : Nat) : Option Nat :=
  if b = 0 then none
  else match h.blocks b with
    | none => none
    | some blk => some blk.strong_counter_

/-! ### `WeakPtr` observers (weak.h) -/

/-- `WeakPtr::Expired`. -/
def WeakPtr.Expired (h : Heap) (this : WeakPtr) : Option Bool :=
  if this.block_ = 0 then some true
  else match BaseBlock.GetStrongCounter h this.block_ with
    | none => none
    | some n => some (decide (n = 0))

/-- `WeakPtr::UseCount`. -/
def WeakPtr.UseCount (h : Heap) (this : WeakPtr) : Option Nat :=
  if this.block_ = 0 then some 0 else BaseBlock.GetStrongCounter h this.block_

/-- `WeakPtr::Lock`; the local `result` starts as the empty `SharedPtr` and is returned
in place. -/
def WeakPtr.Lock (h : Heap) (this : WeakPtr) : Option (SharedPtr × Heap) :=
  match WeakPtr.Expired h this with
  | none => none
  | some true => some (⟨0, 0⟩, h)
  | some false =>
    match BaseBlock.IncStrongCounter h this.block_ with
    | none => none
    | some h1 => some (⟨this.block_, this.observed_⟩, h1)

/-! ### `SharedPtr` (shared.h) -/

/-- `SharedPtr::Reset()`. -/
def SharedPtr.Reset (h : Heap) (this : SharedPtr) : Option (SharedPtr × Heap) :=
  if this.block_ ≠ 0 then
    match BaseBlock.DecStrongCounter h this.block_ with
    | none => none
    | some h1 => some (⟨0, 0⟩, h1)
  else some (this, h)

/-- Destructor `~SharedPtr()`: the handle is gone afterwards, only the heap remains. -/
def SharedPtr.destructor (h : Heap) (this : SharedPtr) : Option Heap :=
  match SharedPtr.Reset h this with
  | none => none
  | some (_, h1) => some h1

/-- Constructors `SharedPtr()` and `SharedPtr(std::nullptr_t)`. -/
def SharedPtr.null : SharedPtr := ⟨0, 0⟩

/-- Constructor `SharedPtr(T* ptr)`.  `b` is the address returned by
`new ControlBlockPointer<T>(ptr)`; `esft` is `std::is_convertible_v<T*, ESFTBase*>`.
The members start as null (default member initialisers), so the leading `Reset()`
finds an empty handle. -/
def SharedPtr.ofPtr (h : Heap) (b ptr : Nat) (esft : Bool) : Option (SharedPtr × Heap) :=
  match SharedPtr.Reset h ⟨0, 0⟩ with
  | none => none
  | some (_, h0) =>
    match h0.newBlock b ⟨.ControlBlockPointer, ptr, 1, 0⟩ with
    | none => none
    | some h1 =>
      if esft then
        if ptr = 0 then none
        else
          match BaseBlock.IncWeakCounter
              { h1 with weak_this := Function.update h1.weak_this ptr (some ⟨b, ptr⟩) } b with
          | none => none
          | some h2 => some (⟨b, ptr⟩, h2)
      else some (⟨b, ptr⟩, h1)

/-- `MakeShared<T>(args...)`.  `b` is the address returned by
`new ControlBlockObject<T>(...)` and `buf` the address of its `buffer_`. -/
def MakeShared (h : Heap) (b buf : Nat) (esft : Bool) : Option (SharedPtr × Heap) :=
  if buf = 0 then none
  else
    match h.newBlock b ⟨.ControlBlockObject, buf, 1, 0⟩ with
    | none => none
    | some h1 =>
      if esft then
        match BaseBlock.IncWeakCounter
            { h1 with weak_this := Function.update h1.weak_this buf (some ⟨b, buf⟩) } b with
        | none => none
        | some h2 => some (⟨b, buf⟩, h2)
      else some (⟨b, buf⟩, h1)

/-- Copy constructor `SharedPtr(const SharedPtr& other)`. -/
def SharedPtr.copy (h : Heap) (other : SharedPtr) : Option (SharedPtr × Heap) :=
  match SharedPtr.Reset h ⟨0, 0⟩ with
  | none => none
  | some (this0, h0) =>
    let this1 : SharedPtr := if other.block_ = 0 then ⟨0, 0⟩ else this0
    if other.observed_ ≠ this1.observed_ then
      match BaseBlock.IncStrongCounter h0 other.block_ with
      | none => none
      | some h1 => some (⟨other.block_, other.observed_⟩, h1)
    else some (this1, h0)

/-- Move constructor `SharedPtr(SharedPtr&& other)`; returns the new handle, the
source afterwards and the heap. -/
def SharedPtr.move (h : Heap) (other : SharedPtr) : Option (SharedPtr × SharedPtr × Heap) :=
  match SharedPtr.Reset h ⟨0, 0⟩ with
  | none => none
  | some (this0, h0) =>
    let this1 : SharedPtr := if other.block_ = 0 then ⟨0, 0⟩ else this0
    if other.block_ ≠ 0 then
      match BaseBlock.IncStrongCounter h0 other.block_ with
      | none => none
      | some h1 =>
        match SharedPtr.Reset h1 other with
        | none => none
        | some (other1, h2) => some (⟨other.block_, other.observed_⟩, other1, h2)
    else some (this1, other, h0)

/-- Aliasing constructor `SharedPtr(const SharedPtr<Y>& other, T* ptr)`. -/
def SharedPtr.alias (h : Heap) (other : SharedPtr) (ptr : Nat) : Option (SharedPtr × Heap) :=
  match BaseBlock.IncStrongCounter h other.block_ with
  | none => none
  | some h1 => some (⟨other.block_, ptr⟩, h1)

/-- Promotion `SharedPtr(const WeakPtr<T>& other)`: the outcome is the exception
`BadWeakPtr` or the new handle, together with the heap. -/
def SharedPtr.ofWeak (h : Heap) (other : WeakPtr) :
    Option (Except BadWeakPtr SharedPtr × Heap) :=
  match WeakPtr.Expired h other with
  | none => none
  | some true => some (.error .mk, h)
  | some false =>
    if other.block_ ≠ 0 then
      match BaseBlock.IncStrongCounter h other.block_ with
      | none => none
      | some h1 => some (.ok ⟨other.block_, other.observed_⟩, h1)
    else some (.ok ⟨other.block_, other.observed_⟩, h)

/-- Copy assignment `operator=(const SharedPtr& other)`.  When `other` is `*this` the
same result is produced: either both are empty, or the observed addresses agree and
nothing is written. -/
def SharedPtr.assign (h : Heap) (this other : SharedPtr) : Option (SharedPtr × Heap) :=
  if other.block_ = 0 then
    match SharedPtr.Reset h this with
    | none => none
    | some (_, h1) => some (⟨0, 0⟩, h1)
  else if other.observed_ ≠ this.observed_ then
    match SharedPtr.Reset h this with
    | none => none
    | some (_, h1) =>
      match BaseBlock.IncStrongCounter h1 other.block_ with
      | none => none
      | some h2 => some (⟨other.block_, other.observed_⟩, h2)
  else some (this, h)

/-- Move assignment `operator=(SharedPtr&& other)` for `other` an object different from
`*this`; returns the destination, the source afterwards and the heap. -/
def SharedPtr.moveAssign (h : Heap) (this other : SharedPtr) :
    Option (SharedPtr × SharedPtr × Heap) :=
  let this1 : SharedPtr := if other.block_ = 0 then ⟨0, 0⟩ else this
  match SharedPtr.Reset h this1 with
  | none => none
  | some (this2, h1) =>
    if other.block_ ≠ 0 then
      match BaseBlock.IncStrongCounter h1 other.block_ with
      | none => none
      | some h2 =>
        match SharedPtr.Reset h2 other with
        | none => none
        | some (other1, h3) => some (⟨other.block_, other.observed_⟩, other1, h3)
    else some (this2, other, h1)

/-- Move assignment `operator=(SharedPtr&& other)` when `other` is `*this`: every read
of `other` sees what has just been written to `*this`. -/
def SharedPtr.moveAssignSelf (h : Heap) (this : SharedPtr) : Option (SharedPtr × Heap) :=
  let this1 : SharedPtr := if this.block_ = 0 then ⟨0, 0⟩ else this
  match SharedPtr.Reset h this1 with
  | none => none
  | some (this2, h1) =>
    if this2.block_ ≠ 0 then
      match BaseBlock.IncStrongCounter h1 this2.block_ with
      | none => none
      | some h2 => SharedPtr.Reset h2 this2
    else some (this2, h1)

/-- `SharedPtr::Get`. -/
def SharedPtr.Get (this : SharedPtr) : Nat :=
  if this.block_ = 0 then 0 else this.observed_

/-- `SharedPtr::UseCount`. -/
def SharedPtr.UseCount (h : Heap) (this : SharedPtr) : Option Nat :=
  if this.block_ = 0 then some 0 else BaseBlock.GetStrongCounter h this.block_

/-- Conversion `explicit operator bool()`. -/
def SharedPtr.toBool (this : SharedPtr) : Bool :=
  this.Get != 0

/-! ### `WeakPtr` constructors and modifiers (weak.h) -/

/-- Constructor `WeakPtr()`. -/
def WeakPtr.null : WeakPtr := ⟨0, 0⟩

/-- `WeakPtr::Reset`. -/
def WeakPtr.Reset (h : Heap) (this : WeakPtr) : Option (WeakPtr × Heap) :=
  if this.block_ ≠ 0 then
    match BaseBlock.DecWeakCounter h this.block_ with
    | none => none
    | some h1 => some (⟨0, 0⟩, h1)
  else some (this, h)

/-- Destructor `~WeakPtr()`. -/
def WeakPtr.destructor (h : Heap) (this : WeakPtr) : Option Heap :=
  match WeakPtr.Reset h this with
  | none => none
  | some (_, h1) => some h1

/-- Copy constructor `WeakPtr(const WeakPtr& other)`. -/
def WeakPtr.copy (h : Heap) (other : WeakPtr) : Option (WeakPtr × Heap) :=
  if other.block_ ≠ 0 then
    match BaseBlock.IncWeakCounter h other.block_ with
    | none => none
    | some h1 => some (⟨other.block_, other.observed_⟩, h1)
  else some (⟨other.block_, other.observed_⟩, h)

/-- Move constructor `WeakPtr(WeakPtr&& other)`; returns the new handle and the source
afterwards. -/
def WeakPtr.move (other : WeakPtr) : WeakPtr × WeakPtr :=
  (⟨other.block_, other.observed_⟩, ⟨0, 0⟩)

/-- Demotion `WeakPtr(const SharedPtr<T>& other)`. -/
def WeakPtr.ofShared (h : Heap) (other : SharedPtr) : Option (WeakPtr × Heap) :=
  if other.block_ ≠ 0 then
    match BaseBlock.IncWeakCounter h other.block_ with
    | none => none
    | some h1 => some (⟨other.block_, other.observed_⟩, h1)
  else some (⟨other.block_, other.observed_⟩, h)

/-- Copy assignment `WeakPtr::operator=(const WeakPtr& other)` for `other` an object
different from `*this`. -/
def WeakPtr.assign (h : Heap) (this other : WeakPtr) : Option (WeakPtr × Heap) :=
  match WeakPtr.Reset h this with
  | none => none
  | some (_, h1) =>
    if other.block_ ≠ 0 then
      match BaseBlock.IncWeakCounter h1 other.block_ with
      | none => none
      | some h2 => some (⟨other.block_, other.observed_⟩, h2)
    else some (⟨other.block_, other.observed_⟩, h1)

/-- Copy assignment `WeakPtr::operator=(const WeakPtr& other)` when `other` is `*this`:
after `Reset()` the fields read from `other` are the ones just written. -/
def WeakPtr.assignSelf (h : Heap) (this : WeakPtr) : Option (WeakPtr × Heap) :=
  match WeakPtr.Reset h this with
  | none => none
  | some (this1, h1) =>
    if this1.block_ ≠ 0 then
      match BaseBlock.IncWeakCounter h1 this1.block_ with
      | none => none
      | some h2 => some (this1, h2)
    else some (this1, h1)

/-- Move assignment `WeakPtr::operator=(WeakPtr&& other)` for `other` an object
different from `*this`; returns the destination and the source afterwards. -/
def WeakPtr.moveAssign (h : Heap) (this other : WeakPtr) : Option (WeakPtr × WeakPtr × Heap) :=
  match WeakPtr.Reset h this with
  | none => none
  | some (_, h1) => some (⟨other.block_, other.observed_⟩, ⟨0, 0⟩, h1)

/-- Move assignment `WeakPtr::operator=(WeakPtr&& other)` when `other` is `*this`. -/
def WeakPtr.moveAssignSelf (h : Heap) (this : WeakPtr) : Option (WeakPtr × Heap) :=
  match WeakPtr.Reset h this with
  | none => none
  | some (_, h1) => some (⟨0, 0⟩, h1)

/-! ### Programs over handles

A program state is the heap together with the `SharedPtr` and `WeakPtr` objects that
have been constructed so far; a destroyed object leaves `none` in its slot, so the
position of an object never changes.  An operation names the objects it acts on by
position. -/

/-- The heap and the handle objects of a program. -/
structure State where
  heap : Heap
  shared : List (Option SharedPtr)
  weak : List (Option WeakPtr)

/-- The state before anything has been constructed. -/
def State.init : State := { heap := Heap.empty, shared := [], weak := [] }

/-- The public operations on handles.  Constructors append the new object. -/
inductive Op where
  | sharedNull
  | sharedOfPtr (b ptr : Nat) (esft : Bool)
  | makeShared (b buf : Nat) (esft : Bool)
  | sharedCopy (i : Nat)
  | sharedMove (i : Nat)
  | sharedAlias (i ptr : Nat)
  | sharedOfWeak (k : Nat)
  | sharedAssign (i j : Nat)
  | sharedMoveAssign (i j : Nat)
  | sharedReset (i : Nat)
  | sharedDestroy (i : Nat)
  | weakNull
  | weakCopy (k : Nat)
  | weakMove (k : Nat)
  | weakOfShared (i : Nat)
  | weakAssign (k l : Nat)
  | weakMoveAssign (k l : Nat)
  | weakReset (k : Nat)
  | weakDestroy (k : Nat)
  | weakLock (k : Nat)
deriving DecidableEq, Repr

/-- The live `SharedPtr` object in slot `i`. -/
def State.getShared (s : State) (i : Nat) : Option SharedPtr :=
  match s.shared[i]? with
  | some (some p) => some p
  | _ => none

/-- The live `WeakPtr` object in slot `k`. -/
def State.getWeak (s : State) (k : Nat) : Option WeakPtr :=
  match s.weak[k]? with
  | some (some w) => some w
  | _ => none

/-- One operation of a program; `none` when the operation names an object that is not
live or has no defined outcome. -/
def step (s : State) : Op → Option State
  | .sharedNull => some { s with shared := s.shared ++ [some SharedPtr.null] }
  | .sharedOfPtr b ptr esft =>
    match SharedPtr.ofPtr s.heap b ptr esft with
    | none => none
    | some (p, h) => some { s with heap := h, shared := s.shared ++ [some p] }
  | .makeShared b buf esft =>
    match MakeShared s.heap b buf esft with
    | none => none
    | some (p, h) => some { s with heap := h, shared := s.shared ++ [some p] }
  | .sharedCopy i =>
    match s.getShared i with
    | none => none
    | some other =>
      match SharedPtr.copy s.heap other with
      | none => none
      | some (p, h) => some { s with heap := h, shared := s.shared ++ [some p] }
  | .sharedMove i =>
    match s.getShared i with
    | none => none
    | some other =>
      match SharedPtr.move s.heap other with
      | none => none
      | some (p, other1, h) =>
        some { s with heap := h, shared := s.shared.set i (some other1) ++ [some p] }
  | .sharedAlias i ptr =>
    match s.getShared i with
    | none => none
    | some other =>
      match SharedPtr.alias s.heap other ptr with
      | none => none
      | some (p, h) => some { s with heap := h, shared := s.shared ++ [some p] }
  | .sharedOfWeak k =>
    match s.getWeak k with
    | none => none
    | some other =>
      match SharedPtr.ofWeak s.heap other with
      | none => none
      | some (.error _, h) => some { s with heap := h }
      | some (.ok p, h) => some { s with heap := h, shared := s.shared ++ [some p] }
  | .sharedAssign i j =>
    match s.getShared i, s.getShared j with
    | some this, some other =>
      match SharedPtr.assign s.heap this other with
      | none => none
      | some (this1, h) => some { s with heap := h, shared := s.shared.set i (some this1) }
    | _, _ => none
  | .sharedMoveAssign i j =>
    match s.getShared i, s.getShared j with
    | some this, some other =>
      if i = j then
        match SharedPtr.moveAssignSelf s.heap this with
        | none => none
        | some (this1, h) => some { s with heap := h, shared := s.shared.set i (some this1) }
      else
        match SharedPtr.moveAssign s.heap this other with
        | none => none
        | some (this1, other1, h) =>
          some { s with heap := h,
                        shared := (s.shared.set i (some this1)).set j (some other1) }
    | _, _ => none
  | .sharedReset i =>
    match s.getShared i with
    | none => none
    | some this =>
      match SharedPtr.Reset s.heap this with
      | none => none
      | some (this1, h) => some { s with heap := h, shared := s.shared.set i (some this1) }
  | .sharedDestroy i =>
    match s.getShared i with
    | none => none
    | some this =>
      match SharedPtr.destructor s.heap this with
      | none => none
      | some h => some { s with heap := h, shared := s.shared.set i none }
  | .weakNull => some { s with weak := s.weak ++ [some WeakPtr.null] }
  | .weakCopy k =>
    match s.getWeak k with
    | none => none
    | some other =>
      match WeakPtr.copy s.heap other with
      | none => none
      | some (w, h) => some { s with heap := h, weak := s.weak ++ [some w] }
  | .weakMove k =>
    match s.getWeak k with
    | none => none
    | some other =>
      some { s with weak := s.weak.set k (some (WeakPtr.move other).2)
                              ++ [some (WeakPtr.move other).1] }
  | .weakOfShared i =>
    match s.getShared i with
    | none => none
    | some other =>
      match WeakPtr.ofShared s.heap other with
      | none => none
      | some (w, h) => some { s with heap := h, weak := s.weak ++ [some w] }
  | .weakAssign k l =>
    match s.getWeak k, s.getWeak l with
    | some this, some other =>
      if k = l then
        match WeakPtr.assignSelf s.heap this with
        | none => none
        | some (this1, h) => some { s with heap := h, weak := s.weak.set k (some this1) }
      else
        match WeakPtr.assign s.heap this other with
        | none => none
        | some (this1, h) => some { s with heap := h, weak := s.weak.set k (some this1) }
    | _, _ => none
  | .weakMoveAssign k l =>
    match s.getWeak k, s.getWeak l with
    | some this, some other =>
      if k = l then
        match WeakPtr.moveAssignSelf s.heap this with
        | none => none
        | some (this1, h) => some { s with heap := h, weak := s.weak.set k (some this1) }
      else
        match WeakPtr.moveAssign s.heap this other with
        | none => none
        | some (this1, other1, h) =>
          some { s with heap := h, weak := (s.weak.set k (some this1)).set l (some other1) }
    | _, _ => none
  | .weakReset k =>
    match s.getWeak k with
    | none => none
    | some this =>
      match WeakPtr.Reset s.heap this with
      | none => none
      | some (this1, h) => some { s with heap := h, weak := s.weak.set k (some this1) }
  | .weakDestroy k =>
    match s.getWeak k with
    | none => none
    | some this =>
      match WeakPtr.destructor s.heap this with
      | none => none
      | some h => some { s with heap := h, weak := s.weak.set k none }
  | .weakLock k =>
    match s.getWeak k with
    | none => none
    | some this =>
      match WeakPtr.Lock s.heap this with
      | none => none
      | some (p, h) => some { s with heap := h, shared := s.shared ++ [some p] }

/-- Run the operations of a program in order. -/
def run (s : State) : List Op → Option State
  | [] => some s
  | op :: ops =>
    match step s op with
    | none => none
    | some s1 => run s1 ops

/-- The slot holds a live `SharedPtr` whose `block_` is `b`. -/
def sharedOn (b : Nat) : Option SharedPtr → Bool
  | some p => decide (p.block_ = b)
  | none => false

/-- The slot holds a live `WeakPtr` whose `block_` is `b`. -/
def weakOn (b : Nat) : Option WeakPtr → Bool
  | some w => decide (w.block_ = b)
  | none => false

/-- Number of live `SharedPtr` objects whose `block_` is `b`. -/
def State.sharedRefs (s : State) (b : Nat) : Nat :=
  s.shared.countP (sharedOn b)

/-- Number of live `WeakPtr` objects whose `block_` is `b`. -/
def State.weakRefs (s : State) (b : Nat) : Nat :=
  s.weak.countP (weakOn b)

/-- Strong counter of the block at `b`; 0 when no block is allocated there. -/
def Heap.strongOf (h : Heap) (b : Nat) : Nat :=
  match h.blocks b with
  | some blk => blk.strong_counter_
  | none => 0

/-- 1 when the slot holds a live `SharedPtr` whose `block_` is `b`, else 0. -/
def holds (x : Option SharedPtr) (b : Nat) : Nat :=
  if sharedOn b x then 1 else 0

/-- The operation is an assignment (copy or move) whose destination is the `WeakPtr`
in slot `k`. -/
def Op.assignsWeak (op : Op) (k : Nat) : Prop :=
  match op with
  | .weakAssign k1 _ => k1 = k
  | .weakMoveAssign k1 _ => k1 = k
  | _ => False

/-- The operation, run in state `s`, is an assignment (copy or move) whose destination
is the `WeakPtr` in slot `k` and whose source is a `WeakPtr` that is not expired. -/
def Op.retargetsWeak (s : State) (op : Op) (k : Nat) : Prop :=
  match op with
  | .weakAssign k1 l =>
    k1 = k ∧ ∃ o, s.getWeak l = some o ∧ WeakPtr.Expired s.heap o ≠ some true
  | .weakMoveAssign k1 l =>
    k1 = k ∧ ∃ o, s.getWeak l = some o ∧ WeakPtr.Expired s.heap o ≠ some true
  | _ => False

/-- Relation between the heaps before and after an operation that removes the handles
counted by `olds` and creates the handles counted by `news`: on every non-null block
the strong counter covers the change in handles, no strong counter grows by more than
one, and a zero strong counter stays zero. -/
def Heap.Balanced (h h1 : Heap) (olds news : Nat → Nat) : Prop :=
  (∀ b, b ≠ 0 → h.strongOf b + news b ≤ h1.strongOf b + olds b) ∧
  (∀ b, h1.strongOf b ≤ h.strongOf b + 1) ∧
  (∀ b, h.strongOf b = 0 → h1.strongOf b = 0)

/-- Counting invariant of a program state: every non-null block address is held by at
most as many live `SharedPtr` objects as the strong counter of the block says (none
when no block is allocated there), and no strong counter exceeds `n`. -/
def State.Counted (n : Nat) (s : State) : Prop :=
  (∀ b, b ≠ 0 → s.sharedRefs b ≤ s.heap.strongOf b) ∧ (∀ b, s.heap.strongOf b ≤ n)

/-! ### `Reset(T*)` and `EnableSharedFromThis` (shared.h) -/

/-- `SharedPtr::Reset(T* ptr)`; `b` is the address returned by
`new ControlBlockPointer<T>(ptr)`. -/
def SharedPtr.ResetPtr (h : Heap) (this : SharedPtr) (b ptr : Nat) :
    Option (SharedPtr × Heap) :=
  match SharedPtr.Reset h this with
  | none => none
  | some (_, h1) =>
    match h1.newBlock b ⟨.ControlBlockPointer, ptr, 1, 0⟩ with
    | none => none
    | some h2 => some (⟨b, ptr⟩, h2)

/-- Construction of the `EnableSharedFromThis` base of the object at `a`: the member
`weak_this` starts as the empty `WeakPtr`. -/
def EnableSharedFromThis.ctor (h : Heap) (a : Nat) : Heap :=
  { h with weak_this := Function.update h.weak_this a (some WeakPtr.null) }

/-- The implicitly defined copy constructor of `EnableSharedFromThis<T>`, which
declares none of its own: the base of the new object at `a` is constructed from the
object at `src` member by member, so `weak_this` is copy-constructed by
`WeakPtr(const WeakPtr&)` from the `weak_this` of `src`. -/
def EnableSharedFromThis.copy (h : Heap) (src a : Nat) : Option Heap :=
  match h.weak_this src with
  | none => none
  | some w =>
    match WeakPtr.copy h w with
    | none => none
    | some (w1, h1) => some { h1 with weak_this := Function.update h1.weak_this a (some w1) }

/-- `EnableSharedFromThis::SharedFromThis` called on the object at `a`; there is no
outcome when the object at `a` has no `weak_this` member. -/
def EnableSharedFromThis.SharedFromThis (h : Heap) (a : Nat) : Option (SharedPtr × Heap) :=
  match h.weak_this a with
  | none => none
  | some w => WeakPtr.Lock h w

/-! ### Sample states used to instantiate the theorems -/

/-- A heap with one pointer-owning block at address 1 (strong 1, weak 2) managing the
value at 100, used to instantiate the theorems. -/
def sampleHeap : Heap :=
  { blocks := Function.update (fun _ => none) 1 (some ⟨.ControlBlockPointer, 100, 1, 2⟩),
    weak_this := fun _ => none, destroyed := [], deleted := [] }

/-- The heap `sampleHeap` once the value at 100 has been destroyed (strong 0, weak 2). -/
def sampleExpiredHeap : Heap :=
  { blocks := Function.update (fun _ => none) 1 (some ⟨.ControlBlockPointer, 100, 0, 2⟩),
    weak_this := fun _ => none, destroyed := [100], deleted := [] }

/-- A heap with a pointer-owning block at 1 (value at 100) and an embedded block at 2
(value at 200), each with strong counter 1 and weak counter 0. -/
def sampleTwoHeap : Heap :=
  { blocks := Function.update
      (Function.update (fun _ => none) 1 (some ⟨.ControlBlockPointer, 100, 1, 0⟩))
      2 (some ⟨.ControlBlockObject, 200, 1, 0⟩),
    weak_this := fun _ => none, destroyed := [], deleted := [] }

/-- The `weak_this` member of the value managed by `blk` is absent, unwired, or wired
to the block `b` itself. -/
def Heap.selfWiredTo (h : Heap) (b : Nat) (blk : Block) : Prop :=
  match h.weak_this blk.object_ with
  | none => True
  | some w => w.block_ = 0 ∨ w.block_ = b

/-- The weak counter of `blk`, stored at `b`, without the reference held by the
`weak_this` member of the managed value: the references held by `WeakPtr` handles. -/
def Heap.externalWeak (h : Heap) (b : Nat) (blk : Block) : Nat :=
  match h.weak_this blk.object_ with
  | none => blk.weak_counter_
  | some w => if w.block_ = b then blk.weak_counter_ - 1 else blk.weak_counter_

/-- A heap with one embedded block at address 1 (strong 1, weak 2) whose value, at 100,
is self-observing and wired to the block. -/
def sampleSelfHeap : Heap :=
  { blocks := Function.update (fun _ => none) 1 (some ⟨.ControlBlockObject, 100, 1, 2⟩),
    weak_this := Function.update (fun _ => none) 100 (some ⟨1, 100⟩),
    destroyed := [], deleted := [] }

/-- The program used to instantiate the theorem on expiry: a value is wrapped by
`SharedPtr(T*)`, observed by a `WeakPtr`, and the `SharedPtr` is reset. -/
def sampleExpiredProgram : List Op :=
  [.sharedOfPtr 1 100 false, .weakOfShared 0, .sharedReset 0]

/-- The state reached by `sampleExpiredProgram`. -/
def sampleExpiredState : State :=
  (run State.init sampleExpiredProgram).getD State.init

/-- The state reached by `sampleExpiredProgram` followed by `Lock()` on the `WeakPtr`. -/
def sampleLockedState : State :=
  (step sampleExpiredState (.weakLock 0)).getD State.init

/-- A heap with one embedded block at address 1 (strong 1, weak 1) whose value, at 100,
is self-observing and wired to the block: the only weak reference is `weak_this`. -/
def sampleSelfOnlyHeap : Heap :=
  { blocks := Function.update (fun _ => none) 1 (some ⟨.ControlBlockObject, 100, 1, 1⟩),
    weak_this := Function.update (fun _ => none) 100 (some ⟨1, 100⟩),
    destroyed := [], deleted := [] }

/-- A heap with no block and one self-observing object at 100 that has not been wrapped
by any `SharedPtr`. -/
def sampleUnwrappedHeap : Heap :=
  EnableSharedFromThis.ctor Heap.empty 100

/-- The heap after `SharedPtr(T*)` has wrapped a self-observing value at 100 with a
block at 1, starting from the empty heap. -/
def sampleWrappedHeap : Heap :=
  ((SharedPtr.ofPtr Heap.empty 1 100 true).map Prod.snd).getD Heap.empty

/-- A heap with one block at address 1 of the given shape and counters, managing the
value at 100, which is not self-observing. -/
def sampleCounters (shape : BlockShape) (strong weak : Nat) : Heap :=
  { blocks := Function.update (fun _ => none) 1 (some ⟨shape, 100, strong, weak⟩),
    weak_this := fun _ => none, destroyed := [], deleted := [] }

/-! ### Interleaved calls of `DecStrongCounter`

Two threads call `ControlBlockPointer<T>::DecStrongCounter` on one block.  The counters
are plain `size_t` members and the body takes no lock, so the steps of the two calls
interleave.  A step is the evaluation of one condition or the execution of one
statement; finer steps only add interleavings. -/

/-- Where a thread stands inside `ControlBlockPointer<T>::DecStrongCounter`: before the
first test; after the test `strong_counter_ > 1` was found true and before the
statement `--strong_counter_` that it guards; after the return. -/
inductive DecStrongPc where
  | entry
  | decrement
  | returned
deriving DecidableEq, Repr

/-- One step of a thread inside `ControlBlockPointer<T>::DecStrongCounter` on the block
at `b`.  At `entry` the condition `strong_counter_ > 1` is evaluated; when it is false
the `else` branches run as in `ControlBlockPointer.DecStrongCounter`, in one step.  At
`decrement` the statement `--strong_counter_` runs on the value the counter has
then. -/
def ControlBlockPointer.DecStrongCounter_step (h : Heap) (b : Nat) :
    DecStrongPc → Option (Heap × DecStrongPc)
  | .entry =>
    match h.blocks b with
    | none => none
    | some blk =>
      if blk.strong_counter_ > 1 then some (h, .decrement)
      else (ControlBlockPointer.DecStrongCounter h b blk).map (fun h1 => (h1, .returned))
  | .decrement =>
    match h.blocks b with
    | none => none
    | some blk =>
      some (h.setBlock b { blk with strong_counter_ := size_t_dec blk.strong_counter_ },
        .returned)
  | .returned => none

/-- A thread running its call alone: the steps from `entry` until the return. -/
def ControlBlockPointer.DecStrongCounter_alone (h : Heap) (b : Nat) : Option Heap :=
  match ControlBlockPointer.DecStrongCounter_step h b .entry with
  | none => none
  | some (h1, .returned) => some h1
  | some (h1, pc) => (ControlBlockPointer.DecStrongCounter_step h1 b pc).map Prod.fst

/-- The two threads. -/
inductive Thread where
  | first
  | second
deriving DecidableEq, Repr

/-- The heap and the positions of the two threads, each inside a call of
`DecStrongCounter` on the same block. -/
structure Threads where
  heap : Heap
  first : DecStrongPc
  second : DecStrongPc

/-- The thread `who` makes its next step. -/
def Threads.step (b : Nat) (t : Threads) : Thread → Option Threads
  | .first =>
    (ControlBlockPointer.DecStrongCounter_step t.heap b t.first).map
      (fun r => { t with heap := r.1, first := r.2 })
  | .second =>
    (ControlBlockPointer.DecStrongCounter_step t.heap b t.second).map
      (fun r => { t with heap := r.1, second := r.2 })

/-- The threads step in the order given by the schedule. -/
def Threads.run (b : Nat) (t : Threads) : List Thread → Option Threads
  | [] => some t
  | who :: rest =>
    match t.step b who with
    | none => none
    | some t1 => Threads.run b t1 rest

/-- Comparison `operator==(const SharedPtr<T>& left, const SharedPtr<U>& right)`. -/
def SharedPtr.operator_eq (left right : SharedPtr) : Bool :=
  left.block_ == right.block_ && left.observed_ == right.observed_

/-- The aliasing constructor on `sampleTwoHeap`: a handle on the block at 2 observing
the address 100, which the block at 1 manages; the heap afterwards. -/
def sampleAliasHeap : Heap :=
  ((SharedPtr.alias sampleTwoHeap ⟨2, 200⟩ 100).map Prod.snd).getD Heap.empty

end SharedFromThis

/-! ## The strong-only handle of `shared/shared.h` -/

namespace Shared

/-- The two classes derived from `BaseBlock`. -/
inductive BlockShape where
  | ControlBlockPointer
  | ControlBlockObject
deriving DecidableEq, Repr

/-- Fields of a control block.  For `ControlBlockObject`, `object_` is the address of
the member `T object_`. -/
structure Block where
  shape : BlockShape
  object_ : Nat
  counter_ : Nat
deriving DecidableEq, Repr

/-- Fields of a `SharedPtr<T>`. -/
structure SharedPtr where
  block_ : Nat
  observed_ : Nat
deriving DecidableEq, Repr

/-- The control blocks in memory, the log of destroyed values and the log of deleted
blocks. -/
structure Heap where
  blocks : Nat → Option Block
  destroyed : List Nat
  deleted : List Nat

/-- Overwrite the fields of the block at `b`. -/
def Heap.setBlock (h : Heap) (b : Nat) (blk : Block) : Heap :=
  { h with blocks := Function.update h.blocks b (some blk) }

/-- The memory effect of `delete this` on the block at `b`. -/
def Heap.deleteBlock (h : Heap) (b : Nat) : Heap :=
  { h with blocks := Function.update h.blocks b none, deleted := h.deleted ++ [b] }

/-- Run the destructor of the value at `a`. -/
def Heap.destroyValue (h : Heap) (a : Nat) : Heap :=
  { h with destroyed := h.destroyed ++ [a] }

/-- `ControlBlockPointer<T>::DecCounter` on the block `blk` stored at `b`. -/
def ControlBlockPointer.DecCounter (h : Heap) (b : Nat) (blk : Block) : Heap :=
  let counter1 := if blk.counter_ ≠ 0 then blk.counter_ - 1 else blk.counter_
  if counter1 = 0 then
    let h1 := if blk.object_ ≠ 0 then h.destroyValue blk.object_ else h
    h1.deleteBlock b
  else h.setBlock b { blk with counter_ := counter1 }

/-- `ControlBlockObject<T>::DecCounter` on the block `blk` stored at `b`; `delete this`
destroys the member `object_` with the block. -/
def ControlBlockObject.DecCounter (h : Heap) (b : Nat) (blk : Block) : Heap :=
  let counter1 := if blk.counter_ ≠ 0 then blk.counter_ - 1 else blk.counter_
  if counter1 = 0 then (h.destroyValue blk.object_).deleteBlock b
  else h.setBlock b { blk with counter_ := counter1 }

/-- Virtual call `block->DecCounter()`. -/
def BaseBlock.DecCounter (h : Heap) (b : Nat) : Option Heap :=
  if b = 0 then none
  else match h.blocks b with
    | none => none
    | some blk =>
      match blk.shape with
      | .ControlBlockPointer => some (ControlBlockPointer.DecCounter h b blk)
      | .ControlBlockObject => some (ControlBlockObject.DecCounter h b blk)

/-- Virtual call `block->IncCounter()`. -/
def BaseBlock.IncCounter (h : Heap) (b : Nat) : Option Heap :=
  if b = 0 then none
  else match h.blocks b with
    | none => none
    | some blk => some (h.setBlock b { blk with counter_ := size_t_inc blk.counter_ })

/-- Virtual call `block->GetCounter()`. -/
def BaseBlock.GetCounter (h : Heap) (b : Nat) : Option Nat :=
  if b = 0 then none
  else match h.blocks b with
    | none => none
    | some blk => some blk.counter_

/-- Copy assignment `SharedPtr::operator=(const SharedPtr& other)`.  When `other` is
`*this` the reads of `other` that follow a write see the same values. -/
def SharedPtr.assign (h : Heap) (this other : SharedPtr) : Option (SharedPtr × Heap) :=
  if other.block_ = 0 then some (⟨0, 0⟩, h)
  else
    match (if this.block_ ≠ 0 then BaseBlock.DecCounter h this.block_ else some h) with
    | none => none
    | some h1 =>
      if other.observed_ ≠ this.observed_ then
        match BaseBlock.IncCounter h1 other.block_ with
        | none => none
        | some h2 => some (⟨other.block_, other.observed_⟩, h2)
      else some (this, h1)

/-- `SharedPtr::UseCount`. -/
def SharedPtr.UseCount (h : Heap) (this : SharedPtr) : Option Nat :=
  if this.block_ = 0 then some 0 else BaseBlock.GetCounter h this.block_

/-- A heap with one pointer-owning block at address 1 with counter `n`, managing the
value at 100. -/
def sampleHeap (n : Nat) : Heap :=
  { blocks := Function.update (fun _ => none) 1 (some ⟨.ControlBlockPointer, 100, n⟩),
    destroyed := [], deleted := [] }

end Shared

/-! ## The weak-capable handle of `weak/shared.h` -/

namespace Weak

/-- The two classes derived from `BaseBlock`. -/
inductive BlockShape where
  | ControlBlockPointer
  | ControlBlockObject
deriving DecidableEq, Repr

/-- Fields of a control block.  For `ControlBlockObject`, `object_` is the address of
`buffer_`. -/
structure Block where
  shape : BlockShape
  object_ : Nat
  strong_counter_ : Nat
  weak_counter_ : Nat
deriving DecidableEq, Repr

/-- Fields of a `SharedPtr<T>`. -/
structure SharedPtr where
  block_ : Nat
  observed_ : Nat
deriving DecidableEq, Repr

/-- The control blocks in memory, the log of destroyed values and the log of deleted
blocks. -/
structure Heap where
  blocks : Nat → Option Block
  destroyed : List Nat
  deleted : List Nat

/-- Overwrite the fields of the block at `b`. -/
def Heap.setBlock (h : Heap) (b : Nat) (blk : Block) : Heap :=
  { h with blocks := Function.update h.blocks b (some blk) }

/-- The memory effect of `delete this` on the block at `b`. -/
def Heap.deleteBlock (h : Heap) (b : Nat) : Heap :=
  { h with blocks := Function.update h.blocks b none, deleted := h.deleted ++ [b] }

/-- Run the destructor of the value at `a`. -/
def Heap.destroyValue (h : Heap) (a : Nat) : Heap :=
  { h with destroyed := h.destroyed ++ [a] }

/-- `ControlBlockPointer<T>::DecStrongCounter` on the block `blk` stored at `b`. -/
def ControlBlockPointer.DecStrongCounter (h : Heap) (b : Nat) (blk : Block) : Heap :=
  let strong1 := if blk.strong_counter_ ≠ 0 then blk.strong_counter_ - 1 else blk.strong_counter_
  let h1 := h.setBlock b { blk with strong_counter_ := strong1 }
  if strong1 = 0 then
    let h2 := if blk.object_ ≠ 0 then h1.destroyValue blk.object_ else h1
    if blk.weak_counter_ = 0 then h2.deleteBlock b else h2
  else h1

/-- `ControlBlockPointer<T>::DecWeakCounter` on the block `blk` stored at `b`. -/
def ControlBlockPointer.DecWeakCounter (h : Heap) (b : Nat) (blk : Block) : Heap :=
  let weak1 := if blk.weak_counter_ ≠ 0 then blk.weak_counter_ - 1 else blk.weak_counter_
  let h1 := h.setBlock b { blk with weak_counter_ := weak1 }
  if weak1 = 0 then
    if blk.strong_counter_ = 0 then h1.deleteBlock b else h1
  else h1

/-- `ControlBlockObject<T>::DecStrongCounter` on the block `blk` stored at `b`; the
address of `buffer_` is never null. -/
def ControlBlockObject.DecStrongCounter (h : Heap) (b : Nat) (blk : Block) : Heap :=
  let strong1 := if blk.strong_counter_ ≠ 0 then blk.strong_counter_ - 1 else blk.strong_counter_
  let h1 := h.setBlock b { blk with strong_counter_ := strong1 }
  if strong1 = 0 then
    let h2 := h1.destroyValue blk.object_
    if blk.weak_counter_ = 0 then h2.deleteBlock b else h2
  else h1

/-- `ControlBlockObject<T>::DecWeakCounter` on the block `blk` stored at `b`. -/
def ControlBlockObject.DecWeakCounter (h : Heap) (b : Nat) (blk : Block) : Heap :=
  let weak1 := if blk.weak_counter_ ≠ 0 then blk.weak_counter_ - 1 else blk.weak_counter_
  let h1 := h.setBlock b { blk with weak_counter_ := weak1 }
  if weak1 = 0 then
    if blk.strong_counter_ = 0 then h1.deleteBlock b else h1
  else h1

/-- Virtual call `block->DecStrongCounter()`. -/
def BaseBlock.DecStrongCounter (h : Heap) (b : Nat) : Option Heap :=
  if b = 0 then none
  else match h.blocks b with
    | none => none
    | some blk =>
      match blk.shape with
      | .ControlBlockPointer => some (ControlBlockPointer.DecStrongCounter h b blk)
      | .ControlBlockObject => some (ControlBlockObject.DecStrongCounter h b blk)

/-- Virtual call `block->DecWeakCounter()`. -/
def BaseBlock.DecWeakCounter (h : Heap) (b : Nat) : Option Heap :=
  if b = 0 then none
  else match h.blocks b with
    | none => none
    | some blk =>
      match blk.shape with
      | .ControlBlockPointer => some (ControlBlockPointer.DecWeakCounter h b blk)
      | .ControlBlockObject => some (ControlBlockObject.DecWeakCounter h b blk)

/-- Virtual call `block->IncStrongCounter()`. -/
def BaseBlock.IncStrongCounter (h : Heap) (b : Nat) : Option Heap :=
  if b = 0 then none
  else match h.blocks b with
    | none => none
    | some blk =>
      some (h.setBlock b { blk with strong_counter_ := size_t_inc blk.strong_counter_ })

/-- Virtual call `block->GetStrongCounter()`. -/
def BaseBlock.GetStrongCounter (h : Heap) (b : Nat) : Option Nat :=
  if b = 0 then none
  else match h.blocks b with
    | none => none
    | some blk => some blk.strong_counter_

/-- Copy assignment `SharedPtr::operator=(const SharedPtr& other)`.  When `other` is
`*this` the reads of `other` that follow a write see the same values. -/
def SharedPtr.assign (h : Heap) (this other : SharedPtr) : Option (SharedPtr × Heap) :=
  if other.block_ = 0 then some (⟨0, 0⟩, h)
  else
    match (if this.block_ ≠ 0 then BaseBlock.DecStrongCounter h this.block_ else some h) with
    | none => none
    | some h1 =>
      if other.observed_ ≠ this.observed_ then
        match BaseBlock.IncStrongCounter h1 other.block_ with
        | none => none
        | some h2 => some (⟨other.block_, other.observed_⟩, h2)
      else some (this, h1)

/-- `SharedPtr::UseCount`. -/
def SharedPtr.UseCount (h : Heap) (this : SharedPtr) : Option Nat :=
  if this.block_ = 0 then some 0 else BaseBlock.GetStrongCounter h this.block_

/-- A heap with one pointer-owning block at address 1 with strong counter `n` and weak
counter 0, managing the value at 100. -/
def sampleHeap (n : Nat) : Heap :=
  { blocks := Function.update (fun _ => none) 1 (some ⟨.ControlBlockPointer, 100, n, 0⟩),
    destroyed := [], deleted := [] }

/-! ### Interleaved calls of `DecStrongCounter`

Two threads call `ControlBlockPointer<T>::DecStrongCounter` on one block; a step is the
evaluation of one condition or the execution of one statement. -/

/-- Where a thread stands inside `ControlBlockPointer<T>::DecStrongCounter`: before the
test `strong_counter_ != 0`; before the statement `--strong_counter_`; before the test
`strong_counter_ == 0`; before the body guarded by that test; after the return. -/
inductive DecStrongPc where
  | entry
  | decrement
  | test
  | cleanup
  | returned
deriving DecidableEq, Repr

/-- One step of a thread inside `ControlBlockPointer<T>::DecStrongCounter` on the block
at `b`. -/
def ControlBlockPointer.DecStrongCounter_step (h : Heap) (b : Nat) (pc : DecStrongPc) :
    Option (Heap × DecStrongPc) :=
  match h.blocks b with
  | none => none
  | some blk =>
    match pc with
    | .entry => if blk.strong_counter_ ≠ 0 then some (h, .decrement) else some (h, .test)
    | .decrement =>
      some (h.setBlock b { blk with strong_counter_ := size_t_dec blk.strong_counter_ }, .test)
    | .test => if blk.strong_counter_ = 0 then some (h, .cleanup) else some (h, .returned)
    | .cleanup =>
      let h2 := if blk.object_ ≠ 0 then h.destroyValue blk.object_ else h
      if blk.weak_counter_ = 0 then some (h2.deleteBlock b, .returned)
      else some (h2, .returned)
    | .returned => none

/-- The two threads. -/
inductive Thread where
  | first
  | second
deriving DecidableEq, Repr

/-- The heap and the positions of the two threads, each inside a call of
`DecStrongCounter` on the same block. -/
structure Threads where
  heap : Heap
  first : DecStrongPc
  second : DecStrongPc

/-- The thread `who` makes its next step. -/
def Threads.step (b : Nat) (t : Threads) : Thread → Option Threads
  | .first =>
    (ControlBlockPointer.DecStrongCounter_step t.heap b t.first).map
      (fun r => { t with heap := r.1, first := r.2 })
  | .second =>
    (ControlBlockPointer.DecStrongCounter_step t.heap b t.second).map
      (fun r => { t with heap := r.1, second := r.2 })

/-- The threads step in the order given by the schedule. -/
def Threads.run (b : Nat) (t : Threads) : List Thread → Option Threads
  | [] => some t
  | who :: rest =>
    match t.step b who with
    | none => none
    | some t1 => Threads.run b t1 rest

/-- A thread running its call alone: at most four steps from `entry`. -/
def ControlBlockPointer.DecStrongCounter_alone (h : Heap) (b : Nat) : Option Heap :=
  (Threads.run b ⟨h, .entry, .returned⟩ [.first, .first, .first]).bind (fun t =>
    if t.first = .returned then some t.heap
    else (t.step b .first).map (fun t1 => t1.heap))

/-- One block at 1 managing the value at 100, with the given counters. -/
def sampleCounters (strong weak : Nat) : Heap :=
  { blocks := Function.update (fun _ => none) 1 (some ⟨.ControlBlockPointer, 100, strong, weak⟩),
    destroyed := [], deleted := [] }

end Weak

/-! ## The exclusive handle of `unique/unique.h` -/

namespace Unique

/-- The two slots of a `CompressedPair<F, S>` (compressed_pair.h); which slots occupy
storage is not modelled. -/
structure CompressedPair (F S : Type) where
  first_ : F
  second_ : S

/-- `CompressedPair::GetFirst`. -/
def CompressedPair.GetFirst {F S : Type} (p : CompressedPair F S) : F := p.first_

/-- `CompressedPair::GetSecond`. -/
def CompressedPair.GetSecond {F S : Type} (p : CompressedPair F S) : S := p.second_

/-- A `UniquePtr<T, Deleter>`: the member `ptr_` pairs the owned address (0 is
`nullptr`) with the deleter; `D` is the type of deleters. -/
structure UniquePtr (D : Type) where
  ptr_ : CompressedPair Nat D

/-- One invocation `GetDeleter()(address)`: the deleter invoked, the address passed to
it, and what `Get()` of the invoking handle returns while the deleter runs. -/
structure DeleterCall (D : Type) where
  deleter : D
  address : Nat
  installed : Nat
deriving DecidableEq, Repr

/-- `UniquePtr::Get`. -/
def UniquePtr.Get {D : Type} (u : UniquePtr D) : Nat := u.ptr_.GetFirst

/-- `UniquePtr::GetDeleter`. -/
def UniquePtr.GetDeleter {D : Type} (u : UniquePtr D) : D := u.ptr_.GetSecond

/-- Conversion `explicit operator bool()`. -/
def UniquePtr.toBool {D : Type} (u : UniquePtr D) : Bool := u.Get != 0

/-- `UniquePtr::Release`: the returned address and the handle afterwards. -/
def UniquePtr.Release {D : Type} (u : UniquePtr D) : Nat × UniquePtr D :=
  (u.Get, { ptr_ := { u.ptr_ with first_ := 0 } })

/-- `UniquePtr::Reset(T* ptr)`: the handle afterwards and the invocations of deleters so
far, the log `calls` extended by the one made here.  Running a deleter is taken not
to touch the handle. -/
def UniquePtr.Reset {D : Type} (u : UniquePtr D) (calls : List (DeleterCall D)) (ptr : Nat) :
    UniquePtr D × List (DeleterCall D) :=
  let temporary := u.Get
  let u1 : UniquePtr D := { ptr_ := { u.ptr_ with first_ := ptr } }
  if temporary ≠ 0 then (u1, calls ++ [⟨u1.GetDeleter, temporary, u1.Get⟩])
  else (u1, calls)

/-- Destructor `~UniquePtr()`, which calls `Reset()` with the default argument
`nullptr`: the invocations of deleters afterwards. -/
def UniquePtr.destructor {D : Type} (u : UniquePtr D) (calls : List (DeleterCall D)) :
    List (DeleterCall D) :=
  (u.Reset calls 0).2

/-- A handle owning the address 100 with the deleter named 7. -/
def sampleUnique : UniquePtr Nat := { ptr_ := ⟨100, 7⟩ }

/-- An empty handle with the deleter named 7. -/
def sampleEmptyUnique : UniquePtr Nat := { ptr_ := ⟨0, 7⟩ }

/-- Move constructor `UniquePtr(UniquePtr&& other)`: the new handle and `other`
afterwards.  A deleter is a value; moving it hands the value over, and what the move
leaves in the slot of `other` is taken to be that value too. -/
def UniquePtr.move {D : Type} (other : UniquePtr D) : UniquePtr D × UniquePtr D :=
  let r := other.Release
  ({ ptr_ := ⟨r.1, r.2.GetDeleter⟩ }, r.2)

/-- Move assignment `operator=(UniquePtr&& other)` for `other` an object different from
`*this`: the destination, `other` afterwards, and the invocations of deleters. -/
def UniquePtr.moveAssign {D : Type} (this other : UniquePtr D) (calls : List (DeleterCall D)) :
    UniquePtr D × UniquePtr D × List (DeleterCall D) :=
  let r := other.Release
  let t := this.Reset calls r.1
  ({ ptr_ := { t.1.ptr_ with second_ := r.2.GetDeleter } }, r.2, t.2)

/-- Move assignment `operator=(UniquePtr&& other)` when `other` is `*this`:
`Release()` empties the handle that `Reset` then reads. -/
def UniquePtr.moveAssignSelf {D : Type} (this : UniquePtr D) (calls : List (DeleterCall D)) :
    UniquePtr D × List (DeleterCall D) :=
  let r := this.Release
  let t := r.2.Reset calls r.1
  ({ ptr_ := { t.1.ptr_ with second_ := t.1.GetDeleter } }, t.2)

/-- `UniquePtr::Swap` for `other` an object different from `*this`: `*this` and `other`
afterwards. -/
def UniquePtr.Swap {D : Type} (this other : UniquePtr D) : UniquePtr D × UniquePtr D :=
  ({ ptr_ := ⟨other.ptr_.GetFirst, other.ptr_.GetSecond⟩ },
   { ptr_ := ⟨this.ptr_.GetFirst, this.ptr_.GetSecond⟩ })

/-! ### Programs over exclusive handles

The state of a program is the list of the `UniquePtr` objects constructed so far (a
destroyed object leaves `none` in its slot) and the invocations of deleters.  An
operation names the objects it acts on by position. -/

/-- The handle objects of a program and the invocations of deleters so far. -/
structure State (D : Type) where
  handles : List (Option (UniquePtr D))
  calls : List (DeleterCall D)

/-- The operations on existing handles that take no raw address. -/
inductive Op where
  | move (src : Nat)
  | moveAssign (dst src : Nat)
  | release (i : Nat)
  | reset (i : Nat)
  | swap (i j : Nat)
  | destroy (i : Nat)
deriving DecidableEq, Repr

/-- The live handle in slot `i`. -/
def State.getHandle {D : Type} (s : State D) (i : Nat) : Option (UniquePtr D) :=
  match s.handles[i]? with
  | some (some u) => some u
  | _ => none

/-- One operation; `none` when it names an object that does not exist or has been
destroyed.  `release` drops the returned address: the caller has it, no handle does. -/
def step {D : Type} (s : State D) : Op → Option (State D)
  | .move src =>
    match s.getHandle src with
    | none => none
    | some u =>
      let r := u.move
      some { s with handles := s.handles.set src (some r.2) ++ [some r.1] }
  | .moveAssign dst src =>
    match s.getHandle dst, s.getHandle src with
    | some t, some u =>
      if dst = src then
        let r := t.moveAssignSelf s.calls
        some { handles := s.handles.set dst (some r.1), calls := r.2 }
      else
        let r := t.moveAssign u s.calls
        some { handles := (s.handles.set dst (some r.1)).set src (some r.2.1),
               calls := r.2.2 }
    | _, _ => none
  | .release i =>
    match s.getHandle i with
    | none => none
    | some u => some { s with handles := s.handles.set i (some u.Release.2) }
  | .reset i =>
    match s.getHandle i with
    | none => none
    | some u =>
      let r := u.Reset s.calls 0
      some { handles := s.handles.set i (some r.1), calls := r.2 }
  | .swap i j =>
    match s.getHandle i, s.getHandle j with
    | some t, some u =>
      if i = j then some s
      else
        let r := t.Swap u
        some { s with handles := (s.handles.set i (some r.1)).set j (some r.2) }
    | _, _ => none
  | .destroy i =>
    match s.getHandle i with
    | none => none
    | some u => some { handles := s.handles.set i none, calls := u.destructor s.calls }

/-- A sequence of operations, stopping at the first undefined one. -/
def run {D : Type} (s : State D) : List Op → Option (State D)
  | [] => some s
  | op :: ops =>
    match step s op with
    | none => none
    | some s1 => run s1 ops

/-- The address held by the live handle in slot `i` of `hs`; 0 when there is none. -/
def addrAt {D : Type} (hs : List (Option (UniquePtr D))) (i : Nat) : Nat :=
  match hs[i]? with
  | some (some u) => u.Get
  | _ => 0

/-- Exclusive ownership: two slots holding the same non-null address are the same slot,
and a deleter has only been invoked on non-null addresses that no live handle holds. -/
def State.Exclusive {D : Type} (s : State D) : Prop :=
  (∀ i j, addrAt s.handles i ≠ 0 → addrAt s.handles i = addrAt s.handles j → i = j) ∧
  (∀ c ∈ s.calls, c.address ≠ 0 ∧ ∀ i, addrAt s.handles i ≠ c.address)

/-- Two handles owning 100 and 200, no deleter invoked yet. -/
def sampleState : State Nat :=
  { handles := [some ⟨⟨100, 7⟩⟩, some ⟨⟨200, 8⟩⟩], calls := [] }

/-- A program over `sampleState` that uses each operation. -/
def sampleProgram : List Op :=
  [.moveAssign 0 1, .move 0, .swap 1 2, .release 0, .reset 1, .destroy 2, .moveAssign 1 1]

/-- The slots an operation names. -/
def Op.operands : Op → List Nat
  | .move src => [src]
  | .moveAssign dst src => [dst, src]
  | .release i => [i]
  | .reset i => [i]
  | .swap i j => [i, j]
  | .destroy i => [i]

/-- The state `sampleProgram` ends in. -/
def sampleFinalState : State Nat :=
  (run sampleState sampleProgram).getD sampleState

end Unique

/-! ## The intrusive handle of `intrusive.h` -/

namespace Intrusive

/-- `SimpleCounter::IncRef`: the counter afterwards, which is also the returned value. -/
def SimpleCounter.IncRef (count_ : Nat) : Nat := size_t_inc count_

/-- `SimpleCounter::DecRef`: the counter afterwards, which is also the returned value. -/
def SimpleCounter.DecRef (count_ : Nat) : Nat :=
  if count_ ≠ 0 then count_ - 1 else count_

/-- `SimpleCounter::RefCount`. -/
def SimpleCounter.RefCount (count_ : Nat) : Nat := count_

/-- Memory as the handles see it: `counter_ a` is the `SimpleCounter` of the
`RefCounted` object living at `a` (`none` when no object lives there); `destroyed`
lists, in order, the objects on which `Deleter::Destroy` has been invoked. -/
structure Heap where
  counter_ : Nat → Option Nat
  destroyed : List Nat

/-- A heap with no object. -/
def Heap.empty : Heap := { counter_ := fun _ => none, destroyed := [] }

/-- The effect of `new T(...)` returning the address `a`: the allocator returns a
non-null address that is not in use, and the new object's counter starts at 0. -/
def Heap.newObject (h : Heap) (a : Nat) : Option Heap :=
  if a = 0 then none
  else match h.counter_ a with
    | some _ => none
    | none => some { h with counter_ := Function.update h.counter_ a (some 0) }

/-- `Deleter::Destroy(object)` with `DefaultDelete`: the object at `a` is deleted. -/
def DefaultDelete.Destroy (h : Heap) (a : Nat) : Heap :=
  { counter_ := Function.update h.counter_ a none, destroyed := h.destroyed ++ [a] }

/-- `RefCounted::IncRef` on the object at `a`; a call on a dead object has no defined
outcome. -/
def RefCounted.IncRef (h : Heap) (a : Nat) : Option Heap :=
  match h.counter_ a with
  | none => none
  | some c => some { h with counter_ := Function.update h.counter_ a (some (SimpleCounter.IncRef c)) }

/-- `RefCounted::DecRef` on the object at `a`. -/
def RefCounted.DecRef (h : Heap) (a : Nat) : Option Heap :=
  match h.counter_ a with
  | none => none
  | some c =>
    let h1 : Heap :=
      { h with counter_ := Function.update h.counter_ a (some (SimpleCounter.DecRef c)) }
    if SimpleCounter.RefCount (SimpleCounter.DecRef c) = 0 then some (DefaultDelete.Destroy h1 a)
    else some h1

/-- `RefCounted::RefCount` on the object at `a`. -/
def RefCounted.RefCount (h : Heap) (a : Nat) : Option Nat :=
  (h.counter_ a).map SimpleCounter.RefCount

/-- The field of an `IntrusivePtr<T>`; 0 is `nullptr`. -/
structure IntrusivePtr where
  ptr_ : Nat
deriving DecidableEq, Repr

/-- `IntrusivePtr::Reset()`. -/
def IntrusivePtr.Reset (h : Heap) (this : IntrusivePtr) : Option (IntrusivePtr × Heap) :=
  if this.ptr_ ≠ 0 then
    match RefCounted.DecRef h this.ptr_ with
    | none => none
    | some h1 => some (⟨0⟩, h1)
  else some (⟨0⟩, h)

/-- Destructor `~IntrusivePtr()`. -/
def IntrusivePtr.destructor (h : Heap) (this : IntrusivePtr) : Option Heap :=
  (IntrusivePtr.Reset h this).map Prod.snd

/-- Constructor `IntrusivePtr(T* ptr)`; the member `ptr_` starts as `nullptr`. -/
def IntrusivePtr.ofPtr (h : Heap) (ptr : Nat) : Option (IntrusivePtr × Heap) :=
  let this : IntrusivePtr := ⟨0⟩
  if this.ptr_ ≠ ptr then
    match IntrusivePtr.Reset h this with
    | none => none
    | some (_, h1) =>
      if ptr ≠ 0 then
        match RefCounted.IncRef h1 ptr with
        | none => none
        | some h2 => some (⟨ptr⟩, h2)
      else some (⟨ptr⟩, h1)
  else some (this, h)

/-- Copy constructor `IntrusivePtr(const IntrusivePtr& other)`. -/
def IntrusivePtr.copy (h : Heap) (other : IntrusivePtr) : Option (IntrusivePtr × Heap) :=
  let this : IntrusivePtr := ⟨0⟩
  if this.ptr_ ≠ other.ptr_ then
    match IntrusivePtr.Reset h this with
    | none => none
    | some (_, h1) =>
      if other.ptr_ ≠ 0 then
        match RefCounted.IncRef h1 other.ptr_ with
        | none => none
        | some h2 => some (⟨other.ptr_⟩, h2)
      else some (⟨other.ptr_⟩, h1)
  else some (this, h)

/-- Move constructor `IntrusivePtr(IntrusivePtr&& other)`: the new handle, `other`
afterwards and the heap. -/
def IntrusivePtr.move (h : Heap) (other : IntrusivePtr) :
    Option (IntrusivePtr × IntrusivePtr × Heap) :=
  let this : IntrusivePtr := ⟨0⟩
  if this.ptr_ ≠ other.ptr_ then
    match IntrusivePtr.Reset h this with
    | none => none
    | some (_, h1) =>
      match (if other.ptr_ ≠ 0 then RefCounted.IncRef h1 other.ptr_ else some h1) with
      | none => none
      | some h2 =>
        match IntrusivePtr.Reset h2 other with
        | none => none
        | some (other1, h3) => some (⟨other.ptr_⟩, other1, h3)
  else some (this, other, h)

/-- Copy assignment `operator=(const IntrusivePtr& other)`. -/
def IntrusivePtr.assign (h : Heap) (this other : IntrusivePtr) :
    Option (IntrusivePtr × Heap) :=
  if this.ptr_ ≠ other.ptr_ then
    match IntrusivePtr.Reset h this with
    | none => none
    | some (_, h1) =>
      if other.ptr_ ≠ 0 then
        match RefCounted.IncRef h1 other.ptr_ with
        | none => none
        | some h2 => some (⟨other.ptr_⟩, h2)
      else some (⟨other.ptr_⟩, h1)
  else some (this, h)

/-- Move assignment `operator=(IntrusivePtr&& other)`: the destination, `other`
afterwards and the heap.  The last statement of the body is `other.ptr_ = nullptr`. -/
def IntrusivePtr.moveAssign (h : Heap) (this other : IntrusivePtr) :
    Option (IntrusivePtr × IntrusivePtr × Heap) :=
  if this.ptr_ ≠ other.ptr_ then
    match IntrusivePtr.Reset h this with
    | none => none
    | some (_, h1) =>
      if other.ptr_ ≠ 0 then
        match RefCounted.IncRef h1 other.ptr_ with
        | none => none
        | some h2 => some (⟨other.ptr_⟩, ⟨0⟩, h2)
      else some (⟨other.ptr_⟩, ⟨0⟩, h1)
  else some (this, other, h)

/-- `IntrusivePtr::Get`. -/
def IntrusivePtr.Get (this : IntrusivePtr) : Nat := this.ptr_

/-- `IntrusivePtr::UseCount`. -/
def IntrusivePtr.UseCount (h : Heap) (this : IntrusivePtr) : Option Nat :=
  if this.ptr_ = 0 then some 0 else RefCounted.RefCount h this.ptr_

/-- `MakeIntrusive<T>(args...)`: `new T` at the address `a`, then `result` is
constructed from the raw pointer; `return result` either constructs the returned
handle in place (`elide`) or move-constructs it from `result`, which is then
destroyed. -/
def MakeIntrusive (h : Heap) (a : Nat) (elide : Bool) : Option (IntrusivePtr × Heap) :=
  match h.newObject a with
  | none => none
  | some h1 =>
    match IntrusivePtr.ofPtr h1 a with
    | none => none
    | some (result, h2) =>
      if elide then some (result, h2)
      else
        match IntrusivePtr.move h2 result with
        | none => none
        | some (returned, result1, h3) =>
          match IntrusivePtr.destructor h3 result1 with
          | none => none
          | some h4 => some (returned, h4)

/-- One object at 100 whose counter is `n`. -/
def sampleHeap (n : Nat) : Heap :=
  { counter_ := Function.update (fun _ => none) 100 (some n), destroyed := [] }

end Intrusive

/-! ## The blocks of `shared-from-this/shared.h` seen as blocks of `weak/shared.h`

The two files declare the same fields for `ControlBlockPointer`; a state of the first
is read as a state of the second by forgetting the `weak_this` members. -/

/-- The class of a block, read in `weak/shared.h`. -/
def SharedFromThis.BlockShape.toWeak : SharedFromThis.BlockShape → Weak.BlockShape
  | .ControlBlockPointer => .ControlBlockPointer
  | .ControlBlockObject => .ControlBlockObject

/-- The same fields, read in `weak/shared.h`. -/
def SharedFromThis.Block.toWeak (blk : SharedFromThis.Block) : Weak.Block :=
  { shape := blk.shape.toWeak, object_ := blk.object_,
    strong_counter_ := blk.strong_counter_, weak_counter_ := blk.weak_counter_ }

/-- The same blocks and logs, read in `weak/shared.h`. -/
def SharedFromThis.Heap.toWeak (h : SharedFromThis.Heap) : Weak.Heap :=
  { blocks := fun a => (h.blocks a).map SharedFromThis.Block.toWeak,
    destroyed := h.destroyed, deleted := h.deleted }

/-! ## Theorems -/

theorem size_t_inc_of_lt {n : Nat} (hn : n + 1 < SIZE_T_MOD) : size_t_inc n = n + 1 := by
  unfold size_t_inc
  exact Nat.mod_eq_of_lt hn

theorem size_t_dec_of_pos {n : Nat} (h1 : 1 ≤ n) (hn : n < SIZE_T_MOD) :
    size_t_dec n = n - 1 := by
  unfold size_t_dec
  have hsum : n + SIZE_T_MOD - 1 = (n - 1) + SIZE_T_MOD := by omega
  rw [hsum, Nat.add_mod_right]
  exact Nat.mod_eq_of_lt (by omega)

theorem size_t_mod_pos : 2 < SIZE_T_MOD := by
  unfold SIZE_T_MOD
  norm_num

namespace SharedFromThis

@[simp] theorem Heap.setBlock_blocks_same (h : Heap) (b : Nat) (blk : Block) :
    (h.setBlock b blk).blocks b = some blk := by
  simp [Heap.setBlock]

theorem Heap.setBlock_blocks_ne (h : Heap) {b b1 : Nat} (blk : Block) (hne : b1 ≠ b) :
    (h.setBlock b blk).blocks b1 = h.blocks b1 := by
  simp [Heap.setBlock, Function.update_noteq hne]

@[simp] theorem Heap.deleteBlock_blocks_same (h : Heap) (b : Nat) :
    (h.deleteBlock b).blocks b = none := by
  simp [Heap.deleteBlock]

theorem Heap.deleteBlock_blocks_ne (h : Heap) {b b1 : Nat} (hne : b1 ≠ b) :
    (h.deleteBlock b).blocks b1 = h.blocks b1 := by
  simp [Heap.deleteBlock, Function.update_noteq hne]

/-- Writing back the fields a block already has leaves the heap as it is. -/
theorem Heap.setBlock_self (h : Heap) {b : Nat} {blk : Block} (hb : h.blocks b = some blk) :
    h.setBlock b blk = h := by
  cases h with
  | mk blocks weak_this destroyed deleted =>
    simp only [Heap.setBlock, Heap.mk.injEq, and_true]
    simp only at hb
    rw [← hb]
    exact Function.update_eq_self b blocks

/-- A second write to the same block overrides the first. -/
theorem Heap.setBlock_setBlock (h : Heap) (b : Nat) (blk1 blk2 : Block) :
    (h.setBlock b blk1).setBlock b blk2 = h.setBlock b blk2 := by
  simp [Heap.setBlock]

/-- A weak handle is not expired exactly when its block is allocated with a non-zero
strong counter. -/
theorem WeakPtr.Expired_eq_false_iff (h : Heap) (w : WeakPtr) :
    WeakPtr.Expired h w = some false ↔
      w.block_ ≠ 0 ∧ ∃ blk, h.blocks w.block_ = some blk ∧ blk.strong_counter_ ≠ 0 := by
  unfold WeakPtr.Expired BaseBlock.GetStrongCounter
  by_cases hb : w.block_ = 0
  · simp [hb]
  · cases hblk : h.blocks w.block_ with
    | none => simp [hb]
    | some blk => simp [hb]

/-- A weak handle is expired exactly when it is empty or its block is allocated with a
zero strong counter. -/
theorem WeakPtr.Expired_eq_true_iff (h : Heap) (w : WeakPtr) :
    WeakPtr.Expired h w = some true ↔
      w.block_ = 0 ∨ ∃ blk, h.blocks w.block_ = some blk ∧ blk.strong_counter_ = 0 := by
  unfold WeakPtr.Expired BaseBlock.GetStrongCounter
  by_cases hb : w.block_ = 0
  · simp [hb]
  · cases hblk : h.blocks w.block_ with
    | none => simp [hb]
    | some blk => simp [hb]

/-- What `Lock` does on a handle that is not expired, in terms of the block. -/
theorem WeakPtr.Lock_of_block {h : Heap} {w : WeakPtr} {blk : Block} (hb : w.block_ ≠ 0)
    (hblk : h.blocks w.block_ = some blk) (hsc : blk.strong_counter_ ≠ 0) :
    WeakPtr.Lock h w = some (⟨w.block_, w.observed_⟩,
      h.setBlock w.block_ { blk with strong_counter_ := size_t_inc blk.strong_counter_ }) := by
  simp [WeakPtr.Lock, WeakPtr.Expired, BaseBlock.GetStrongCounter, BaseBlock.IncStrongCounter,
    hb, hblk, hsc]

/-- C4: `Lock()` on a weak handle that is not expired returns a shared handle with the
weak handle's block and observed address, and the block's `UseCount()` is one more
than before (the counter being below the largest `size_t`); `Lock()` on an expired
weak handle (empty, or strong counter zero) returns the empty handle and leaves the
heap, hence every counter, as it was. -/
theorem WeakPtr.Lock_spec (h : Heap) (w : WeakPtr) :
    (∀ n, WeakPtr.Expired h w = some false → WeakPtr.UseCount h w = some n →
        n + 1 < SIZE_T_MOD →
        ∃ h1, WeakPtr.Lock h w = some (⟨w.block_, w.observed_⟩, h1) ∧
          SharedPtr.UseCount h1 ⟨w.block_, w.observed_⟩ = some (n + 1) ∧
          WeakPtr.UseCount h1 w = some (n + 1)) ∧
    (WeakPtr.Expired h w = some true →
        WeakPtr.Lock h w = some (⟨0, 0⟩, h) ∧ SharedPtr.Get ⟨0, 0⟩ = 0 ∧
          SharedPtr.UseCount h ⟨0, 0⟩ = some 0) := by
  constructor
  · intro n hexp huse hn
    obtain ⟨hb, blk, hblk, hsc⟩ := (WeakPtr.Expired_eq_false_iff h w).mp hexp
    have hn1 : blk.strong_counter_ = n := by
      simpa [WeakPtr.UseCount, BaseBlock.GetStrongCounter, hb, hblk] using huse
    refine ⟨_, WeakPtr.Lock_of_block hb hblk hsc, ?_, ?_⟩
    · simp [SharedPtr.UseCount, BaseBlock.GetStrongCounter, hb, hn1, size_t_inc_of_lt hn]
    · simp [WeakPtr.UseCount, BaseBlock.GetStrongCounter, hb, hn1, size_t_inc_of_lt hn]
  · intro hexp
    simp [WeakPtr.Lock, hexp, SharedPtr.Get, SharedPtr.UseCount]

/-- Instance of `WeakPtr.Lock_spec`: a live block with strong counter 1, and the same
block once expired. -/
theorem WeakPtr.Lock_spec_witness :
    (∃ h1, WeakPtr.Lock sampleHeap ⟨1, 100⟩ = some (⟨1, 100⟩, h1) ∧
        SharedPtr.UseCount h1 ⟨1, 100⟩ = some 2 ∧ WeakPtr.UseCount h1 ⟨1, 100⟩ = some 2) ∧
    (WeakPtr.Lock sampleExpiredHeap ⟨1, 100⟩ = some (⟨0, 0⟩, sampleExpiredHeap) ∧
      SharedPtr.Get ⟨0, 0⟩ = 0 ∧ SharedPtr.UseCount sampleExpiredHeap ⟨0, 0⟩ = some 0) :=
  ⟨(WeakPtr.Lock_spec sampleHeap ⟨1, 100⟩).1 1 (by decide) (by decide)
      (by unfold SIZE_T_MOD; norm_num),
    (WeakPtr.Lock_spec sampleExpiredHeap ⟨1, 100⟩).2 (by decide)⟩

/-- C5: promoting a weak handle with `SharedPtr(const WeakPtr&)` throws `BadWeakPtr`
exactly when the handle is expired, and then the heap, hence every counter, is left
as it was; otherwise the new handle holds the weak handle's block and observed
address and the strong counter of the block is one more than before (the counter
being below the largest `size_t`). -/
theorem SharedPtr.ofWeak_spec (h : Heap) (w : WeakPtr) :
    (∀ e, WeakPtr.Expired h w = some e →
        ((∃ h1, SharedPtr.ofWeak h w = some (.error .mk, h1)) ↔ e = true)) ∧
    (WeakPtr.Expired h w = some true → SharedPtr.ofWeak h w = some (.error .mk, h)) ∧
    (∀ n, WeakPtr.Expired h w = some false → WeakPtr.UseCount h w = some n →
        n + 1 < SIZE_T_MOD →
        ∃ h1, SharedPtr.ofWeak h w = some (.ok ⟨w.block_, w.observed_⟩, h1) ∧
          SharedPtr.UseCount h1 ⟨w.block_, w.observed_⟩ = some (n + 1)) := by
  refine ⟨?_, ?_, ?_⟩
  · intro e he
    cases e with
    | true => simp [SharedPtr.ofWeak, he]
    | false =>
      obtain ⟨hb, blk, hblk, _⟩ := (WeakPtr.Expired_eq_false_iff h w).mp he
      simp [SharedPtr.ofWeak, he, hb, BaseBlock.IncStrongCounter, hblk]
  · intro he
    simp [SharedPtr.ofWeak, he]
  · intro n he huse hn
    obtain ⟨hb, blk, hblk, _⟩ := (WeakPtr.Expired_eq_false_iff h w).mp he
    have hn1 : blk.strong_counter_ = n := by
      simpa [WeakPtr.UseCount, BaseBlock.GetStrongCounter, hb, hblk] using huse
    refine ⟨h.setBlock w.block_ { blk with strong_counter_ := size_t_inc blk.strong_counter_ },
      ?_, ?_⟩
    · simp [SharedPtr.ofWeak, he, hb, BaseBlock.IncStrongCounter, hblk]
    · simp [SharedPtr.UseCount, BaseBlock.GetStrongCounter, hb, hn1, size_t_inc_of_lt hn]

/-- Instance of `SharedPtr.ofWeak_spec`: an expired block, and a live block with strong
counter 1. -/
theorem SharedPtr.ofWeak_spec_witness :
    ((∃ h1, SharedPtr.ofWeak sampleExpiredHeap ⟨1, 100⟩ = some (.error .mk, h1)) ↔
        true = true) ∧
    SharedPtr.ofWeak sampleExpiredHeap ⟨1, 100⟩ = some (.error .mk, sampleExpiredHeap) ∧
    (∃ h1, SharedPtr.ofWeak sampleHeap ⟨1, 100⟩ = some (.ok ⟨1, 100⟩, h1) ∧
        SharedPtr.UseCount h1 ⟨1, 100⟩ = some 2) :=
  ⟨(SharedPtr.ofWeak_spec sampleExpiredHeap ⟨1, 100⟩).1 true (by decide),
    (SharedPtr.ofWeak_spec sampleExpiredHeap ⟨1, 100⟩).2.1 (by decide),
    (SharedPtr.ofWeak_spec sampleHeap ⟨1, 100⟩).2.2 1 (by decide) (by decide)
      (by unfold SIZE_T_MOD; norm_num)⟩

/-- C7 (the code at the failing input): a handle made by `SharedPtr(T*)` from a null
pointer has a block (strong counter 1) and a null observed address; copy-constructing
from it yields the empty handle and leaves the strong counter at 1. -/
theorem SharedPtr.copy_null_observed_is_empty :
    (SharedPtr.ofPtr Heap.empty 1 0 false).bind (fun x =>
        (SharedPtr.copy x.2 x.1).map (fun y => (x.1, y.1, y.2.blocks 1))) =
      some (⟨1, 0⟩, ⟨0, 0⟩, some ⟨.ControlBlockPointer, 0, 1, 0⟩) := by
  decide

/-- C10: move-constructing from a non-empty source whose block is live (strong counter
at least 1 and below the largest `size_t`) yields a destination with the source's block
and observed address, leaves the source empty (`Get()` null, `UseCount()` 0) and leaves
the heap as it was: the strong counter is unchanged and no value is destroyed.  From
an empty source the destination is empty. -/
theorem SharedPtr.move_spec (h : Heap) (other : SharedPtr) :
    (∀ blk, other.block_ ≠ 0 → h.blocks other.block_ = some blk →
        1 ≤ blk.strong_counter_ → blk.strong_counter_ + 1 < SIZE_T_MOD →
        SharedPtr.move h other = some (⟨other.block_, other.observed_⟩, ⟨0, 0⟩, h) ∧
          SharedPtr.Get ⟨0, 0⟩ = 0 ∧ SharedPtr.UseCount h ⟨0, 0⟩ = some 0 ∧
          SharedPtr.UseCount h ⟨other.block_, other.observed_⟩ = some blk.strong_counter_) ∧
    (other.block_ = 0 →
        SharedPtr.move h other = some (⟨0, 0⟩, other, h)) := by
  constructor
  · intro blk hb hblk hsc hov
    refine ⟨?_, by simp [SharedPtr.Get], by simp [SharedPtr.UseCount], ?_⟩
    · have hgt : size_t_inc blk.strong_counter_ > 1 := by
        rw [size_t_inc_of_lt hov]; omega
      have hback : size_t_inc blk.strong_counter_ - 1 = blk.strong_counter_ := by
        rw [size_t_inc_of_lt hov]; omega
      cases hshape : blk.shape <;>
      · simp [SharedPtr.move, SharedPtr.Reset, hb, BaseBlock.IncStrongCounter, hblk,
          BaseBlock.DecStrongCounter, hshape, ControlBlockPointer.DecStrongCounter,
          ControlBlockObject.DecStrongCounter, hgt, hback, Heap.setBlock_setBlock]
        rw [← hshape]
        exact Heap.setBlock_self h hblk
    · simp [SharedPtr.UseCount, BaseBlock.GetStrongCounter, hb, hblk]
  · intro hb
    simp [SharedPtr.move, SharedPtr.Reset, hb]

/-- Instance of `SharedPtr.move_spec`: the only handle of a live block, and an empty
source. -/
theorem SharedPtr.move_spec_witness :
    (SharedPtr.move sampleHeap ⟨1, 100⟩ = some (⟨1, 100⟩, ⟨0, 0⟩, sampleHeap) ∧
        SharedPtr.Get ⟨0, 0⟩ = 0 ∧ SharedPtr.UseCount sampleHeap ⟨0, 0⟩ = some 0 ∧
        SharedPtr.UseCount sampleHeap ⟨1, 100⟩ = some 1) ∧
    SharedPtr.move sampleHeap ⟨0, 0⟩ = some (⟨0, 0⟩, ⟨0, 0⟩, sampleHeap) :=
  ⟨(SharedPtr.move_spec sampleHeap ⟨1, 100⟩).1 ⟨.ControlBlockPointer, 100, 1, 2⟩
      (by decide) (by decide) (by decide) (by unfold SIZE_T_MOD; norm_num),
    (SharedPtr.move_spec sampleHeap ⟨0, 0⟩).2 rfl⟩


/-- What `IncStrongCounter` does to an allocated block. -/
theorem BaseBlock.IncStrongCounter_of_block {h : Heap} {b : Nat} {blk : Block} (hb : b ≠ 0)
    (hblk : h.blocks b = some blk) :
    BaseBlock.IncStrongCounter h b =
      some (h.setBlock b { blk with strong_counter_ := size_t_inc blk.strong_counter_ }) := by
  simp [BaseBlock.IncStrongCounter, hb, hblk]

/-- C8: copy assignment over a non-empty destination.  From an empty source the
destination's block receives one `DecStrongCounter` and the destination becomes empty.
From a non-empty source with a different observed address the destination's block
receives one `DecStrongCounter` first, then the source's block one `IncStrongCounter`,
the destination holds the source's block and observed address, and the strong counter
of the source's block is one more than after the release (the counter being below the
largest `size_t`).  From a non-empty source with the same observed address nothing
changes. -/
theorem SharedPtr.assign_spec (h h1 : Heap) (this other : SharedPtr) (blk1 : Block)
    (hthis : this.block_ ≠ 0) :
    (other.block_ = 0 →
        SharedPtr.assign h this other =
          (BaseBlock.DecStrongCounter h this.block_).map (fun h1 => (⟨0, 0⟩, h1))) ∧
    (other.block_ ≠ 0 → other.observed_ ≠ this.observed_ →
        SharedPtr.assign h this other =
          (BaseBlock.DecStrongCounter h this.block_).bind (fun h1 =>
            (BaseBlock.IncStrongCounter h1 other.block_).map (fun h2 =>
              (⟨other.block_, other.observed_⟩, h2))) ∧
        (BaseBlock.DecStrongCounter h this.block_ = some h1 →
          h1.blocks other.block_ = some blk1 → blk1.strong_counter_ + 1 < SIZE_T_MOD →
          SharedPtr.assign h this other =
            some (⟨other.block_, other.observed_⟩,
              h1.setBlock other.block_
                { blk1 with strong_counter_ := blk1.strong_counter_ + 1 }))) ∧
    (other.block_ ≠ 0 → other.observed_ = this.observed_ →
        SharedPtr.assign h this other = some (this, h)) := by
  refine ⟨?_, ?_, ?_⟩
  · intro ho
    unfold SharedPtr.assign SharedPtr.Reset
    cases hdec : BaseBlock.DecStrongCounter h this.block_ <;> simp [ho, hthis, hdec]
  · intro ho hobs
    constructor
    · unfold SharedPtr.assign SharedPtr.Reset
      cases hdec : BaseBlock.DecStrongCounter h this.block_ with
      | none => simp [ho, hobs, hthis, hdec]
      | some h1 =>
        cases hinc : BaseBlock.IncStrongCounter h1 other.block_ <;>
          simp [ho, hobs, hthis, hdec, hinc]
    · intro hdec hblk1 hov
      unfold SharedPtr.assign SharedPtr.Reset
      simp [ho, hobs, hthis, hdec, BaseBlock.IncStrongCounter_of_block ho hblk1,
        size_t_inc_of_lt hov]
  · intro ho hobs
    simp [SharedPtr.assign, ho, hobs]

/-- Instance of `SharedPtr.assign_spec`: the destination is the only handle of the
block at 1; the sources are the empty handle, a handle on the block at 2 observing
200, and a handle observing the destination's address. -/
theorem SharedPtr.assign_spec_witness :
    (SharedPtr.assign sampleTwoHeap ⟨1, 100⟩ ⟨0, 0⟩ =
        (BaseBlock.DecStrongCounter sampleTwoHeap 1).map (fun h1 => (⟨0, 0⟩, h1))) ∧
    (SharedPtr.assign sampleTwoHeap ⟨1, 100⟩ ⟨2, 200⟩ =
        (BaseBlock.DecStrongCounter sampleTwoHeap 1).bind (fun h1 =>
          (BaseBlock.IncStrongCounter h1 2).map (fun h2 => (⟨2, 200⟩, h2))) ∧
      SharedPtr.assign sampleTwoHeap ⟨1, 100⟩ ⟨2, 200⟩ =
        some (⟨2, 200⟩,
          (Heap.deleteBlock { sampleTwoHeap with destroyed := [100] } 1).setBlock 2
            ⟨.ControlBlockObject, 200, 2, 0⟩)) ∧
    SharedPtr.assign sampleTwoHeap ⟨1, 100⟩ ⟨2, 100⟩ = some (⟨1, 100⟩, sampleTwoHeap) :=
  ⟨(SharedPtr.assign_spec sampleTwoHeap sampleTwoHeap ⟨1, 100⟩ ⟨0, 0⟩
      ⟨.ControlBlockObject, 200, 1, 0⟩ (by decide)).1 rfl,
    ⟨((SharedPtr.assign_spec sampleTwoHeap
        (Heap.deleteBlock { sampleTwoHeap with destroyed := [100] } 1) ⟨1, 100⟩ ⟨2, 200⟩
        ⟨.ControlBlockObject, 200, 1, 0⟩ (by decide)).2.1 (by decide) (by decide)).1,
      ((SharedPtr.assign_spec sampleTwoHeap
        (Heap.deleteBlock { sampleTwoHeap with destroyed := [100] } 1) ⟨1, 100⟩ ⟨2, 200⟩
        ⟨.ControlBlockObject, 200, 1, 0⟩ (by decide)).2.1 (by decide) (by decide)).2
        rfl (by decide) (by unfold SIZE_T_MOD; norm_num)⟩,
    (SharedPtr.assign_spec sampleTwoHeap sampleTwoHeap ⟨1, 100⟩ ⟨2, 100⟩
      ⟨.ControlBlockObject, 200, 1, 0⟩ (by decide)).2.2 (by decide) rfl⟩

/-- Copy assignment on `sampleTwoHeap` from the handle on the block at 2, evaluated: the
value at 100 is destroyed once, the block at 1 is deleted and the strong counter of
the block at 2 goes from 1 to 2. -/
theorem SharedPtr.assign_sample_eval :
    (SharedPtr.assign sampleTwoHeap ⟨1, 100⟩ ⟨2, 200⟩).map
        (fun r => (r.1, r.2.blocks 1, r.2.blocks 2, r.2.destroyed, r.2.deleted)) =
      some (⟨2, 200⟩, none, some ⟨.ControlBlockObject, 200, 2, 0⟩, [100], [1]) := by
  decide


/-- On the counters of a block: a block of either shape with strong counter 1 that
manages a value and whose weak counter, not counting the `weak_this` of the managed
value, is at least 1.  Releasing the one `SharedPtr`, by
`Reset()` or by its destructor, destroys the value once, deletes no block, leaves the
block allocated with strong counter 0 and the weak references of the handles, and
afterwards every `WeakPtr` on the block is expired and its `Lock()` returns the empty
handle without changing the heap. -/
theorem SharedPtr.release_last_keeps_block (h : Heap) (p : SharedPtr) (blk : Block)
    (hb : p.block_ ≠ 0) (hblk : h.blocks p.block_ = some blk) (hobj : blk.object_ ≠ 0)
    (hsc : blk.strong_counter_ = 1) (hwc : blk.weak_counter_ < SIZE_T_MOD)
    (hself : h.selfWiredTo p.block_ blk) (hweak : 1 ≤ h.externalWeak p.block_ blk) :
    ∃ h1 blk1, SharedPtr.Reset h p = some (⟨0, 0⟩, h1) ∧
      SharedPtr.destructor h p = some h1 ∧
      h1.destroyed = h.destroyed ++ [blk.object_] ∧ h1.deleted = h.deleted ∧
      h1.blocks p.block_ = some blk1 ∧ blk1.shape = blk.shape ∧
      blk1.strong_counter_ = 0 ∧ blk1.weak_counter_ = h.externalWeak p.block_ blk ∧
      ∀ w : WeakPtr, w.block_ = p.block_ →
        WeakPtr.Expired h1 w = some true ∧ WeakPtr.Lock h1 w = some (⟨0, 0⟩, h1) := by
  have hdec1 : size_t_dec 1 = 0 := by
    rw [size_t_dec_of_pos (le_refl 1) (by have := size_t_mod_pos; omega)]
  -- the heap after the release, by cases on the `weak_this` of the value
  have key : ∃ h1 blk1, BaseBlock.DecStrongCounter h p.block_ = some h1 ∧
      h1.destroyed = h.destroyed ++ [blk.object_] ∧ h1.deleted = h.deleted ∧
      h1.blocks p.block_ = some blk1 ∧ blk1.shape = blk.shape ∧
      blk1.strong_counter_ = 0 ∧ blk1.weak_counter_ = h.externalWeak p.block_ blk := by
    unfold Heap.selfWiredTo at hself
    unfold Heap.externalWeak at hweak ⊢
    cases hw : h.weak_this blk.object_ with
    | none =>
      rw [hw] at hweak
      simp only at hweak
      have hwc0 : blk.weak_counter_ ≠ 0 := by omega
      cases hshape : blk.shape <;>
      · simp [BaseBlock.DecStrongCounter, hb, hblk, hshape,
          ControlBlockPointer.DecStrongCounter, ControlBlockObject.DecStrongCounter, hsc,
          hwc0, hdec1, deleteObject, hobj, destroyValue, Heap.setBlock, hw]
    | some wt =>
      rw [hw] at hself hweak
      simp only at hself hweak
      by_cases hwt : wt.block_ = p.block_
      · simp only [hwt, if_true] at hweak
        have hwc0 : blk.weak_counter_ ≠ 0 := by omega
        have hdecw : size_t_dec blk.weak_counter_ = blk.weak_counter_ - 1 :=
          size_t_dec_of_pos (by omega) hwc
        have hne : blk.weak_counter_ - 1 ≠ 0 := by omega
        cases hshape : blk.shape <;>
        · simp [BaseBlock.DecStrongCounter, hb, hblk, hshape,
            ControlBlockPointer.DecStrongCounter, ControlBlockObject.DecStrongCounter, hsc,
            hwc0, hdec1, deleteObject, hobj, destroyValue, Heap.setBlock, hw,
            EnableSharedFromThis.destructor, hwt, hdecw, hne]
      · have hwt0 : wt.block_ = 0 := by
          rcases hself with h0 | h0
          · exact h0
          · exact absurd h0 hwt
        simp only [hwt, if_false] at hweak
        have hwc0 : blk.weak_counter_ ≠ 0 := by omega
        have hb0 : ¬ (0 = p.block_) := fun h0 => hb h0.symm
        cases hshape : blk.shape <;>
        · simp [BaseBlock.DecStrongCounter, hb, hblk, hshape,
            ControlBlockPointer.DecStrongCounter, ControlBlockObject.DecStrongCounter, hsc,
            hwc0, hdec1, deleteObject, hobj, destroyValue, Heap.setBlock, hw,
            EnableSharedFromThis.destructor, hwt0, hb0]
  obtain ⟨h1, blk1, hdec, hd, hdel, hblk1, hsh, hsc1, hwc1⟩ := key
  refine ⟨h1, blk1, ?_, ?_, hd, hdel, hblk1, hsh, hsc1, hwc1, ?_⟩
  · simp [SharedPtr.Reset, hb, hdec]
  · simp [SharedPtr.destructor, SharedPtr.Reset, hb, hdec]
  · intro w hw
    have hexp : WeakPtr.Expired h1 w = some true :=
      (WeakPtr.Expired_eq_true_iff h1 w).mpr (Or.inr ⟨blk1, by rw [hw]; exact hblk1, hsc1⟩)
    exact ⟨hexp, by simp [WeakPtr.Lock, hexp]⟩

/-- Instance of `SharedPtr.release_last_keeps_block`: a pointer-owning block with
strong counter 1 and two weak handles. -/
theorem SharedPtr.release_last_keeps_block_witness :
    ∃ h1 blk1, SharedPtr.Reset sampleHeap ⟨1, 100⟩ = some (⟨0, 0⟩, h1) ∧
      SharedPtr.destructor sampleHeap ⟨1, 100⟩ = some h1 ∧
      h1.destroyed = sampleHeap.destroyed ++ [100] ∧ h1.deleted = sampleHeap.deleted ∧
      h1.blocks 1 = some blk1 ∧ blk1.shape = .ControlBlockPointer ∧
      blk1.strong_counter_ = 0 ∧
      blk1.weak_counter_ = sampleHeap.externalWeak 1 ⟨.ControlBlockPointer, 100, 1, 2⟩ ∧
      ∀ w : WeakPtr, w.block_ = 1 →
        WeakPtr.Expired h1 w = some true ∧ WeakPtr.Lock h1 w = some (⟨0, 0⟩, h1) :=
  SharedPtr.release_last_keeps_block sampleHeap ⟨1, 100⟩ ⟨.ControlBlockPointer, 100, 1, 2⟩
    (by decide) (by decide) (by decide) rfl (by unfold SIZE_T_MOD; norm_num)
    (by simp [Heap.selfWiredTo, sampleHeap]) (by decide)

/-- Releasing the only `SharedPtr` of a self-observing value in
an embedded block (strong 1; weak 2, of which one is the value's own `weak_this`): the
value is destroyed once, the block stays with strong 0 and weak 1. -/
theorem SharedPtr.release_last_self_observing_eval :
    (SharedPtr.Reset sampleSelfHeap ⟨1, 100⟩).map
        (fun r => (r.1, r.2.blocks 1, r.2.destroyed, r.2.deleted,
          WeakPtr.Expired r.2 ⟨1, 100⟩)) =
      some (⟨0, 0⟩, some ⟨.ControlBlockObject, 100, 0, 1⟩, [100], [], some true) := by
  decide


/-- C1 (the code at the failing input): `MakeShared`, two copies, `Reset()` of the
second copy, then move assignment of that now empty handle into the first copy.  The
first copy becomes empty without `DecStrongCounter`, so one live non-empty handle is
left on the block at 1 and its `UseCount()` is 2. -/
theorem run_move_assign_from_empty_leaks :
    (run State.init [.makeShared 1 100 false, .sharedCopy 0, .sharedCopy 0, .sharedReset 2,
        .sharedMoveAssign 1 2]).map
        (fun s => (s.shared, s.sharedRefs 1, (s.getShared 0).bind (SharedPtr.UseCount s.heap),
          s.heap.destroyed)) =
      some ([some ⟨1, 100⟩, some ⟨0, 0⟩, some ⟨0, 0⟩], 1, some 2, []) := by
  decide

/-- C2 (the code at the failing input): `MakeShared`, two `WeakPtr` made from the
handle, `Reset()` of the `SharedPtr`, then `Reset()` of the first `WeakPtr`.  The
embedded block at 1 is deleted while the second `WeakPtr` is live and still holds its
address, and `Expired()` on it has no defined outcome. -/
theorem run_embedded_block_deleted_under_weak :
    (run State.init [.makeShared 1 100 false, .weakOfShared 0, .weakOfShared 0,
        .sharedReset 0, .weakReset 0]).map
        (fun s => (s.shared, s.weak, s.weakRefs 1, s.heap.blocks 1, s.heap.deleted,
          (s.getWeak 1).bind (WeakPtr.Expired s.heap))) =
      some ([some ⟨0, 0⟩], [some ⟨0, 0⟩, some ⟨1, 100⟩], 1, none, [1], none) := by
  rfl

/-- The same program with `SharedPtr(T*)` in place of `MakeShared`: the pointer-owning
block stays allocated for the second `WeakPtr`. -/
theorem run_pointer_block_kept_under_weak :
    (run State.init [.sharedOfPtr 1 100 false, .weakOfShared 0, .weakOfShared 0,
        .sharedReset 0, .weakReset 0]).map
        (fun s => (s.weak, s.heap.blocks 1, s.heap.deleted,
          (s.getWeak 1).bind (WeakPtr.Expired s.heap))) =
      some ([some ⟨0, 0⟩, some ⟨1, 100⟩], some ⟨.ControlBlockPointer, 100, 0, 1⟩, [],
        some true) := by
  decide

end SharedFromThis

/-- C9 (the code at the failing input): in `shared/shared.h` and in `weak/shared.h`,
assigning a handle to itself when it is the only handle of its block (counter 1)
decrements the counter, destroys the value at 100 and deletes the block at 1, while
the handle keeps the block's address; with counter 2 the counter drops to 1. -/
theorem assign_same_observed_decrements :
    ((Shared.SharedPtr.assign (Shared.sampleHeap 1) ⟨1, 100⟩ ⟨1, 100⟩).map
        (fun r => (r.1, r.2.blocks 1, r.2.destroyed, r.2.deleted)) =
      some (⟨1, 100⟩, none, [100], [1]) ∧
     (Shared.SharedPtr.assign (Shared.sampleHeap 2) ⟨1, 100⟩ ⟨1, 100⟩).map
        (fun r => (r.1, r.2.blocks 1, r.2.destroyed, r.2.deleted)) =
      some (⟨1, 100⟩, some ⟨.ControlBlockPointer, 100, 1⟩, [], [])) ∧
    ((Weak.SharedPtr.assign (Weak.sampleHeap 1) ⟨1, 100⟩ ⟨1, 100⟩).map
        (fun r => (r.1, r.2.blocks 1, r.2.destroyed, r.2.deleted)) =
      some (⟨1, 100⟩, none, [100], [1]) ∧
     (Weak.SharedPtr.assign (Weak.sampleHeap 2) ⟨1, 100⟩ ⟨1, 100⟩).map
        (fun r => (r.1, r.2.blocks 1, r.2.destroyed, r.2.deleted)) =
      some (⟨1, 100⟩, some ⟨.ControlBlockPointer, 100, 1, 0⟩, [], [])) := by
  refine ⟨⟨?_, ?_⟩, ⟨?_, ?_⟩⟩ <;> decide

namespace SharedFromThis

/-! ### Effect of the control-block operations on the strong counters -/

theorem Heap.strongOf_setBlock (h : Heap) (b : Nat) (blk : Block) (b1 : Nat) :
    (h.setBlock b blk).strongOf b1 =
      if b1 = b then blk.strong_counter_ else h.strongOf b1 := by
  unfold Heap.strongOf
  by_cases hb : b1 = b
  · subst hb; simp
  · simp [hb, Heap.setBlock_blocks_ne]

theorem Heap.strongOf_deleteBlock (h : Heap) (b : Nat) (b1 : Nat) :
    (h.deleteBlock b).strongOf b1 = if b1 = b then 0 else h.strongOf b1 := by
  unfold Heap.strongOf
  by_cases hb : b1 = b
  · subst hb; simp
  · simp [hb, Heap.deleteBlock_blocks_ne]

theorem Heap.strongOf_of_block {h : Heap} {b : Nat} {blk : Block}
    (hblk : h.blocks b = some blk) : h.strongOf b = blk.strong_counter_ := by
  simp [Heap.strongOf, hblk]

theorem Heap.strongOf_of_none {h : Heap} {b : Nat} (hblk : h.blocks b = none) :
    h.strongOf b = 0 := by
  simp [Heap.strongOf, hblk]

theorem BaseBlock.IncStrongCounter_strongOf {h h1 : Heap} {b : Nat}
    (hinc : BaseBlock.IncStrongCounter h b = some h1) :
    b ≠ 0 ∧ (h.blocks b).isSome ∧
      ∀ b1, h1.strongOf b1 = if b1 = b then size_t_inc (h.strongOf b) else h.strongOf b1 := by
  unfold BaseBlock.IncStrongCounter at hinc
  by_cases hb : b = 0
  · simp [hb] at hinc
  · cases hblk : h.blocks b with
    | none => simp [hb, hblk] at hinc
    | some blk =>
      simp only [hb, hblk, if_false, Option.some.injEq] at hinc
      subst hinc
      refine ⟨hb, by simp, ?_⟩
      intro b1
      rw [Heap.strongOf_setBlock, Heap.strongOf_of_block hblk]

theorem BaseBlock.IncWeakCounter_strongOf {h h1 : Heap} {b : Nat}
    (hinc : BaseBlock.IncWeakCounter h b = some h1) :
    ∀ b1, h1.strongOf b1 = h.strongOf b1 := by
  unfold BaseBlock.IncWeakCounter at hinc
  by_cases hb : b = 0
  · simp [hb] at hinc
  · cases hblk : h.blocks b with
    | none => simp [hb, hblk] at hinc
    | some blk =>
      simp only [hb, hblk, if_false, Option.some.injEq] at hinc
      subst hinc
      intro b1
      rw [Heap.strongOf_setBlock]
      split
      · next hb1 => subst hb1; rw [Heap.strongOf_of_block hblk]
      · rfl

theorem BaseBlock.DecWeakCounter_strongOf {h h1 : Heap} {b : Nat}
    (hdec : BaseBlock.DecWeakCounter h b = some h1) :
    ∀ b1, h1.strongOf b1 = h.strongOf b1 := by
  unfold BaseBlock.DecWeakCounter at hdec
  by_cases hb : b = 0
  · simp [hb] at hdec
  · cases hblk : h.blocks b with
    | none => simp [hb, hblk] at hdec
    | some blk =>
      have hs := Heap.strongOf_of_block hblk
      simp only [hb, hblk, if_false] at hdec
      intro b1
      cases hshape : blk.shape with
      | ControlBlockPointer =>
        simp only [hshape, ControlBlockPointer.DecWeakCounter] at hdec
        split_ifs at hdec with c1 c2 c3 <;> simp only [Option.some.injEq] at hdec <;>
          subst hdec <;>
          simp only [Heap.strongOf_setBlock, Heap.strongOf_deleteBlock] <;>
          split_ifs with hb1 <;> first | rfl | (subst hb1; omega)
      | ControlBlockObject =>
        simp only [hshape, ControlBlockObject.DecWeakCounter] at hdec
        split_ifs at hdec with c1 c2 c3 c4 c5 <;> simp only [Option.some.injEq] at hdec <;>
          subst hdec <;>
          simp only [Heap.strongOf_setBlock, Heap.strongOf_deleteBlock] <;>
          split_ifs with hb1 <;> first | rfl | (subst hb1; simp at *; omega)


theorem EnableSharedFromThis.destructor_blocks {h h1 : Heap} {w : WeakPtr}
    (hd : EnableSharedFromThis.destructor h w = some h1) :
    (∀ b1, h1.strongOf b1 = h.strongOf b1) ∧
      (∀ b1, (h1.blocks b1).isSome = (h.blocks b1).isSome) := by
  unfold EnableSharedFromThis.destructor at hd
  by_cases hb : w.block_ = 0
  · simp only [hb, ne_eq, not_true_eq_false, if_false, Option.some.injEq] at hd
    subst hd
    exact ⟨fun _ => rfl, fun _ => rfl⟩
  · cases hblk : h.blocks w.block_ with
    | none => simp [hb, hblk] at hd
    | some blk =>
      simp only [hb, hblk, ne_eq, not_false_eq_true, if_true, Option.some.injEq] at hd
      subst hd
      constructor
      · intro b1
        rw [Heap.strongOf_setBlock]
        split
        · next hb1 => subst hb1; rw [Heap.strongOf_of_block hblk]
        · rfl
      · intro b1
        by_cases hb1 : b1 = w.block_
        · subst hb1; simp [hblk]
        · rw [Heap.setBlock_blocks_ne _ _ hb1]

theorem destroyValue_blocks {h h1 : Heap} {a : Nat} (hd : destroyValue h a = some h1) :
    (∀ b1, h1.strongOf b1 = h.strongOf b1) ∧
      (∀ b1, (h1.blocks b1).isSome = (h.blocks b1).isSome) := by
  unfold destroyValue at hd
  cases hw : h.weak_this a with
  | none =>
    simp only [hw, Option.some.injEq] at hd
    subst hd
    exact ⟨fun _ => rfl, fun _ => rfl⟩
  | some w =>
    simp only [hw] at hd
    cases he : EnableSharedFromThis.destructor h w with
    | none => simp [he] at hd
    | some h2 =>
      simp only [he, Option.some.injEq] at hd
      subst hd
      have hb := EnableSharedFromThis.destructor_blocks he
      exact ⟨fun b1 => hb.1 b1, fun b1 => hb.2 b1⟩

theorem deleteObject_blocks {h h1 : Heap} {a : Nat} (hd : deleteObject h a = some h1) :
    (∀ b1, h1.strongOf b1 = h.strongOf b1) ∧
      (∀ b1, (h1.blocks b1).isSome = (h.blocks b1).isSome) := by
  unfold deleteObject at hd
  by_cases ha : a = 0
  · simp only [ha, if_true, Option.some.injEq] at hd
    subst hd
    exact ⟨fun _ => rfl, fun _ => rfl⟩
  · simp only [ha, if_false] at hd
    exact destroyValue_blocks hd

/-- Shared tail of both `DecStrongCounter`: after the value has been destroyed the
block is re-read and deleted when its weak counter is zero. -/
theorem decStrong_tail_strongOf {h2 h1 : Heap} {b : Nat}
    (ht : (match h2.blocks b with
      | none => none
      | some blk1 => if blk1.weak_counter_ = 0 then some (h2.deleteBlock b) else some h2) =
        some h1)
    (h0 : h2.strongOf b = 0) : ∀ b1, h1.strongOf b1 = h2.strongOf b1 := by
  cases hblk : h2.blocks b with
  | none => simp [hblk] at ht
  | some blk1 =>
    simp only [hblk] at ht
    intro b1
    split_ifs at ht <;> simp only [Option.some.injEq] at ht <;> subst ht
    · rw [Heap.strongOf_deleteBlock]
      split
      · next hb1 => subst hb1; exact h0.symm
      · rfl
    · rfl

theorem BaseBlock.DecStrongCounter_strongOf {h h1 : Heap} {b : Nat}
    (hdec : BaseBlock.DecStrongCounter h b = some h1) (hpos : 1 ≤ h.strongOf b) :
    ∀ b1, h1.strongOf b1 = if b1 = b then h.strongOf b - 1 else h.strongOf b1 := by
  have hdec1 : size_t_dec 1 = 0 := by
    rw [size_t_dec_of_pos (le_refl 1) (by have := size_t_mod_pos; omega)]
  unfold BaseBlock.DecStrongCounter at hdec
  by_cases hb : b = 0
  · simp [hb] at hdec
  · cases hblk : h.blocks b with
    | none => simp [hb, hblk] at hdec
    | some blk =>
      have hs := Heap.strongOf_of_block hblk
      rw [hs] at hpos ⊢
      simp only [hb, hblk, if_false] at hdec
      intro b1
      obtain ⟨shape, obj, sc, wc⟩ := blk
      simp only at hpos hdec ⊢
      cases shape with
      | ControlBlockPointer =>
        simp only [ControlBlockPointer.DecStrongCounter] at hdec
        split_ifs at hdec with c1 c2 c3
        · simp only [Option.some.injEq] at hdec
          subst hdec
          rw [Heap.strongOf_setBlock]
        · cases hdel : deleteObject h obj with
          | none => simp [hdel] at hdec
          | some h2 =>
            simp only [hdel, Option.some.injEq] at hdec
            subst hdec
            rw [Heap.strongOf_deleteBlock, (deleteObject_blocks hdel).1]
            split
            · omega
            · rfl
        · have hsc1 : sc = 1 := by omega
          subst hsc1
          rw [hdec1] at hdec
          cases hdel : deleteObject (h.setBlock b ⟨.ControlBlockPointer, obj, 0, wc⟩) obj with
          | none => simp [hdel] at hdec
          | some h2 =>
            simp only [hdel] at hdec
            have h20 : h2.strongOf b = 0 := by
              rw [(deleteObject_blocks hdel).1, Heap.strongOf_setBlock, if_pos rfl]
            rw [decStrong_tail_strongOf hdec h20, (deleteObject_blocks hdel).1,
              Heap.strongOf_setBlock]
        · omega
      | ControlBlockObject =>
        simp only [ControlBlockObject.DecStrongCounter] at hdec
        split_ifs at hdec with c1 c2 c3
        · simp only [Option.some.injEq] at hdec
          subst hdec
          rw [Heap.strongOf_setBlock]
        · cases hdel : destroyValue h obj with
          | none => simp [hdel] at hdec
          | some h2 =>
            simp only [hdel, Option.some.injEq] at hdec
            subst hdec
            rw [Heap.strongOf_deleteBlock, (destroyValue_blocks hdel).1]
            split
            · omega
            · rfl
        · have hsc1 : sc = 1 := by omega
          subst hsc1
          rw [hdec1] at hdec
          cases hdel : destroyValue (h.setBlock b ⟨.ControlBlockObject, obj, 0, wc⟩) obj with
          | none => simp [hdel] at hdec
          | some h2 =>
            simp only [hdel] at hdec
            have h20 : h2.strongOf b = 0 := by
              rw [(destroyValue_blocks hdel).1, Heap.strongOf_setBlock, if_pos rfl]
            rw [decStrong_tail_strongOf hdec h20, (destroyValue_blocks hdel).1,
              Heap.strongOf_setBlock]
        · omega

theorem Heap.newBlock_strongOf {h h1 : Heap} {b : Nat} {blk : Block}
    (hn : h.newBlock b blk = some h1) :
    b ≠ 0 ∧ h.blocks b = none ∧
      ∀ b1, h1.strongOf b1 = if b1 = b then blk.strong_counter_ else h.strongOf b1 := by
  unfold Heap.newBlock at hn
  by_cases hb : b = 0
  · simp [hb] at hn
  · cases hblk : h.blocks b with
    | some blk0 => simp [hb, hblk] at hn
    | none =>
      simp only [hb, hblk, if_false, Option.some.injEq] at hn
      subst hn
      exact ⟨hb, rfl, fun b1 => Heap.strongOf_setBlock h b blk b1⟩


/-! ### Counting the handles on a block -/

theorem holds_some (p : SharedPtr) (b : Nat) :
    holds (some p) b = if p.block_ = b then 1 else 0 := by
  simp [holds, sharedOn]

@[simp] theorem holds_none (b : Nat) : holds none b = 0 := by
  simp [holds, sharedOn]

theorem countP_sharedOn_append (l : List (Option SharedPtr)) (x : Option SharedPtr) (b : Nat) :
    (l ++ [x]).countP (sharedOn b) = l.countP (sharedOn b) + holds x b := by
  simp [List.countP_append, List.countP_cons, holds]

theorem countP_sharedOn_set (l : List (Option SharedPtr)) (i : Nat) (x y : Option SharedPtr)
    (b : Nat) (hi : l[i]? = some y) :
    (l.set i x).countP (sharedOn b) + holds y b = l.countP (sharedOn b) + holds x b := by
  induction l generalizing i with
  | nil => simp at hi
  | cons a l ih =>
    cases i with
    | zero =>
      simp only [List.getElem?_cons_zero, Option.some.injEq] at hi
      subst hi
      simp only [List.set_cons_zero, List.countP_cons, holds]
      omega
    | succ i =>
      simp only [List.getElem?_cons_succ] at hi
      have := ih i hi
      simp only [List.set_cons_succ, List.countP_cons]
      omega

theorem State.getShared_eq_some {s : State} {i : Nat} {p : SharedPtr}
    (hg : s.getShared i = some p) : s.shared[i]? = some (some p) := by
  unfold State.getShared at hg
  split at hg
  · next q hq => simp only [Option.some.injEq] at hg; subst hg; exact hq
  · simp at hg

theorem State.getWeak_eq_some {s : State} {k : Nat} {w : WeakPtr}
    (hg : s.getWeak k = some w) : s.weak[k]? = some (some w) := by
  unfold State.getWeak at hg
  split at hg
  · next q hq => simp only [Option.some.injEq] at hg; subst hg; exact hq
  · simp at hg

/-- A live handle on a non-null block forces a positive strong counter in a counted
state. -/
theorem State.Counted.strong_pos {n : Nat} {s : State} (hc : s.Counted n) {i : Nat}
    {p : SharedPtr} (hg : s.getShared i = some p) (hb : p.block_ ≠ 0) :
    1 ≤ s.heap.strongOf p.block_ := by
  have h1 := hc.1 p.block_ hb
  have h2 := countP_sharedOn_set s.shared i none (some p) p.block_ (State.getShared_eq_some hg)
  rw [holds_some, if_pos rfl, holds_none] at h2
  unfold State.sharedRefs at h1
  omega


/-! ### Effect of the handle operations on the strong counters -/

theorem BaseBlock.IncStrongCounter_strongOf_lt {h h1 : Heap} {b : Nat}
    (hinc : BaseBlock.IncStrongCounter h b = some h1) (hov : h.strongOf b + 1 < SIZE_T_MOD) :
    b ≠ 0 ∧ ∀ b1, h1.strongOf b1 = if b1 = b then h.strongOf b + 1 else h.strongOf b1 := by
  obtain ⟨hb, _, hs⟩ := BaseBlock.IncStrongCounter_strongOf hinc
  refine ⟨hb, fun b1 => ?_⟩
  rw [hs b1, size_t_inc_of_lt hov]

theorem SharedPtr.Reset_strongOf {h h1 : Heap} {p p1 : SharedPtr}
    (hr : SharedPtr.Reset h p = some (p1, h1))
    (hpos : p.block_ ≠ 0 → 1 ≤ h.strongOf p.block_) :
    p1.block_ = 0 ∧
      ∀ b1, h1.strongOf b1 =
        if b1 = p.block_ ∧ p.block_ ≠ 0 then h.strongOf b1 - 1 else h.strongOf b1 := by
  unfold SharedPtr.Reset at hr
  by_cases hb : p.block_ = 0
  · simp only [hb, ne_eq, not_true_eq_false, if_false, Option.some.injEq, Prod.mk.injEq] at hr
    obtain ⟨hp, hh⟩ := hr
    subst hp hh
    exact ⟨hb, fun b1 => by simp [hb]⟩
  · simp only [hb, ne_eq, not_false_eq_true, if_true] at hr
    cases hdec : BaseBlock.DecStrongCounter h p.block_ with
    | none => simp [hdec] at hr
    | some h2 =>
      simp only [hdec, Option.some.injEq, Prod.mk.injEq] at hr
      obtain ⟨hp, hh⟩ := hr
      subst hp hh
      refine ⟨rfl, fun b1 => ?_⟩
      rw [BaseBlock.DecStrongCounter_strongOf hdec (hpos hb) b1]
      by_cases hb1 : b1 = p.block_
      · subst hb1; simp [hb]
      · simp [hb1]

theorem SharedPtr.Reset_balanced {h h1 : Heap} {p p1 : SharedPtr}
    (hr : SharedPtr.Reset h p = some (p1, h1))
    (hpos : p.block_ ≠ 0 → 1 ≤ h.strongOf p.block_) :
    h.Balanced h1 (holds (some p)) (holds (some p1)) := by
  obtain ⟨hp1, hs⟩ := SharedPtr.Reset_strongOf hr hpos
  refine ⟨fun b hb0 => ?_, fun b => ?_, fun b hz => ?_⟩
  · have e := hs b
    simp only [holds_some, hp1]
    split_ifs at e ⊢ <;> omega
  · have e := hs b
    split_ifs at e <;> omega
  · have e := hs b
    split_ifs at e <;> omega


theorem Heap.Balanced.rfl_zero (h : Heap) : h.Balanced h (fun _ => 0) (fun _ => 0) :=
  ⟨fun _ _ => le_refl _, fun _ => Nat.le_succ _, fun _ hz => hz⟩

theorem Heap.Balanced.of_strongOf_eq {h h1 : Heap} (he : ∀ b, h1.strongOf b = h.strongOf b) :
    h.Balanced h1 (fun _ => 0) (fun _ => 0) :=
  ⟨fun b _ => by rw [he b], fun b => by rw [he b]; exact Nat.le_succ _,
    fun b hz => by rw [he b]; exact hz⟩

/-! Inversion of the handle operations: what a defined outcome consists of. -/

theorem SharedPtr.copy_inv {h h1 : Heap} {o p1 : SharedPtr}
    (hr : SharedPtr.copy h o = some (p1, h1)) :
    (p1 = ⟨0, 0⟩ ∧ h1 = h) ∨
      (p1 = ⟨o.block_, o.observed_⟩ ∧ BaseBlock.IncStrongCounter h o.block_ = some h1) := by
  simp only [SharedPtr.copy, SharedPtr.Reset, ne_eq, not_true_eq_false, if_false, ite_self]
    at hr
  by_cases hobs : o.observed_ = 0
  · simp only [hobs, not_true_eq_false, if_false, Option.some.injEq, Prod.mk.injEq] at hr
    exact Or.inl ⟨hr.1.symm, hr.2.symm⟩
  · simp only [hobs, not_false_eq_true, if_true] at hr
    cases hinc : BaseBlock.IncStrongCounter h o.block_ with
    | none => simp [hinc] at hr
    | some h2 =>
      simp only [hinc, Option.some.injEq, Prod.mk.injEq] at hr
      exact Or.inr ⟨hr.1.symm, by rw [hr.2]⟩

theorem SharedPtr.move_inv {h h1 : Heap} {o p1 o1 : SharedPtr}
    (hr : SharedPtr.move h o = some (p1, o1, h1)) :
    (o.block_ = 0 ∧ p1 = ⟨0, 0⟩ ∧ o1 = o ∧ h1 = h) ∨
      (o.block_ ≠ 0 ∧ p1 = ⟨o.block_, o.observed_⟩ ∧
        ∃ h2, BaseBlock.IncStrongCounter h o.block_ = some h2 ∧
          SharedPtr.Reset h2 o = some (o1, h1)) := by
  unfold SharedPtr.move at hr
  simp only [SharedPtr.Reset, ne_eq, not_true_eq_false, if_false, ite_self] at hr
  by_cases hb : o.block_ = 0
  · simp only [hb, not_true_eq_false, if_false, Option.some.injEq, Prod.mk.injEq] at hr
    exact Or.inl ⟨hb, hr.1.symm, hr.2.1.symm, hr.2.2.symm⟩
  · simp only [hb, not_false_eq_true, if_true] at hr
    cases hinc : BaseBlock.IncStrongCounter h o.block_ with
    | none => simp [hinc] at hr
    | some h2 =>
      simp only [hinc] at hr
      cases hdec : BaseBlock.DecStrongCounter h2 o.block_ with
      | none => simp [hdec] at hr
      | some h3 =>
        simp only [hdec, Option.some.injEq, Prod.mk.injEq] at hr
        refine Or.inr ⟨hb, hr.1.symm, h2, rfl, ?_⟩
        simp [SharedPtr.Reset, hb, hdec, hr.2.1, hr.2.2]

theorem SharedPtr.alias_inv {h h1 : Heap} {o p1 : SharedPtr} {ptr : Nat}
    (hr : SharedPtr.alias h o ptr = some (p1, h1)) :
    p1 = ⟨o.block_, ptr⟩ ∧ BaseBlock.IncStrongCounter h o.block_ = some h1 := by
  unfold SharedPtr.alias at hr
  cases hinc : BaseBlock.IncStrongCounter h o.block_ with
  | none => simp [hinc] at hr
  | some h2 =>
    simp only [hinc, Option.some.injEq, Prod.mk.injEq] at hr
    exact ⟨hr.1.symm, by rw [hr.2]⟩

theorem WeakPtr.Lock_inv {h h1 : Heap} {w : WeakPtr} {p1 : SharedPtr}
    (hr : WeakPtr.Lock h w = some (p1, h1)) :
    (p1 = ⟨0, 0⟩ ∧ h1 = h) ∨
      (p1 = ⟨w.block_, w.observed_⟩ ∧ 1 ≤ h.strongOf w.block_ ∧
        BaseBlock.IncStrongCounter h w.block_ = some h1) := by
  unfold WeakPtr.Lock at hr
  cases hexp : WeakPtr.Expired h w with
  | none => simp [hexp] at hr
  | some e =>
    cases e with
    | true =>
      simp only [hexp, Option.some.injEq, Prod.mk.injEq] at hr
      exact Or.inl ⟨hr.1.symm, hr.2.symm⟩
    | false =>
      simp only [hexp] at hr
      obtain ⟨_, blk, hblk, hsc⟩ := (WeakPtr.Expired_eq_false_iff h w).mp hexp
      cases hinc : BaseBlock.IncStrongCounter h w.block_ with
      | none => simp [hinc] at hr
      | some h2 =>
        simp only [hinc, Option.some.injEq, Prod.mk.injEq] at hr
        refine Or.inr ⟨hr.1.symm, ?_, by rw [hr.2]⟩
        rw [Heap.strongOf_of_block hblk]
        omega

theorem SharedPtr.ofWeak_inv {h h1 : Heap} {w : WeakPtr} {r : Except BadWeakPtr SharedPtr}
    (hr : SharedPtr.ofWeak h w = some (r, h1)) :
    (r = .error .mk ∧ h1 = h) ∨
      (r = .ok ⟨w.block_, w.observed_⟩ ∧ 1 ≤ h.strongOf w.block_ ∧
        BaseBlock.IncStrongCounter h w.block_ = some h1) := by
  unfold SharedPtr.ofWeak at hr
  cases hexp : WeakPtr.Expired h w with
  | none => simp [hexp] at hr
  | some e =>
    cases e with
    | true =>
      simp only [hexp, Option.some.injEq, Prod.mk.injEq] at hr
      exact Or.inl ⟨hr.1.symm, hr.2.symm⟩
    | false =>
      obtain ⟨hb, blk, hblk, hsc⟩ := (WeakPtr.Expired_eq_false_iff h w).mp hexp
      simp only [hexp, hb, ne_eq, not_false_eq_true, if_true] at hr
      cases hinc : BaseBlock.IncStrongCounter h w.block_ with
      | none => simp [hinc] at hr
      | some h2 =>
        simp only [hinc, Option.some.injEq, Prod.mk.injEq] at hr
        refine Or.inr ⟨hr.1.symm, ?_, by rw [hr.2]⟩
        rw [Heap.strongOf_of_block hblk]
        omega

theorem SharedPtr.assign_inv {h h1 : Heap} {t o t1 : SharedPtr}
    (hr : SharedPtr.assign h t o = some (t1, h1)) :
    (t1 = t ∧ h1 = h) ∨
      (t1 = ⟨0, 0⟩ ∧ ∃ t2, SharedPtr.Reset h t = some (t2, h1)) ∨
      (t1 = ⟨o.block_, o.observed_⟩ ∧ ∃ t2 h2, SharedPtr.Reset h t = some (t2, h2) ∧
        BaseBlock.IncStrongCounter h2 o.block_ = some h1) := by
  unfold SharedPtr.assign at hr
  by_cases hb : o.block_ = 0
  · simp only [hb, if_true] at hr
    cases hres : SharedPtr.Reset h t with
    | none => simp [hres] at hr
    | some x =>
      obtain ⟨t2, h2⟩ := x
      simp only [hres, Option.some.injEq, Prod.mk.injEq] at hr
      exact Or.inr (Or.inl ⟨hr.1.symm, t2, by rw [hr.2]⟩)
  · simp only [hb, if_false] at hr
    by_cases hobs : o.observed_ = t.observed_
    · simp only [hobs, ne_eq, not_true_eq_false, if_false, Option.some.injEq,
        Prod.mk.injEq] at hr
      exact Or.inl ⟨hr.1.symm, hr.2.symm⟩
    · simp only [hobs, ne_eq, not_false_eq_true, if_true] at hr
      cases hres : SharedPtr.Reset h t with
      | none => simp [hres] at hr
      | some x =>
        obtain ⟨t2, h2⟩ := x
        simp only [hres] at hr
        cases hinc : BaseBlock.IncStrongCounter h2 o.block_ with
        | none => simp [hinc] at hr
        | some h3 =>
          simp only [hinc, Option.some.injEq, Prod.mk.injEq] at hr
          exact Or.inr (Or.inr ⟨hr.1.symm, t2, h2, rfl, by rw [hinc, hr.2]⟩)

theorem SharedPtr.moveAssign_inv {h h1 : Heap} {t o t1 o1 : SharedPtr}
    (hr : SharedPtr.moveAssign h t o = some (t1, o1, h1)) :
    (o.block_ = 0 ∧ t1.block_ = 0 ∧ o1 = o ∧ h1 = h) ∨
      (o.block_ ≠ 0 ∧ t1 = ⟨o.block_, o.observed_⟩ ∧
        ∃ t2 h2 h3, SharedPtr.Reset h t = some (t2, h2) ∧
          BaseBlock.IncStrongCounter h2 o.block_ = some h3 ∧
          SharedPtr.Reset h3 o = some (o1, h1)) := by
  unfold SharedPtr.moveAssign at hr
  by_cases hb : o.block_ = 0
  · simp only [hb, if_true, SharedPtr.Reset, ne_eq, not_true_eq_false, if_false,
      Option.some.injEq, Prod.mk.injEq] at hr
    exact Or.inl ⟨hb, by rw [← hr.1], hr.2.1.symm, hr.2.2.symm⟩
  · simp only [hb, if_false, ne_eq, not_false_eq_true, if_true] at hr
    cases hres : SharedPtr.Reset h t with
    | none => simp [hres] at hr
    | some x =>
      obtain ⟨t2, h2⟩ := x
      simp only [hres] at hr
      cases hinc : BaseBlock.IncStrongCounter h2 o.block_ with
      | none => simp [hinc] at hr
      | some h3 =>
        simp only [hinc] at hr
        cases hres2 : SharedPtr.Reset h3 o with
        | none => simp [hres2] at hr
        | some y =>
          obtain ⟨o2, h4⟩ := y
          simp only [hres2, Option.some.injEq, Prod.mk.injEq] at hr
          refine Or.inr ⟨hb, hr.1.symm, t2, h2, h3, rfl, hinc, ?_⟩
          rw [hres2, hr.2.1, hr.2.2]

theorem SharedPtr.moveAssignSelf_inv {h h1 : Heap} {t t1 : SharedPtr}
    (hr : SharedPtr.moveAssignSelf h t = some (t1, h1)) :
    t1.block_ = 0 ∧ ∃ t2, SharedPtr.Reset h t = some (t2, h1) := by
  unfold SharedPtr.moveAssignSelf at hr
  by_cases hb : t.block_ = 0
  · simp only [hb, if_true, SharedPtr.Reset, ne_eq, not_true_eq_false, if_false,
      Option.some.injEq, Prod.mk.injEq] at hr
    refine ⟨by rw [← hr.1], t, ?_⟩
    simp [SharedPtr.Reset, hb, hr.2]
  · simp only [hb, if_false] at hr
    cases hres : SharedPtr.Reset h t with
    | none => simp [hres] at hr
    | some x =>
      obtain ⟨t2, h2⟩ := x
      have ht2 : t2.block_ = 0 := by
        simp only [SharedPtr.Reset, hb, ne_eq, not_false_eq_true, if_true] at hres
        cases hdec : BaseBlock.DecStrongCounter h t.block_ with
        | none => simp [hdec] at hres
        | some h3 =>
          simp only [hdec, Option.some.injEq, Prod.mk.injEq] at hres
          rw [← hres.1]
      simp only [hres, ht2, ne_eq, not_true_eq_false, if_false, Option.some.injEq,
        Prod.mk.injEq] at hr
      exact ⟨by rw [← hr.1]; exact ht2, t2, by rw [hr.2]⟩


/-! Balance of the strong counters against the handles, per operation. -/

theorem Heap.Balanced.of_inc {h h1 : Heap} {B : Nat} {p1 : SharedPtr}
    (hinc : BaseBlock.IncStrongCounter h B = some h1) (hpos : 1 ≤ h.strongOf B)
    (hov : h.strongOf B + 1 < SIZE_T_MOD) (hp1 : p1.block_ = B) :
    h.Balanced h1 (fun _ => 0) (holds (some p1)) := by
  obtain ⟨_, hs⟩ := BaseBlock.IncStrongCounter_strongOf_lt hinc hov
  refine ⟨fun b hb0 => ?_, fun b => ?_, fun b hz => ?_⟩
  · have e := hs b
    simp only [holds_some, hp1]
    by_cases hbb : b = B
    · subst hbb; simp only [if_true] at e ⊢; omega
    · have hbb2 : ¬ B = b := fun x => hbb x.symm
      simp only [hbb, hbb2, if_false] at e ⊢; omega
  · have e := hs b
    by_cases hbb : b = B
    · subst hbb; simp only [if_true] at e; omega
    · simp only [hbb, if_false] at e; omega
  · have e := hs b
    by_cases hbb : b = B
    · subst hbb; omega
    · simp only [hbb, if_false] at e; omega

theorem Heap.Balanced.of_empty (h : Heap) {p1 : SharedPtr} (hp1 : p1.block_ = 0) :
    h.Balanced h (fun _ => 0) (holds (some p1)) := by
  refine ⟨fun b hb0 => ?_, fun b => Nat.le_succ _, fun b hz => hz⟩
  have hne : ¬ (0 = b) := fun x => hb0 x.symm
  simp [holds_some, hp1, hne]

theorem SharedPtr.copy_balanced {h h1 : Heap} {o p1 : SharedPtr}
    (hr : SharedPtr.copy h o = some (p1, h1))
    (hpos : o.block_ ≠ 0 → 1 ≤ h.strongOf o.block_)
    (hov : ∀ b, h.strongOf b + 1 < SIZE_T_MOD) :
    h.Balanced h1 (fun _ => 0) (holds (some p1)) := by
  rcases SharedPtr.copy_inv hr with ⟨hp, hh⟩ | ⟨hp, hinc⟩
  · subst hp hh
    exact Heap.Balanced.of_empty _ rfl
  · subst hp
    have hb := (BaseBlock.IncStrongCounter_strongOf hinc).1
    exact Heap.Balanced.of_inc hinc (hpos hb) (hov _) rfl

theorem SharedPtr.alias_balanced {h h1 : Heap} {o p1 : SharedPtr} {ptr : Nat}
    (hr : SharedPtr.alias h o ptr = some (p1, h1))
    (hpos : o.block_ ≠ 0 → 1 ≤ h.strongOf o.block_)
    (hov : ∀ b, h.strongOf b + 1 < SIZE_T_MOD) :
    h.Balanced h1 (fun _ => 0) (holds (some p1)) := by
  obtain ⟨hp, hinc⟩ := SharedPtr.alias_inv hr
  subst hp
  have hb := (BaseBlock.IncStrongCounter_strongOf hinc).1
  exact Heap.Balanced.of_inc hinc (hpos hb) (hov _) rfl

theorem WeakPtr.Lock_balanced {h h1 : Heap} {w : WeakPtr} {p1 : SharedPtr}
    (hr : WeakPtr.Lock h w = some (p1, h1))
    (hov : ∀ b, h.strongOf b + 1 < SIZE_T_MOD) :
    h.Balanced h1 (fun _ => 0) (holds (some p1)) := by
  rcases WeakPtr.Lock_inv hr with ⟨hp, hh⟩ | ⟨hp, hpos, hinc⟩
  · subst hp hh
    exact Heap.Balanced.of_empty _ rfl
  · subst hp
    exact Heap.Balanced.of_inc hinc hpos (hov _) rfl

/-- Incrementing a strong counter and then releasing a handle on the same block leaves
every strong counter as it was. -/
theorem SharedPtr.inc_then_Reset {h h2 h1 : Heap} {o o1 : SharedPtr}
    (hinc : BaseBlock.IncStrongCounter h o.block_ = some h2)
    (hres : SharedPtr.Reset h2 o = some (o1, h1))
    (hov : h.strongOf o.block_ + 1 < SIZE_T_MOD) :
    o1.block_ = 0 ∧ ∀ b, h1.strongOf b = h.strongOf b := by
  obtain ⟨hb, hs⟩ := BaseBlock.IncStrongCounter_strongOf_lt hinc hov
  have hpos : o.block_ ≠ 0 → 1 ≤ h2.strongOf o.block_ := by
    intro _
    rw [hs o.block_, if_pos rfl]
    omega
  obtain ⟨ho1, hs2⟩ := SharedPtr.Reset_strongOf hres hpos
  refine ⟨ho1, fun b => ?_⟩
  rw [hs2 b, hs b]
  by_cases hbb : b = o.block_
  · subst hbb; simp [hb]
  · simp [hbb]

theorem SharedPtr.move_balanced {h h1 : Heap} {o p1 o1 : SharedPtr}
    (hr : SharedPtr.move h o = some (p1, o1, h1))
    (hov : ∀ b, h.strongOf b + 1 < SIZE_T_MOD) :
    h.Balanced h1 (holds (some o)) (fun b => holds (some p1) b + holds (some o1) b) := by
  rcases SharedPtr.move_inv hr with ⟨hb, hp, ho, hh⟩ | ⟨hb, hp, h2, hinc, hres⟩
  · subst hp ho hh
    refine ⟨fun b hb0 => ?_, fun b => Nat.le_succ _, fun b hz => hz⟩
    have hne : ¬ (0 = b) := fun x => hb0 x.symm
    simp [holds_some, hb, hne]
  · subst hp
    obtain ⟨ho1, hs⟩ := SharedPtr.inc_then_Reset hinc hres (hov _)
    refine ⟨fun b hb0 => ?_, fun b => ?_, fun b hz => ?_⟩
    · have hne : ¬ (0 = b) := fun x => hb0 x.symm
      rw [hs b]
      simp [holds_some, ho1, hne]
    · rw [hs b]; exact Nat.le_succ _
    · rw [hs b]; exact hz

theorem SharedPtr.ofWeak_balanced {h h1 : Heap} {w : WeakPtr}
    {r : Except BadWeakPtr SharedPtr} (hr : SharedPtr.ofWeak h w = some (r, h1))
    (hov : ∀ b, h.strongOf b + 1 < SIZE_T_MOD) :
    (r = .error .mk ∧ h1 = h) ∨
      ∃ p1, r = .ok p1 ∧ h.Balanced h1 (fun _ => 0) (holds (some p1)) := by
  rcases SharedPtr.ofWeak_inv hr with ⟨hp, hh⟩ | ⟨hp, hpos, hinc⟩
  · exact Or.inl ⟨hp, hh⟩
  · exact Or.inr ⟨_, hp, Heap.Balanced.of_inc hinc hpos (hov _) rfl⟩

theorem SharedPtr.assign_balanced {h h1 : Heap} {t o t1 : SharedPtr}
    (hr : SharedPtr.assign h t o = some (t1, h1))
    (hpt : t.block_ ≠ 0 → 1 ≤ h.strongOf t.block_)
    (hpo : o.block_ ≠ 0 → 1 ≤ h.strongOf o.block_)
    (hov : ∀ b, h.strongOf b + 1 < SIZE_T_MOD) :
    h.Balanced h1 (holds (some t)) (holds (some t1)) := by
  rcases SharedPtr.assign_inv hr with ⟨hp, hh⟩ | ⟨hp, t2, hres⟩ | ⟨hp, t2, h2, hres, hinc⟩
  · subst hp hh
    exact ⟨fun b _ => le_refl _, fun b => Nat.le_succ _, fun b hz => hz⟩
  · subst hp
    obtain ⟨_, hs⟩ := SharedPtr.Reset_strongOf hres hpt
    refine ⟨fun b hb0 => ?_, fun b => ?_, fun b hz => ?_⟩
    · have e := hs b
      have hne : ¬ (0 = b) := fun x => hb0 x.symm
      simp only [holds_some, hne, if_false]
      split_ifs at e ⊢ <;> omega
    · have e := hs b
      split_ifs at e <;> omega
    · have e := hs b
      split_ifs at e <;> omega
  · subst hp
    obtain ⟨_, hs⟩ := SharedPtr.Reset_strongOf hres hpt
    have hle : h2.strongOf o.block_ ≤ h.strongOf o.block_ := by
      have e := hs o.block_
      split_ifs at e <;> omega
    have hov2 : h2.strongOf o.block_ + 1 < SIZE_T_MOD := by
      have := hov o.block_
      omega
    obtain ⟨hb, hs2⟩ := BaseBlock.IncStrongCounter_strongOf_lt hinc hov2
    have hpo1 := hpo hb
    refine ⟨fun b hb0 => ?_, fun b => ?_, fun b hz => ?_⟩
    · have e := hs b
      have e2 := hs2 b
      simp only [holds_some]
      by_cases hbo : b = o.block_
      · subst hbo
        simp only [if_true] at e2 ⊢
        split_ifs at e ⊢ <;> omega
      · have hbo2 : ¬ o.block_ = b := fun x => hbo x.symm
        simp only [hbo, hbo2, if_false] at e2 ⊢
        split_ifs at e ⊢ <;> omega
    · have e := hs b
      have e2 := hs2 b
      by_cases hbo : b = o.block_
      · subst hbo
        simp only [if_true] at e2
        omega
      · simp only [hbo, if_false] at e2
        split_ifs at e <;> omega
    · have e := hs b
      have e2 := hs2 b
      by_cases hbo : b = o.block_
      · subst hbo; omega
      · simp only [hbo, if_false] at e2
        split_ifs at e <;> omega

theorem SharedPtr.moveAssign_balanced {h h1 : Heap} {t o t1 o1 : SharedPtr}
    (hr : SharedPtr.moveAssign h t o = some (t1, o1, h1))
    (hpt : t.block_ ≠ 0 → 1 ≤ h.strongOf t.block_)
    (hov : ∀ b, h.strongOf b + 1 < SIZE_T_MOD) :
    h.Balanced h1 (fun b => holds (some t) b + holds (some o) b)
      (fun b => holds (some t1) b + holds (some o1) b) := by
  rcases SharedPtr.moveAssign_inv hr with
    ⟨hb, hp, ho, hh⟩ | ⟨hb, hp, t2, h2, h3, hres, hinc, hres2⟩
  · subst ho hh
    refine ⟨fun b hb0 => ?_, fun b => Nat.le_succ _, fun b hz => hz⟩
    have hne : ¬ (0 = b) := fun x => hb0 x.symm
    simp only [holds_some, hp, hne, if_false]
    omega
  · subst hp
    obtain ⟨_, hs⟩ := SharedPtr.Reset_strongOf hres hpt
    have hov2 : h2.strongOf o.block_ + 1 < SIZE_T_MOD := by
      have := hov o.block_
      have e := hs o.block_
      split_ifs at e <;> omega
    obtain ⟨ho1, hs2⟩ := SharedPtr.inc_then_Reset hinc hres2 hov2
    refine ⟨fun b hb0 => ?_, fun b => ?_, fun b hz => ?_⟩
    · have e := hs b
      have hne : ¬ (0 = b) := fun x => hb0 x.symm
      rw [hs2 b]
      simp only [holds_some, ho1, hne, if_false]
      split_ifs at e ⊢ <;> omega
    · have e := hs b
      rw [hs2 b]
      split_ifs at e <;> omega
    · have e := hs b
      rw [hs2 b]
      split_ifs at e <;> omega

theorem SharedPtr.moveAssignSelf_balanced {h h1 : Heap} {t t1 : SharedPtr}
    (hr : SharedPtr.moveAssignSelf h t = some (t1, h1))
    (hpt : t.block_ ≠ 0 → 1 ≤ h.strongOf t.block_) :
    h.Balanced h1 (holds (some t)) (holds (some t1)) := by
  obtain ⟨ht1, t2, hres⟩ := SharedPtr.moveAssignSelf_inv hr
  obtain ⟨_, hs⟩ := SharedPtr.Reset_strongOf hres hpt
  refine ⟨fun b hb0 => ?_, fun b => ?_, fun b hz => ?_⟩
  · have e := hs b
    have hne : ¬ (0 = b) := fun x => hb0 x.symm
    simp only [holds_some, ht1, hne, if_false]
    split_ifs at e ⊢ <;> omega
  · have e := hs b
    split_ifs at e <;> omega
  · have e := hs b
    split_ifs at e <;> omega


/-! The `WeakPtr` operations leave every strong counter as it was. -/

theorem WeakPtr.Reset_keeps_strong {h h1 : Heap} {w w1 : WeakPtr}
    (hr : WeakPtr.Reset h w = some (w1, h1)) : ∀ b, h1.strongOf b = h.strongOf b := by
  unfold WeakPtr.Reset at hr
  by_cases hb : w.block_ = 0
  · simp only [hb, ne_eq, not_true_eq_false, if_false, Option.some.injEq, Prod.mk.injEq] at hr
    intro b
    rw [hr.2]
  · simp only [hb, ne_eq, not_false_eq_true, if_true] at hr
    cases hdec : BaseBlock.DecWeakCounter h w.block_ with
    | none => simp [hdec] at hr
    | some h2 =>
      simp only [hdec, Option.some.injEq, Prod.mk.injEq] at hr
      intro b
      rw [← hr.2]
      exact BaseBlock.DecWeakCounter_strongOf hdec b

theorem WeakPtr.destructor_keeps_strong {h h1 : Heap} {w : WeakPtr}
    (hr : WeakPtr.destructor h w = some h1) : ∀ b, h1.strongOf b = h.strongOf b := by
  unfold WeakPtr.destructor at hr
  cases hres : WeakPtr.Reset h w with
  | none => simp [hres] at hr
  | some x =>
    obtain ⟨w1, h2⟩ := x
    simp only [hres, Option.some.injEq] at hr
    subst hr
    exact WeakPtr.Reset_keeps_strong hres

theorem WeakPtr.copy_keeps_strong {h h1 : Heap} {o w1 : WeakPtr}
    (hr : WeakPtr.copy h o = some (w1, h1)) : ∀ b, h1.strongOf b = h.strongOf b := by
  unfold WeakPtr.copy at hr
  by_cases hb : o.block_ = 0
  · simp only [hb, ne_eq, not_true_eq_false, if_false, Option.some.injEq, Prod.mk.injEq] at hr
    intro b
    rw [hr.2]
  · simp only [hb, ne_eq, not_false_eq_true, if_true] at hr
    cases hinc : BaseBlock.IncWeakCounter h o.block_ with
    | none => simp [hinc] at hr
    | some h2 =>
      simp only [hinc, Option.some.injEq, Prod.mk.injEq] at hr
      intro b
      rw [← hr.2]
      exact BaseBlock.IncWeakCounter_strongOf hinc b

theorem WeakPtr.ofShared_keeps_strong {h h1 : Heap} {o : SharedPtr} {w1 : WeakPtr}
    (hr : WeakPtr.ofShared h o = some (w1, h1)) : ∀ b, h1.strongOf b = h.strongOf b := by
  unfold WeakPtr.ofShared at hr
  by_cases hb : o.block_ = 0
  · simp only [hb, ne_eq, not_true_eq_false, if_false, Option.some.injEq, Prod.mk.injEq] at hr
    intro b
    rw [hr.2]
  · simp only [hb, ne_eq, not_false_eq_true, if_true] at hr
    cases hinc : BaseBlock.IncWeakCounter h o.block_ with
    | none => simp [hinc] at hr
    | some h2 =>
      simp only [hinc, Option.some.injEq, Prod.mk.injEq] at hr
      intro b
      rw [← hr.2]
      exact BaseBlock.IncWeakCounter_strongOf hinc b

theorem WeakPtr.assign_keeps_strong {h h1 : Heap} {t o w1 : WeakPtr}
    (hr : WeakPtr.assign h t o = some (w1, h1)) : ∀ b, h1.strongOf b = h.strongOf b := by
  unfold WeakPtr.assign at hr
  cases hres : WeakPtr.Reset h t with
  | none => simp [hres] at hr
  | some x =>
    obtain ⟨t1, h2⟩ := x
    have hs := WeakPtr.Reset_keeps_strong hres
    simp only [hres] at hr
    by_cases hb : o.block_ = 0
    · simp only [hb, ne_eq, not_true_eq_false, if_false, Option.some.injEq,
        Prod.mk.injEq] at hr
      intro b
      rw [← hr.2]
      exact hs b
    · simp only [hb, ne_eq, not_false_eq_true, if_true] at hr
      cases hinc : BaseBlock.IncWeakCounter h2 o.block_ with
      | none => simp [hinc] at hr
      | some h3 =>
        simp only [hinc, Option.some.injEq, Prod.mk.injEq] at hr
        intro b
        rw [← hr.2, BaseBlock.IncWeakCounter_strongOf hinc b]
        exact hs b

theorem WeakPtr.assignSelf_keeps_strong {h h1 : Heap} {t w1 : WeakPtr}
    (hr : WeakPtr.assignSelf h t = some (w1, h1)) :
    w1.block_ = 0 ∧ ∀ b, h1.strongOf b = h.strongOf b := by
  unfold WeakPtr.assignSelf at hr
  cases hres : WeakPtr.Reset h t with
  | none => simp [hres] at hr
  | some x =>
    obtain ⟨t1, h2⟩ := x
    have hs := WeakPtr.Reset_keeps_strong hres
    have ht1 : t1.block_ = 0 := by
      unfold WeakPtr.Reset at hres
      by_cases hb : t.block_ = 0
      · simp only [hb, ne_eq, not_true_eq_false, if_false, Option.some.injEq,
          Prod.mk.injEq] at hres
        rw [← hres.1]
        exact hb
      · simp only [hb, ne_eq, not_false_eq_true, if_true] at hres
        cases hdec : BaseBlock.DecWeakCounter h t.block_ with
        | none => simp [hdec] at hres
        | some h3 =>
          simp only [hdec, Option.some.injEq, Prod.mk.injEq] at hres
          rw [← hres.1]
    simp only [hres, ht1, ne_eq, not_true_eq_false, if_false, Option.some.injEq,
      Prod.mk.injEq] at hr
    refine ⟨by rw [← hr.1]; exact ht1, fun b => ?_⟩
    rw [← hr.2]
    exact hs b

theorem WeakPtr.moveAssign_keeps_strong {h h1 : Heap} {t o w1 o1 : WeakPtr}
    (hr : WeakPtr.moveAssign h t o = some (w1, o1, h1)) :
    o1 = ⟨0, 0⟩ ∧ ∀ b, h1.strongOf b = h.strongOf b := by
  unfold WeakPtr.moveAssign at hr
  cases hres : WeakPtr.Reset h t with
  | none => simp [hres] at hr
  | some x =>
    obtain ⟨t1, h2⟩ := x
    simp only [hres, Option.some.injEq, Prod.mk.injEq] at hr
    refine ⟨hr.2.1.symm, fun b => ?_⟩
    rw [← hr.2.2]
    exact WeakPtr.Reset_keeps_strong hres b

theorem WeakPtr.moveAssignSelf_keeps_strong {h h1 : Heap} {t w1 : WeakPtr}
    (hr : WeakPtr.moveAssignSelf h t = some (w1, h1)) :
    w1 = ⟨0, 0⟩ ∧ ∀ b, h1.strongOf b = h.strongOf b := by
  unfold WeakPtr.moveAssignSelf at hr
  cases hres : WeakPtr.Reset h t with
  | none => simp [hres] at hr
  | some x =>
    obtain ⟨t1, h2⟩ := x
    simp only [hres, Option.some.injEq, Prod.mk.injEq] at hr
    refine ⟨hr.1.symm, fun b => ?_⟩
    rw [← hr.2]
    exact WeakPtr.Reset_keeps_strong hres b

/-! Allocation of a new block. -/

theorem SharedPtr.ofPtr_strongOf {h h1 : Heap} {b ptr : Nat} {esft : Bool} {p1 : SharedPtr}
    (hr : SharedPtr.ofPtr h b ptr esft = some (p1, h1)) :
    p1.block_ = b ∧ b ≠ 0 ∧ h.blocks b = none ∧
      ∀ b1, h1.strongOf b1 = if b1 = b then 1 else h.strongOf b1 := by
  unfold SharedPtr.ofPtr at hr
  simp only [SharedPtr.Reset, ne_eq, not_true_eq_false, if_false] at hr
  cases hnew : h.newBlock b ⟨.ControlBlockPointer, ptr, 1, 0⟩ with
  | none => simp [hnew] at hr
  | some h2 =>
    obtain ⟨hb, hnone, hs⟩ := Heap.newBlock_strongOf hnew
    simp only [hnew] at hr
    cases esft with
    | false =>
      simp only [Bool.false_eq_true, if_false, Option.some.injEq, Prod.mk.injEq] at hr
      refine ⟨by rw [← hr.1], hb, hnone, fun b1 => ?_⟩
      rw [← hr.2]
      exact hs b1
    | true =>
      simp only [if_true] at hr
      by_cases hptr : ptr = 0
      · simp [hptr] at hr
      · simp only [hptr, if_false] at hr
        cases hinc : BaseBlock.IncWeakCounter
            { h2 with weak_this := Function.update h2.weak_this ptr (some ⟨b, ptr⟩) } b with
        | none => simp [hinc] at hr
        | some h3 =>
          simp only [hinc, Option.some.injEq, Prod.mk.injEq] at hr
          refine ⟨by rw [← hr.1], hb, hnone, fun b1 => ?_⟩
          rw [← hr.2, BaseBlock.IncWeakCounter_strongOf hinc b1]
          exact hs b1

theorem MakeShared_strongOf {h h1 : Heap} {b buf : Nat} {esft : Bool} {p1 : SharedPtr}
    (hr : MakeShared h b buf esft = some (p1, h1)) :
    p1.block_ = b ∧ b ≠ 0 ∧ h.blocks b = none ∧
      ∀ b1, h1.strongOf b1 = if b1 = b then 1 else h.strongOf b1 := by
  unfold MakeShared at hr
  by_cases hbuf : buf = 0
  · simp [hbuf] at hr
  · simp only [hbuf, if_false] at hr
    cases hnew : h.newBlock b ⟨.ControlBlockObject, buf, 1, 0⟩ with
    | none => simp [hnew] at hr
    | some h2 =>
      obtain ⟨hb, hnone, hs⟩ := Heap.newBlock_strongOf hnew
      simp only [hnew] at hr
      cases esft with
      | false =>
        simp only [Bool.false_eq_true, if_false, Option.some.injEq, Prod.mk.injEq] at hr
        refine ⟨by rw [← hr.1], hb, hnone, fun b1 => ?_⟩
        rw [← hr.2]
        exact hs b1
      | true =>
        simp only [if_true] at hr
        cases hinc : BaseBlock.IncWeakCounter
            { h2 with weak_this := Function.update h2.weak_this buf (some ⟨b, buf⟩) } b with
        | none => simp [hinc] at hr
        | some h3 =>
          simp only [hinc, Option.some.injEq, Prod.mk.injEq] at hr
          refine ⟨by rw [← hr.1], hb, hnone, fun b1 => ?_⟩
          rw [← hr.2, BaseBlock.IncWeakCounter_strongOf hinc b1]
          exact hs b1


/-! ### The counting invariant along a program -/

theorem State.Counted.of_balanced {n : Nat} {s s1 : State} {olds news : Nat → Nat}
    (hc : s.Counted n) (hbal : s.heap.Balanced s1.heap olds news)
    (hlist : ∀ b, b ≠ 0 → s1.sharedRefs b + olds b = s.sharedRefs b + news b) :
    s1.Counted (n + 1) ∧
      ∀ b, (s.heap.blocks b).isSome → s.heap.strongOf b = 0 → s1.heap.strongOf b = 0 := by
  refine ⟨⟨fun b hb0 => ?_, fun b => ?_⟩, fun b _ hz => hbal.2.2 b hz⟩
  · have e1 := hc.1 b hb0
    have e2 := hbal.1 b hb0
    have e3 := hlist b hb0
    omega
  · have e1 := hc.2 b
    have e2 := hbal.2.1 b
    omega

theorem State.Counted.of_new {n : Nat} {s s1 : State} {B : Nat} {p1 : SharedPtr}
    (hc : s.Counted n) (hp1 : p1.block_ = B) (hB : B ≠ 0) (hnone : s.heap.blocks B = none)
    (hs : ∀ b1, s1.heap.strongOf b1 = if b1 = B then 1 else s.heap.strongOf b1)
    (hlist : s1.shared = s.shared ++ [some p1]) :
    s1.Counted (n + 1) ∧
      ∀ b, (s.heap.blocks b).isSome → s.heap.strongOf b = 0 → s1.heap.strongOf b = 0 := by
  have hB0 : s.heap.strongOf B = 0 := Heap.strongOf_of_none hnone
  refine ⟨⟨fun b hb0 => ?_, fun b => ?_⟩, fun b hsome hz => ?_⟩
  · have e1 := hc.1 b hb0
    have e2 := hs b
    unfold State.sharedRefs at e1 ⊢
    rw [hlist, countP_sharedOn_append, holds_some, hp1]
    by_cases hbb : b = B
    · subst hbb; simp only [if_true] at e2 ⊢; omega
    · have hbb2 : ¬ B = b := fun x => hbb x.symm
      simp only [hbb, hbb2, if_false] at e2 ⊢; omega
  · have e1 := hc.2 b
    have e2 := hs b
    split_ifs at e2 <;> omega
  · have e2 := hs b
    by_cases hbb : b = B
    · subst hbb; rw [hnone] at hsome; simp at hsome
    · simp only [hbb, if_false] at e2; omega

theorem State.getShared_set_ne {s : State} {i j : Nat} (x : Option SharedPtr) (hij : i ≠ j)
    {o : SharedPtr} (hg : s.getShared j = some o) :
    (s.shared.set i x)[j]? = some (some o) := by
  rw [List.getElem?_set_ne hij]
  exact State.getShared_eq_some hg


theorem SharedPtr.destructor_balanced {h h1 : Heap} {p : SharedPtr}
    (hr : SharedPtr.destructor h p = some h1)
    (hpos : p.block_ ≠ 0 → 1 ≤ h.strongOf p.block_) :
    h.Balanced h1 (holds (some p)) (holds none) := by
  unfold SharedPtr.destructor at hr
  cases hres : SharedPtr.Reset h p with
  | none => simp [hres] at hr
  | some r =>
    obtain ⟨p1, h2⟩ := r
    simp only [hres, Option.some.injEq] at hr
    subst hr
    obtain ⟨hp1, hs⟩ := SharedPtr.Reset_strongOf hres hpos
    refine ⟨fun b hb0 => ?_, fun b => ?_, fun b hz => ?_⟩
    · have e := hs b
      simp only [holds_some, holds_none]
      split_ifs at e ⊢ <;> omega
    · have e := hs b
      split_ifs at e <;> omega
    · have e := hs b
      split_ifs at e <;> omega

/-- One operation keeps the counting invariant (the bound on the strong counters grows
by one) and keeps at zero the strong counter of every allocated block that has it at
zero. -/
theorem step_counted {n : Nat} {s s1 : State} {op : Op} (hc : s.Counted n)
    (hn : n + 1 < SIZE_T_MOD) (hstep : step s op = some s1) :
    s1.Counted (n + 1) ∧
      ∀ b, (s.heap.blocks b).isSome → s.heap.strongOf b = 0 → s1.heap.strongOf b = 0 := by
  have hov : ∀ b, s.heap.strongOf b + 1 < SIZE_T_MOD := fun b => by
    have := hc.2 b
    omega
  cases op with
  | sharedNull =>
    simp only [step, Option.some.injEq] at hstep
    subst hstep
    refine State.Counted.of_balanced hc (@Heap.Balanced.of_empty s.heap
      SharedPtr.null rfl) (fun b _ => ?_)
    simp only [State.sharedRefs, countP_sharedOn_append, Nat.add_zero]
  | sharedOfPtr b ptr esft =>
    simp only [step] at hstep
    cases hf : SharedPtr.ofPtr s.heap b ptr esft with
    | none => simp [hf] at hstep
    | some x =>
      obtain ⟨p, h1⟩ := x
      simp only [hf, Option.some.injEq] at hstep
      subst hstep
      obtain ⟨hp, hb, hnone, hs⟩ := SharedPtr.ofPtr_strongOf hf
      exact State.Counted.of_new hc hp hb hnone hs rfl
  | makeShared b buf esft =>
    simp only [step] at hstep
    cases hf : MakeShared s.heap b buf esft with
    | none => simp [hf] at hstep
    | some x =>
      obtain ⟨p, h1⟩ := x
      simp only [hf, Option.some.injEq] at hstep
      subst hstep
      obtain ⟨hp, hb, hnone, hs⟩ := MakeShared_strongOf hf
      exact State.Counted.of_new hc hp hb hnone hs rfl
  | sharedCopy i =>
    simp only [step] at hstep
    cases hg : s.getShared i with
    | none => simp [hg] at hstep
    | some o =>
      simp only [hg] at hstep
      cases hf : SharedPtr.copy s.heap o with
      | none => simp [hf] at hstep
      | some x =>
        obtain ⟨p, h1⟩ := x
        simp only [hf, Option.some.injEq] at hstep
        subst hstep
        refine State.Counted.of_balanced hc
          (SharedPtr.copy_balanced hf (fun hb => hc.strong_pos hg hb) hov) (fun b _ => ?_)
        simp only [State.sharedRefs, countP_sharedOn_append, Nat.add_zero]
  | sharedMove i =>
    simp only [step] at hstep
    cases hg : s.getShared i with
    | none => simp [hg] at hstep
    | some o =>
      simp only [hg] at hstep
      cases hf : SharedPtr.move s.heap o with
      | none => simp [hf] at hstep
      | some x =>
        obtain ⟨p, o1, h1⟩ := x
        simp only [hf, Option.some.injEq] at hstep
        subst hstep
        refine State.Counted.of_balanced hc (SharedPtr.move_balanced hf hov) (fun b _ => ?_)
        have e := countP_sharedOn_set s.shared i (some o1) (some o) b
          (State.getShared_eq_some hg)
        simp only [State.sharedRefs, countP_sharedOn_append]
        omega
  | sharedAlias i ptr =>
    simp only [step] at hstep
    cases hg : s.getShared i with
    | none => simp [hg] at hstep
    | some o =>
      simp only [hg] at hstep
      cases hf : SharedPtr.alias s.heap o ptr with
      | none => simp [hf] at hstep
      | some x =>
        obtain ⟨p, h1⟩ := x
        simp only [hf, Option.some.injEq] at hstep
        subst hstep
        refine State.Counted.of_balanced hc
          (SharedPtr.alias_balanced hf (fun hb => hc.strong_pos hg hb) hov) (fun b _ => ?_)
        simp only [State.sharedRefs, countP_sharedOn_append, Nat.add_zero]
  | sharedOfWeak k =>
    simp only [step] at hstep
    cases hg : s.getWeak k with
    | none => simp [hg] at hstep
    | some w =>
      simp only [hg] at hstep
      cases hf : SharedPtr.ofWeak s.heap w with
      | none => simp [hf] at hstep
      | some x =>
        obtain ⟨r, h1⟩ := x
        rcases SharedPtr.ofWeak_balanced hf hov with ⟨hr, hh⟩ | ⟨p1, hr, hbal⟩
        · subst hr hh
          simp only [hf, Option.some.injEq] at hstep
          subst hstep
          exact State.Counted.of_balanced hc (Heap.Balanced.rfl_zero _) (fun b _ => rfl)
        · subst hr
          simp only [hf, Option.some.injEq] at hstep
          subst hstep
          refine State.Counted.of_balanced hc hbal (fun b _ => ?_)
          simp only [State.sharedRefs, countP_sharedOn_append, Nat.add_zero]
  | sharedAssign i j =>
    simp only [step] at hstep
    cases hgi : s.getShared i with
    | none => simp [hgi] at hstep
    | some t =>
      cases hgj : s.getShared j with
      | none => simp [hgi, hgj] at hstep
      | some o =>
        simp only [hgi, hgj] at hstep
        cases hf : SharedPtr.assign s.heap t o with
        | none => simp [hf] at hstep
        | some x =>
          obtain ⟨t1, h1⟩ := x
          simp only [hf, Option.some.injEq] at hstep
          subst hstep
          refine State.Counted.of_balanced hc
            (SharedPtr.assign_balanced hf (fun hb => hc.strong_pos hgi hb)
              (fun hb => hc.strong_pos hgj hb) hov) (fun b _ => ?_)
          exact countP_sharedOn_set s.shared i (some t1) (some t) b
            (State.getShared_eq_some hgi)
  | sharedMoveAssign i j =>
    simp only [step] at hstep
    cases hgi : s.getShared i with
    | none => simp [hgi] at hstep
    | some t =>
      cases hgj : s.getShared j with
      | none => simp [hgi, hgj] at hstep
      | some o =>
        simp only [hgi, hgj] at hstep
        by_cases hij : i = j
        · simp only [hij, if_true] at hstep
          cases hf : SharedPtr.moveAssignSelf s.heap t with
          | none => simp [hf] at hstep
          | some x =>
            obtain ⟨t1, h1⟩ := x
            simp only [hf, Option.some.injEq] at hstep
            subst hstep
            refine State.Counted.of_balanced hc
              (SharedPtr.moveAssignSelf_balanced hf (fun hb => hc.strong_pos hgi hb))
              (fun b _ => ?_)
            subst hij
            exact countP_sharedOn_set s.shared i (some t1) (some t) b
              (State.getShared_eq_some hgi)
        · simp only [hij, if_false] at hstep
          cases hf : SharedPtr.moveAssign s.heap t o with
          | none => simp [hf] at hstep
          | some x =>
            obtain ⟨t1, o1, h1⟩ := x
            simp only [hf, Option.some.injEq] at hstep
            subst hstep
            refine State.Counted.of_balanced hc
              (SharedPtr.moveAssign_balanced hf (fun hb => hc.strong_pos hgi hb) hov)
              (fun b _ => ?_)
            have e1 := countP_sharedOn_set s.shared i (some t1) (some t) b
              (State.getShared_eq_some hgi)
            have e2 := countP_sharedOn_set (s.shared.set i (some t1)) j (some o1) (some o) b
              (State.getShared_set_ne (some t1) hij hgj)
            simp only [State.sharedRefs]
            omega
  | sharedReset i =>
    simp only [step] at hstep
    cases hg : s.getShared i with
    | none => simp [hg] at hstep
    | some t =>
      simp only [hg] at hstep
      cases hf : SharedPtr.Reset s.heap t with
      | none => simp [hf] at hstep
      | some x =>
        obtain ⟨t1, h1⟩ := x
        simp only [hf, Option.some.injEq] at hstep
        subst hstep
        refine State.Counted.of_balanced hc
          (SharedPtr.Reset_balanced hf (fun hb => hc.strong_pos hg hb)) (fun b _ => ?_)
        exact countP_sharedOn_set s.shared i (some t1) (some t) b
          (State.getShared_eq_some hg)
  | sharedDestroy i =>
    simp only [step] at hstep
    cases hg : s.getShared i with
    | none => simp [hg] at hstep
    | some t =>
      simp only [hg] at hstep
      cases hf : SharedPtr.destructor s.heap t with
      | none => simp [hf] at hstep
      | some h1 =>
        simp only [hf, Option.some.injEq] at hstep
        subst hstep
        refine State.Counted.of_balanced hc
          (SharedPtr.destructor_balanced hf (fun hb => hc.strong_pos hg hb)) (fun b _ => ?_)
        exact countP_sharedOn_set s.shared i none (some t) b (State.getShared_eq_some hg)
  | weakNull =>
    simp only [step, Option.some.injEq] at hstep
    subst hstep
    exact State.Counted.of_balanced hc (Heap.Balanced.rfl_zero _) (fun b _ => rfl)
  | weakCopy k =>
    simp only [step] at hstep
    cases hg : s.getWeak k with
    | none => simp [hg] at hstep
    | some w =>
      simp only [hg] at hstep
      cases hf : WeakPtr.copy s.heap w with
      | none => simp [hf] at hstep
      | some x =>
        obtain ⟨w1, h1⟩ := x
        simp only [hf, Option.some.injEq] at hstep
        subst hstep
        exact State.Counted.of_balanced hc
          (Heap.Balanced.of_strongOf_eq (WeakPtr.copy_keeps_strong hf)) (fun b _ => rfl)
  | weakMove k =>
    simp only [step] at hstep
    cases hg : s.getWeak k with
    | none => simp [hg] at hstep
    | some w =>
      simp only [hg, Option.some.injEq] at hstep
      subst hstep
      exact State.Counted.of_balanced hc (Heap.Balanced.rfl_zero _) (fun b _ => rfl)
  | weakOfShared i =>
    simp only [step] at hstep
    cases hg : s.getShared i with
    | none => simp [hg] at hstep
    | some o =>
      simp only [hg] at hstep
      cases hf : WeakPtr.ofShared s.heap o with
      | none => simp [hf] at hstep
      | some x =>
        obtain ⟨w1, h1⟩ := x
        simp only [hf, Option.some.injEq] at hstep
        subst hstep
        exact State.Counted.of_balanced hc
          (Heap.Balanced.of_strongOf_eq (WeakPtr.ofShared_keeps_strong hf)) (fun b _ => rfl)
  | weakAssign k l =>
    simp only [step] at hstep
    cases hgk : s.getWeak k with
    | none => simp [hgk] at hstep
    | some t =>
      cases hgl : s.getWeak l with
      | none => simp [hgk, hgl] at hstep
      | some o =>
        simp only [hgk, hgl] at hstep
        by_cases hkl : k = l
        · simp only [hkl, if_true] at hstep
          cases hf : WeakPtr.assignSelf s.heap t with
          | none => simp [hf] at hstep
          | some x =>
            obtain ⟨w1, h1⟩ := x
            simp only [hf, Option.some.injEq] at hstep
            subst hstep
            exact State.Counted.of_balanced hc
              (Heap.Balanced.of_strongOf_eq (WeakPtr.assignSelf_keeps_strong hf).2)
              (fun b _ => rfl)
        · simp only [hkl, if_false] at hstep
          cases hf : WeakPtr.assign s.heap t o with
          | none => simp [hf] at hstep
          | some x =>
            obtain ⟨w1, h1⟩ := x
            simp only [hf, Option.some.injEq] at hstep
            subst hstep
            exact State.Counted.of_balanced hc
              (Heap.Balanced.of_strongOf_eq (WeakPtr.assign_keeps_strong hf)) (fun b _ => rfl)
  | weakMoveAssign k l =>
    simp only [step] at hstep
    cases hgk : s.getWeak k with
    | none => simp [hgk] at hstep
    | some t =>
      cases hgl : s.getWeak l with
      | none => simp [hgk, hgl] at hstep
      | some o =>
        simp only [hgk, hgl] at hstep
        by_cases hkl : k = l
        · simp only [hkl, if_true] at hstep
          cases hf : WeakPtr.moveAssignSelf s.heap t with
          | none => simp [hf] at hstep
          | some x =>
            obtain ⟨w1, h1⟩ := x
            simp only [hf, Option.some.injEq] at hstep
            subst hstep
            exact State.Counted.of_balanced hc
              (Heap.Balanced.of_strongOf_eq (WeakPtr.moveAssignSelf_keeps_strong hf).2)
              (fun b _ => rfl)
        · simp only [hkl, if_false] at hstep
          cases hf : WeakPtr.moveAssign s.heap t o with
          | none => simp [hf] at hstep
          | some x =>
            obtain ⟨w1, o1, h1⟩ := x
            simp only [hf, Option.some.injEq] at hstep
            subst hstep
            exact State.Counted.of_balanced hc
              (Heap.Balanced.of_strongOf_eq (WeakPtr.moveAssign_keeps_strong hf).2)
              (fun b _ => rfl)
  | weakReset k =>
    simp only [step] at hstep
    cases hg : s.getWeak k with
    | none => simp [hg] at hstep
    | some w =>
      simp only [hg] at hstep
      cases hf : WeakPtr.Reset s.heap w with
      | none => simp [hf] at hstep
      | some x =>
        obtain ⟨w1, h1⟩ := x
        simp only [hf, Option.some.injEq] at hstep
        subst hstep
        exact State.Counted.of_balanced hc
          (Heap.Balanced.of_strongOf_eq (WeakPtr.Reset_keeps_strong hf)) (fun b _ => rfl)
  | weakDestroy k =>
    simp only [step] at hstep
    cases hg : s.getWeak k with
    | none => simp [hg] at hstep
    | some w =>
      simp only [hg] at hstep
      cases hf : WeakPtr.destructor s.heap w with
      | none => simp [hf] at hstep
      | some h1 =>
        simp only [hf, Option.some.injEq] at hstep
        subst hstep
        exact State.Counted.of_balanced hc
          (Heap.Balanced.of_strongOf_eq (WeakPtr.destructor_keeps_strong hf)) (fun b _ => rfl)
  | weakLock k =>
    simp only [step] at hstep
    cases hg : s.getWeak k with
    | none => simp [hg] at hstep
    | some w =>
      simp only [hg] at hstep
      cases hf : WeakPtr.Lock s.heap w with
      | none => simp [hf] at hstep
      | some x =>
        obtain ⟨p, h1⟩ := x
        simp only [hf, Option.some.injEq] at hstep
        subst hstep
        refine State.Counted.of_balanced hc (WeakPtr.Lock_balanced hf hov) (fun b _ => ?_)
        simp only [State.sharedRefs, countP_sharedOn_append, Nat.add_zero]


theorem State.init_counted : State.init.Counted 0 := by
  refine ⟨fun b _ => ?_, fun b => ?_⟩
  · simp [State.sharedRefs, State.init]
  · simp [Heap.strongOf, State.init, Heap.empty]

/-- The counting invariant holds along every program whose length keeps the bound on
the strong counters below the largest `size_t`. -/
theorem run_counted {ops : List Op} {n : Nat} {s s1 : State} (hc : s.Counted n)
    (hn : n + ops.length < SIZE_T_MOD) (hrun : run s ops = some s1) :
    s1.Counted (n + ops.length) := by
  induction ops generalizing n s with
  | nil =>
    simp only [run, Option.some.injEq] at hrun
    subst hrun
    exact hc
  | cons op ops ih =>
    simp only [run] at hrun
    simp only [List.length_cons] at hn
    cases hstep : step s op with
    | none => simp [hstep] at hrun
    | some s2 =>
      simp only [hstep] at hrun
      have hc2 := (step_counted hc (by omega) hstep).1
      have hc3 := ih hc2 (by omega) hrun
      have hlen : n + (op :: ops).length = n + 1 + ops.length := by
        simp only [List.length_cons]; omega
      rw [hlen]
      exact hc3

theorem WeakPtr.Reset_block {h h1 : Heap} {w w1 : WeakPtr}
    (hr : WeakPtr.Reset h w = some (w1, h1)) : w1.block_ = 0 := by
  unfold WeakPtr.Reset at hr
  by_cases hb : w.block_ = 0
  · simp only [hb, ne_eq, not_true_eq_false, if_false, Option.some.injEq, Prod.mk.injEq] at hr
    rw [← hr.1]
    exact hb
  · simp only [hb, ne_eq, not_false_eq_true, if_true] at hr
    cases hdec : BaseBlock.DecWeakCounter h w.block_ with
    | none => simp [hdec] at hr
    | some h2 =>
      simp only [hdec, Option.some.injEq, Prod.mk.injEq] at hr
      rw [← hr.1]

/-- Slot `k` of a list after an append, when slot `k` was filled. -/
theorem getElem?_append_of_some {α : Type} {l : List α} {k : Nat} {x : α} (tail : List α)
    (hk : l[k]? = some x) : (l ++ tail)[k]? = some x := by
  have hlt : k < l.length := by
    by_contra hge
    rw [List.getElem?_eq_none (by omega)] at hk
    simp at hk
  rw [List.getElem?_append_left hlt]
  exact hk

/-- Slot `k` of a list after a write to slot `k1`, when slot `k` was filled. -/
theorem getElem?_set_of_some {α : Type} {l : List α} {k j : Nat} {x y : α}
    (hk : l[k]? = some x) : (l.set j y)[k]? = if j = k then some y else some x := by
  have hlt : k < l.length := by
    by_contra hge
    rw [List.getElem?_eq_none (by omega)] at hk
    simp at hk
  by_cases hkk : j = k
  · subst hkk
    simp [hlt]
  · simp [hkk, List.getElem?_set_ne hkk, hk]


/-- What one operation does to a live `WeakPtr` object that is not the destination of
an assignment: it is destroyed, or left as it was, or left empty. -/
theorem step_weak_slot {s s1 : State} {op : Op} {k : Nat} {w : WeakPtr}
    (hstep : step s op = some s1) (hg : s.weak[k]? = some (some w))
    (hna : ¬ op.assignsWeak k) :
    s1.weak[k]? = some none ∨ s1.weak[k]? = some (some w) ∨
      ∃ w1, s1.weak[k]? = some (some w1) ∧ w1.block_ = 0 := by
  cases op with
  | sharedNull =>
    simp only [step, Option.some.injEq] at hstep
    subst hstep
    exact Or.inr (Or.inl hg)
  | sharedOfPtr b ptr esft =>
    simp only [step] at hstep
    cases hf : SharedPtr.ofPtr s.heap b ptr esft with
    | none => simp [hf] at hstep
    | some x =>
      simp only [hf, Option.some.injEq] at hstep
      subst hstep
      exact Or.inr (Or.inl hg)
  | makeShared b buf esft =>
    simp only [step] at hstep
    cases hf : MakeShared s.heap b buf esft with
    | none => simp [hf] at hstep
    | some x =>
      simp only [hf, Option.some.injEq] at hstep
      subst hstep
      exact Or.inr (Or.inl hg)
  | sharedCopy i =>
    simp only [step] at hstep
    cases hgs : s.getShared i with
    | none => simp [hgs] at hstep
    | some o =>
      simp only [hgs] at hstep
      cases hf : SharedPtr.copy s.heap o with
      | none => simp [hf] at hstep
      | some x =>
        simp only [hf, Option.some.injEq] at hstep
        subst hstep
        exact Or.inr (Or.inl hg)
  | sharedMove i =>
    simp only [step] at hstep
    cases hgs : s.getShared i with
    | none => simp [hgs] at hstep
    | some o =>
      simp only [hgs] at hstep
      cases hf : SharedPtr.move s.heap o with
      | none => simp [hf] at hstep
      | some x =>
        simp only [hf, Option.some.injEq] at hstep
        subst hstep
        exact Or.inr (Or.inl hg)
  | sharedAlias i ptr =>
    simp only [step] at hstep
    cases hgs : s.getShared i with
    | none => simp [hgs] at hstep
    | some o =>
      simp only [hgs] at hstep
      cases hf : SharedPtr.alias s.heap o ptr with
      | none => simp [hf] at hstep
      | some x =>
        simp only [hf, Option.some.injEq] at hstep
        subst hstep
        exact Or.inr (Or.inl hg)
  | sharedOfWeak k1 =>
    simp only [step] at hstep
    cases hgw : s.getWeak k1 with
    | none => simp [hgw] at hstep
    | some w0 =>
      simp only [hgw] at hstep
      cases hf : SharedPtr.ofWeak s.heap w0 with
      | none => simp [hf] at hstep
      | some x =>
        obtain ⟨r, h1⟩ := x
        cases r with
        | error e =>
          simp only [hf, Option.some.injEq] at hstep
          subst hstep
          exact Or.inr (Or.inl hg)
        | ok p =>
          simp only [hf, Option.some.injEq] at hstep
          subst hstep
          exact Or.inr (Or.inl hg)
  | sharedAssign i j =>
    simp only [step] at hstep
    cases hgi : s.getShared i with
    | none => simp [hgi] at hstep
    | some t =>
      cases hgj : s.getShared j with
      | none => simp [hgi, hgj] at hstep
      | some o =>
        simp only [hgi, hgj] at hstep
        cases hf : SharedPtr.assign s.heap t o with
        | none => simp [hf] at hstep
        | some x =>
          simp only [hf, Option.some.injEq] at hstep
          subst hstep
          exact Or.inr (Or.inl hg)
  | sharedMoveAssign i j =>
    simp only [step] at hstep
    cases hgi : s.getShared i with
    | none => simp [hgi] at hstep
    | some t =>
      cases hgj : s.getShared j with
      | none => simp [hgi, hgj] at hstep
      | some o =>
        simp only [hgi, hgj] at hstep
        by_cases hij : i = j
        · simp only [hij, if_true] at hstep
          cases hf : SharedPtr.moveAssignSelf s.heap t with
          | none => simp [hf] at hstep
          | some x =>
            simp only [hf, Option.some.injEq] at hstep
            subst hstep
            exact Or.inr (Or.inl hg)
        · simp only [hij, if_false] at hstep
          cases hf : SharedPtr.moveAssign s.heap t o with
          | none => simp [hf] at hstep
          | some x =>
            simp only [hf, Option.some.injEq] at hstep
            subst hstep
            exact Or.inr (Or.inl hg)
  | sharedReset i =>
    simp only [step] at hstep
    cases hgs : s.getShared i with
    | none => simp [hgs] at hstep
    | some t =>
      simp only [hgs] at hstep
      cases hf : SharedPtr.Reset s.heap t with
      | none => simp [hf] at hstep
      | some x =>
        simp only [hf, Option.some.injEq] at hstep
        subst hstep
        exact Or.inr (Or.inl hg)
  | sharedDestroy i =>
    simp only [step] at hstep
    cases hgs : s.getShared i with
    | none => simp [hgs] at hstep
    | some t =>
      simp only [hgs] at hstep
      cases hf : SharedPtr.destructor s.heap t with
      | none => simp [hf] at hstep
      | some h1 =>
        simp only [hf, Option.some.injEq] at hstep
        subst hstep
        exact Or.inr (Or.inl hg)
  | weakNull =>
    simp only [step, Option.some.injEq] at hstep
    subst hstep
    exact Or.inr (Or.inl (getElem?_append_of_some _ hg))
  | weakCopy k1 =>
    simp only [step] at hstep
    cases hgw : s.getWeak k1 with
    | none => simp [hgw] at hstep
    | some w0 =>
      simp only [hgw] at hstep
      cases hf : WeakPtr.copy s.heap w0 with
      | none => simp [hf] at hstep
      | some x =>
        simp only [hf, Option.some.injEq] at hstep
        subst hstep
        exact Or.inr (Or.inl (getElem?_append_of_some _ hg))
  | weakMove k1 =>
    simp only [step] at hstep
    cases hgw : s.getWeak k1 with
    | none => simp [hgw] at hstep
    | some w0 =>
      simp only [hgw, Option.some.injEq] at hstep
      subst hstep
      have e := getElem?_set_of_some (j := k1) (y := some (WeakPtr.move w0).2) hg
      by_cases hkk : k1 = k
      · subst hkk
        simp only [if_true] at e
        exact Or.inr (Or.inr ⟨_, getElem?_append_of_some _ e, rfl⟩)
      · simp only [hkk, if_false] at e
        exact Or.inr (Or.inl (getElem?_append_of_some _ e))
  | weakOfShared i =>
    simp only [step] at hstep
    cases hgs : s.getShared i with
    | none => simp [hgs] at hstep
    | some o =>
      simp only [hgs] at hstep
      cases hf : WeakPtr.ofShared s.heap o with
      | none => simp [hf] at hstep
      | some x =>
        simp only [hf, Option.some.injEq] at hstep
        subst hstep
        exact Or.inr (Or.inl (getElem?_append_of_some _ hg))
  | weakAssign k1 l =>
    have hkk : ¬ k1 = k := hna
    simp only [step] at hstep
    cases hgk : s.getWeak k1 with
    | none => simp [hgk] at hstep
    | some t =>
      cases hgl : s.getWeak l with
      | none => simp [hgk, hgl] at hstep
      | some o =>
        simp only [hgk, hgl] at hstep
        by_cases hkl : k1 = l
        · simp only [hkl, if_true] at hstep
          cases hf : WeakPtr.assignSelf s.heap t with
          | none => simp [hf] at hstep
          | some x =>
            obtain ⟨w1, h1⟩ := x
            simp only [hf, Option.some.injEq] at hstep
            subst hstep
            have e := getElem?_set_of_some (j := l) (y := some w1) hg
            rw [if_neg (by rw [← hkl]; exact hkk)] at e
            exact Or.inr (Or.inl e)
        · simp only [hkl, if_false] at hstep
          cases hf : WeakPtr.assign s.heap t o with
          | none => simp [hf] at hstep
          | some x =>
            obtain ⟨w1, h1⟩ := x
            simp only [hf, Option.some.injEq] at hstep
            subst hstep
            have e := getElem?_set_of_some (j := k1) (y := some w1) hg
            rw [if_neg hkk] at e
            exact Or.inr (Or.inl e)
  | weakMoveAssign k1 l =>
    have hkk : ¬ k1 = k := hna
    simp only [step] at hstep
    cases hgk : s.getWeak k1 with
    | none => simp [hgk] at hstep
    | some t =>
      cases hgl : s.getWeak l with
      | none => simp [hgk, hgl] at hstep
      | some o =>
        simp only [hgk, hgl] at hstep
        by_cases hkl : k1 = l
        · simp only [hkl, if_true] at hstep
          cases hf : WeakPtr.moveAssignSelf s.heap t with
          | none => simp [hf] at hstep
          | some x =>
            obtain ⟨w1, h1⟩ := x
            simp only [hf, Option.some.injEq] at hstep
            subst hstep
            have e := getElem?_set_of_some (j := l) (y := some w1) hg
            rw [if_neg (by rw [← hkl]; exact hkk)] at e
            exact Or.inr (Or.inl e)
        · simp only [hkl, if_false] at hstep
          cases hf : WeakPtr.moveAssign s.heap t o with
          | none => simp [hf] at hstep
          | some x =>
            obtain ⟨w1, o1, h1⟩ := x
            have ho1 := (WeakPtr.moveAssign_keeps_strong hf).1
            simp only [hf, Option.some.injEq] at hstep
            subst hstep
            have e := getElem?_set_of_some (j := k1) (y := some w1) hg
            rw [if_neg hkk] at e
            have e2 := getElem?_set_of_some (j := l) (y := some o1) e
            by_cases hlk : l = k
            · simp only [hlk, if_true] at e2
              refine Or.inr (Or.inr ⟨o1, ?_, by rw [ho1]⟩)
              rw [← hlk] at e2 ⊢
              exact e2
            · simp only [hlk, if_false] at e2
              exact Or.inr (Or.inl e2)
  | weakReset k1 =>
    simp only [step] at hstep
    cases hgw : s.getWeak k1 with
    | none => simp [hgw] at hstep
    | some w0 =>
      simp only [hgw] at hstep
      cases hf : WeakPtr.Reset s.heap w0 with
      | none => simp [hf] at hstep
      | some x =>
        obtain ⟨w1, h1⟩ := x
        simp only [hf, Option.some.injEq] at hstep
        subst hstep
        have e := getElem?_set_of_some (j := k1) (y := some w1) hg
        by_cases hkk : k1 = k
        · simp only [hkk, if_true] at e
          refine Or.inr (Or.inr ⟨w1, ?_, WeakPtr.Reset_block hf⟩)
          rw [← hkk] at e ⊢
          exact e
        · simp only [hkk, if_false] at e
          exact Or.inr (Or.inl e)
  | weakDestroy k1 =>
    simp only [step] at hstep
    cases hgw : s.getWeak k1 with
    | none => simp [hgw] at hstep
    | some w0 =>
      simp only [hgw] at hstep
      cases hf : WeakPtr.destructor s.heap w0 with
      | none => simp [hf] at hstep
      | some h1 =>
        simp only [hf, Option.some.injEq] at hstep
        subst hstep
        have e := getElem?_set_of_some (j := k1) (y := (none : Option WeakPtr)) hg
        by_cases hkk : k1 = k
        · simp only [hkk, if_true] at e
          refine Or.inl ?_
          rw [← hkk] at e ⊢
          exact e
        · simp only [hkk, if_false] at e
          exact Or.inr (Or.inl e)
  | weakLock k1 =>
    simp only [step] at hstep
    cases hgw : s.getWeak k1 with
    | none => simp [hgw] at hstep
    | some w0 =>
      simp only [hgw] at hstep
      cases hf : WeakPtr.Lock s.heap w0 with
      | none => simp [hf] at hstep
      | some x =>
        simp only [hf, Option.some.injEq] at hstep
        subst hstep
        exact Or.inr (Or.inl hg)


theorem State.getWeak_of_getElem? {s : State} {k : Nat} {w : WeakPtr}
    (hg : s.weak[k]? = some (some w)) : s.getWeak k = some w := by
  simp [State.getWeak, hg]

/-- C6 (counterexample to the statement as written): an empty `WeakPtr` is expired;
after copy assignment from a `WeakPtr` on a live block the same object is not expired
any more. -/
theorem weak_assign_ends_expiry :
    (run State.init [.makeShared 1 100 false, .weakNull, .weakOfShared 0]).bind (fun s =>
        (step s (.weakAssign 0 1)).map (fun s1 =>
          ((s.getWeak 0).bind (WeakPtr.Expired s.heap),
            (s1.getWeak 0).bind (WeakPtr.Expired s1.heap)))) =
      some (some true, some false) := by
  decide

/-- The sample states evaluated: before and after `Lock()`
the block at 1 is allocated with strong counter 0 and the `WeakPtr` is expired. -/
theorem expired_sample_eval :
    (sampleExpiredState.heap.blocks 1, sampleExpiredState.getWeak 0,
      sampleLockedState.heap.blocks 1, sampleLockedState.getWeak 0,
      (sampleLockedState.getWeak 0).bind (WeakPtr.Expired sampleLockedState.heap)) =
      (some ⟨.ControlBlockPointer, 100, 0, 1⟩, some ⟨1, 100⟩,
        some ⟨.ControlBlockPointer, 100, 0, 1⟩, some ⟨1, 100⟩, some true) := by
  decide


theorem WeakPtr.assign_result {h h1 : Heap} {t o w1 : WeakPtr}
    (hr : WeakPtr.assign h t o = some (w1, h1)) : w1 = ⟨o.block_, o.observed_⟩ := by
  unfold WeakPtr.assign at hr
  cases hres : WeakPtr.Reset h t with
  | none => simp [hres] at hr
  | some x =>
    obtain ⟨t1, h2⟩ := x
    simp only [hres] at hr
    by_cases hb : o.block_ = 0
    · simp only [hb, ne_eq, not_true_eq_false, if_false, Option.some.injEq,
        Prod.mk.injEq] at hr
      rw [← hr.1, hb]
    · simp only [hb, ne_eq, not_false_eq_true, if_true] at hr
      cases hinc : BaseBlock.IncWeakCounter h2 o.block_ with
      | none => simp [hinc] at hr
      | some h3 =>
        simp only [hinc, Option.some.injEq, Prod.mk.injEq] at hr
        exact hr.1.symm

theorem WeakPtr.moveAssign_result {h h1 : Heap} {t o w1 o1 : WeakPtr}
    (hr : WeakPtr.moveAssign h t o = some (w1, o1, h1)) : w1 = ⟨o.block_, o.observed_⟩ := by
  unfold WeakPtr.moveAssign at hr
  cases hres : WeakPtr.Reset h t with
  | none => simp [hres] at hr
  | some x =>
    obtain ⟨t1, h2⟩ := x
    simp only [hres, Option.some.injEq, Prod.mk.injEq] at hr
    exact hr.1.symm

/-- Slot `k` of a list after a write to slot `k`, when slot `k` was filled. -/
theorem getElem?_set_self_of_some {α : Type} {l : List α} {k : Nat} {x y : α}
    (hk : l[k]? = some x) : (l.set k y)[k]? = some y := by
  have e := getElem?_set_of_some (j := k) (y := y) hk
  simpa using e

/-- The destination of a `WeakPtr` assignment afterwards: it is empty or on the block
of the source, and every strong counter is as it was. -/
theorem step_weakAssign_slot {s s1 : State} {k l : Nat}
    (hstep : step s (.weakAssign k l) = some s1 ∨ step s (.weakMoveAssign k l) = some s1) :
    ∃ o w1, s.getWeak l = some o ∧ s1.weak[k]? = some (some w1) ∧
      (w1.block_ = 0 ∨ w1.block_ = o.block_) ∧
      ∀ b, s1.heap.strongOf b = s.heap.strongOf b := by
  rcases hstep with hstep | hstep
  · simp only [step] at hstep
    cases hgk : s.getWeak k with
    | none => simp [hgk] at hstep
    | some t =>
      cases hgl : s.getWeak l with
      | none => simp [hgk, hgl] at hstep
      | some o =>
        simp only [hgk, hgl] at hstep
        have hk := State.getWeak_eq_some hgk
        by_cases hkl : k = l
        · simp only [hkl, if_true] at hstep
          cases hf : WeakPtr.assignSelf s.heap t with
          | none => simp [hf] at hstep
          | some x =>
            obtain ⟨w1, h1⟩ := x
            simp only [hf, Option.some.injEq] at hstep
            subst hstep
            subst hkl
            exact ⟨o, w1, rfl, getElem?_set_self_of_some hk,
              Or.inl (WeakPtr.assignSelf_keeps_strong hf).1,
              (WeakPtr.assignSelf_keeps_strong hf).2⟩
        · simp only [hkl, if_false] at hstep
          cases hf : WeakPtr.assign s.heap t o with
          | none => simp [hf] at hstep
          | some x =>
            obtain ⟨w1, h1⟩ := x
            simp only [hf, Option.some.injEq] at hstep
            subst hstep
            exact ⟨o, w1, rfl, getElem?_set_self_of_some hk,
              Or.inr (by rw [WeakPtr.assign_result hf]),
              WeakPtr.assign_keeps_strong hf⟩
  · simp only [step] at hstep
    cases hgk : s.getWeak k with
    | none => simp [hgk] at hstep
    | some t =>
      cases hgl : s.getWeak l with
      | none => simp [hgk, hgl] at hstep
      | some o =>
        simp only [hgk, hgl] at hstep
        have hk := State.getWeak_eq_some hgk
        by_cases hkl : k = l
        · simp only [hkl, if_true] at hstep
          cases hf : WeakPtr.moveAssignSelf s.heap t with
          | none => simp [hf] at hstep
          | some x =>
            obtain ⟨w1, h1⟩ := x
            simp only [hf, Option.some.injEq] at hstep
            subst hstep
            subst hkl
            exact ⟨o, w1, rfl, getElem?_set_self_of_some hk,
              Or.inl (by rw [(WeakPtr.moveAssignSelf_keeps_strong hf).1]),
              (WeakPtr.moveAssignSelf_keeps_strong hf).2⟩
        · simp only [hkl, if_false] at hstep
          cases hf : WeakPtr.moveAssign s.heap t o with
          | none => simp [hf] at hstep
          | some x =>
            obtain ⟨w1, o1, h1⟩ := x
            simp only [hf, Option.some.injEq] at hstep
            subst hstep
            have e1 := getElem?_set_self_of_some (y := some w1) hk
            have e2 := getElem?_set_of_some (j := l) (y := some o1) e1
            have hlk : ¬ l = k := fun x => hkl x.symm
            rw [if_neg hlk] at e2
            exact ⟨o, w1, rfl, e2, Or.inr (by rw [WeakPtr.moveAssign_result hf]),
              (WeakPtr.moveAssign_keeps_strong hf).2⟩

/-- A handle whose block has strong counter zero, or is absent, is expired or has no
block behind it. -/
theorem WeakPtr.Expired_of_strongOf_zero {h : Heap} {w : WeakPtr}
    (hz : w.block_ = 0 ∨ h.strongOf w.block_ = 0) :
    WeakPtr.Expired h w = some true ∨ h.blocks w.block_ = none := by
  rcases hz with hb | hz
  · exact Or.inl ((WeakPtr.Expired_eq_true_iff h w).mpr (Or.inl hb))
  · cases hblk : h.blocks w.block_ with
    | none => exact Or.inr rfl
    | some blk =>
      rw [Heap.strongOf_of_block hblk] at hz
      exact Or.inl ((WeakPtr.Expired_eq_true_iff h w).mpr (Or.inr ⟨blk, hblk, hz⟩))

/-- C6 (amended): in every state reached by a program of fewer than `SIZE_T_MOD - 1`
operations, one more operation leaves at zero the strong counter of every allocated
block that has it at zero, for as long as the block is allocated; and a live `WeakPtr`
that is expired is afterwards destroyed, or still expired, or on a block that has been
deleted, unless the operation is an assignment whose destination is that `WeakPtr`
and whose source is not expired. -/
theorem expired_stays_expired (ops : List Op) (s s1 : State) (op : Op) (b : Nat)
    (blk : Block) (k : Nat) (w : WeakPtr) (hrun : run State.init ops = some s)
    (hlen : ops.length + 1 < SIZE_T_MOD) (hstep : step s op = some s1) :
    (s.heap.blocks b = some blk → blk.strong_counter_ = 0 →
        s1.heap.blocks b = none ∨
          ∃ blk1, s1.heap.blocks b = some blk1 ∧ blk1.strong_counter_ = 0) ∧
    (s.getWeak k = some w → WeakPtr.Expired s.heap w = some true →
        ¬ op.retargetsWeak s k →
        s1.weak[k]? = some none ∨
          ∃ w1, s1.getWeak k = some w1 ∧
            (WeakPtr.Expired s1.heap w1 = some true ∨ s1.heap.blocks w1.block_ = none)) := by
  have hc : s.Counted (0 + ops.length) :=
    run_counted State.init_counted (by omega) hrun
  have hz := (step_counted hc (by omega) hstep).2
  have zero_of_expired : ∀ w0 : WeakPtr, WeakPtr.Expired s.heap w0 = some true →
      w0.block_ = 0 ∨ s1.heap.strongOf w0.block_ = 0 := by
    intro w0 hexp
    rcases (WeakPtr.Expired_eq_true_iff s.heap w0).mp hexp with hb0 | ⟨blk0, hblk0, hsc0⟩
    · exact Or.inl hb0
    · exact Or.inr (hz w0.block_ (by rw [hblk0]; rfl)
        (by rw [Heap.strongOf_of_block hblk0]; exact hsc0))
  constructor
  · intro hblk hsc
    have h0 := hz b (by rw [hblk]; rfl) (by rw [Heap.strongOf_of_block hblk]; exact hsc)
    cases hb1 : s1.heap.blocks b with
    | none => exact Or.inl rfl
    | some blk1 =>
      rw [Heap.strongOf_of_block hb1] at h0
      exact Or.inr ⟨blk1, rfl, h0⟩
  · intro hg hexp hnr
    by_cases ha : op.assignsWeak k
    · -- an assignment into slot `k`: its source is expired
      have hsrc : ∃ l, (step s (.weakAssign k l) = some s1 ∨
          step s (.weakMoveAssign k l) = some s1) ∧
          ∀ o, s.getWeak l = some o → WeakPtr.Expired s.heap o = some true := by
        cases op with
        | weakAssign k1 l =>
          have hk1 : k1 = k := ha
          subst hk1
          refine ⟨l, Or.inl hstep, fun o ho => ?_⟩
          by_contra hne
          exact hnr ⟨rfl, o, ho, hne⟩
        | weakMoveAssign k1 l =>
          have hk1 : k1 = k := ha
          subst hk1
          refine ⟨l, Or.inr hstep, fun o ho => ?_⟩
          by_contra hne
          exact hnr ⟨rfl, o, ho, hne⟩
        | _ => exact absurd ha (by simp [Op.assignsWeak])
      obtain ⟨l, hst, hall⟩ := hsrc
      obtain ⟨o, w1, ho, hw1, hblock, _⟩ := step_weakAssign_slot hst
      refine Or.inr ⟨w1, State.getWeak_of_getElem? hw1, WeakPtr.Expired_of_strongOf_zero ?_⟩
      rcases hblock with hb0 | hbo
      · exact Or.inl hb0
      · rw [hbo]
        exact zero_of_expired o (hall o ho)
    · rcases step_weak_slot hstep (State.getWeak_eq_some hg) ha with
        hnone | hsame | ⟨w1, hw1, hb1⟩
      · exact Or.inl hnone
      · exact Or.inr ⟨w, State.getWeak_of_getElem? hsame,
          WeakPtr.Expired_of_strongOf_zero (zero_of_expired w hexp)⟩
      · exact Or.inr ⟨w1, State.getWeak_of_getElem? hw1,
          WeakPtr.Expired_of_strongOf_zero (Or.inl hb1)⟩

/-- Instance of `expired_stays_expired`: after `sampleExpiredProgram` the block at 1 has
strong counter 0 and the `WeakPtr` in slot 0 is expired; `Lock()` on it leaves both
so. -/
theorem expired_stays_expired_witness :
    (sampleLockedState.heap.blocks 1 = none ∨
        ∃ blk1, sampleLockedState.heap.blocks 1 = some blk1 ∧ blk1.strong_counter_ = 0) ∧
    (sampleLockedState.weak[0]? = some none ∨
        ∃ w1, sampleLockedState.getWeak 0 = some w1 ∧
          (WeakPtr.Expired sampleLockedState.heap w1 = some true ∨
            sampleLockedState.heap.blocks w1.block_ = none)) :=
  ⟨(expired_stays_expired sampleExpiredProgram sampleExpiredState sampleLockedState
      (.weakLock 0) 1 ⟨.ControlBlockPointer, 100, 0, 1⟩ 0 ⟨1, 100⟩ rfl
      (by unfold SIZE_T_MOD; simp [sampleExpiredProgram]) rfl).1 rfl rfl,
    (expired_stays_expired sampleExpiredProgram sampleExpiredState sampleLockedState
      (.weakLock 0) 1 ⟨.ControlBlockPointer, 100, 0, 1⟩ 0 ⟨1, 100⟩ rfl
      (by unfold SIZE_T_MOD; simp [sampleExpiredProgram]) rfl).2 rfl (by decide)
      (by simp [Op.retargetsWeak])⟩


/-- C11 (the code at the failing input): the destination is the only handle of the
block at 1 and the source is the empty handle.  Move assignment leaves the destination
empty and the heap untouched: the block at 1 keeps strong counter 1, no
`DecStrongCounter` has run, nothing is destroyed or deleted.  Copy assignment from the
same empty source releases the block. -/
theorem SharedPtr.moveAssign_from_empty_skips_release :
    (SharedPtr.moveAssign sampleTwoHeap ⟨1, 100⟩ ⟨0, 0⟩).map
        (fun r => (r.1, r.2.1, r.2.2.blocks 1, r.2.2.destroyed, r.2.2.deleted)) =
      some (⟨0, 0⟩, ⟨0, 0⟩, some ⟨.ControlBlockPointer, 100, 1, 0⟩, [], []) ∧
    (SharedPtr.assign sampleTwoHeap ⟨1, 100⟩ ⟨0, 0⟩).map
        (fun r => (r.1, r.2.blocks 1, r.2.destroyed, r.2.deleted)) =
      some (⟨0, 0⟩, none, [100], [1]) := by
  constructor <;> decide

/-! ### Establishing ownership -/

theorem size_t_inc_zero : size_t_inc 0 = 1 :=
  size_t_inc_of_lt (by have := size_t_mod_pos; omega)

/-- What a defined outcome of `SharedPtr(T*)` consists of. -/
theorem SharedPtr.ofPtr_inv {h h1 : Heap} {b ptr : Nat} {esft : Bool} {p : SharedPtr}
    (hr : SharedPtr.ofPtr h b ptr esft = some (p, h1)) :
    p = ⟨b, ptr⟩ ∧
      h1.blocks b = some ⟨.ControlBlockPointer, ptr, 1, if esft then 1 else 0⟩ ∧
      (esft = true → h1.weak_this ptr = some ⟨b, ptr⟩) ∧
      (esft = false → h1.weak_this = h.weak_this) ∧
      (∀ b1, b1 ≠ b → h1.blocks b1 = h.blocks b1) ∧
      h1.destroyed = h.destroyed ∧ h1.deleted = h.deleted := by
  unfold SharedPtr.ofPtr at hr
  simp only [SharedPtr.Reset, ne_eq, not_true_eq_false, if_false] at hr
  unfold Heap.newBlock at hr
  by_cases hb : b = 0
  · simp [hb] at hr
  · cases hblk : h.blocks b with
    | some blk0 => simp [hb, hblk] at hr
    | none =>
      simp only [hb, hblk, if_false] at hr
      cases esft with
      | false =>
        simp only [Bool.false_eq_true, if_false, Option.some.injEq, Prod.mk.injEq] at hr
        obtain ⟨hp, hh⟩ := hr
        subst hp hh
        refine ⟨rfl, by simp, by simp, fun _ => rfl, fun b1 hb1 => ?_, rfl, rfl⟩
        exact Heap.setBlock_blocks_ne _ _ hb1
      | true =>
        simp only [if_true] at hr
        by_cases hptr : ptr = 0
        · simp [hptr] at hr
        · simp only [hptr, if_false, BaseBlock.IncWeakCounter, hb, Heap.setBlock,
            Function.update_same, Option.some.injEq, Prod.mk.injEq, size_t_inc_zero] at hr
          obtain ⟨hp, hh⟩ := hr
          subst hp hh
          refine ⟨rfl, by simp, by simp, by simp, fun b1 hb1 => ?_, rfl, rfl⟩
          simp [Function.update_noteq hb1]

/-- When `SharedPtr(T*)` has a defined outcome. -/
theorem SharedPtr.ofPtr_isSome {h : Heap} {b ptr : Nat} {esft : Bool} (hb : b ≠ 0)
    (hfree : h.blocks b = none) (hptr : esft = true → ptr ≠ 0) :
    ∃ r, SharedPtr.ofPtr h b ptr esft = some r := by
  unfold SharedPtr.ofPtr
  simp only [SharedPtr.Reset, ne_eq, not_true_eq_false, if_false]
  unfold Heap.newBlock
  simp only [hb, hfree, if_false]
  cases esft with
  | false => simp
  | true =>
    have hp := hptr rfl
    simp [hp, BaseBlock.IncWeakCounter, hb, Heap.setBlock]

/-- What a defined outcome of `MakeShared` consists of. -/
theorem MakeShared_inv {h h1 : Heap} {b buf : Nat} {esft : Bool} {p : SharedPtr}
    (hr : MakeShared h b buf esft = some (p, h1)) :
    p = ⟨b, buf⟩ ∧
      h1.blocks b = some ⟨.ControlBlockObject, buf, 1, if esft then 1 else 0⟩ ∧
      (esft = true → h1.weak_this buf = some ⟨b, buf⟩) ∧
      (esft = false → h1.weak_this = h.weak_this) ∧
      (∀ b1, b1 ≠ b → h1.blocks b1 = h.blocks b1) ∧
      h1.destroyed = h.destroyed ∧ h1.deleted = h.deleted := by
  unfold MakeShared at hr
  by_cases hbuf : buf = 0
  · simp [hbuf] at hr
  · simp only [hbuf, if_false] at hr
    unfold Heap.newBlock at hr
    by_cases hb : b = 0
    · simp [hb] at hr
    · cases hblk : h.blocks b with
      | some blk0 => simp [hb, hblk] at hr
      | none =>
        simp only [hb, hblk, if_false] at hr
        cases esft with
        | false =>
          simp only [Bool.false_eq_true, if_false, Option.some.injEq, Prod.mk.injEq] at hr
          obtain ⟨hp, hh⟩ := hr
          subst hp hh
          refine ⟨rfl, by simp, by simp, fun _ => rfl, fun b1 hb1 => ?_, rfl, rfl⟩
          exact Heap.setBlock_blocks_ne _ _ hb1
        | true =>
          simp only [if_true, BaseBlock.IncWeakCounter, hb, Heap.setBlock, if_false,
            Function.update_same, Option.some.injEq, Prod.mk.injEq, size_t_inc_zero] at hr
          obtain ⟨hp, hh⟩ := hr
          subst hp hh
          refine ⟨rfl, by simp, by simp, by simp, fun b1 hb1 => ?_, rfl, rfl⟩
          simp [Function.update_noteq hb1]

/-- When `MakeShared` has a defined outcome. -/
theorem MakeShared_isSome {h : Heap} {b buf : Nat} (esft : Bool) (hb : b ≠ 0)
    (hfree : h.blocks b = none) (hbuf : buf ≠ 0) :
    ∃ r, MakeShared h b buf esft = some r := by
  unfold MakeShared
  simp only [hbuf, if_false]
  unfold Heap.newBlock
  simp only [hb, hfree, if_false]
  cases esft with
  | false => simp
  | true => simp [BaseBlock.IncWeakCounter, hb, Heap.setBlock]

/-- C12: establishing ownership.  With `b` the non-null, unused address returned by the
allocator, `SharedPtr(T* ptr)` yields the handle `(b, ptr)` on a new pointer-owning
block and `MakeShared` the handle `(b, buf)` on a new embedded block whose value lives
at `buf`; each block has strong counter 1 and manages the observed address.  When the
type is self-observing the `weak_this` of the value is set to the same pair and the
weak counter is 1, otherwise the weak counter is 0 and no `weak_this` is written.
Other blocks and the logs are untouched. -/
theorem ownership_established (h : Heap) (b ptr buf : Nat) (esft : Bool) (hb : b ≠ 0)
    (hfree : h.blocks b = none) (hptr : esft = true → ptr ≠ 0) (hbuf : buf ≠ 0) :
    (∃ h1, SharedPtr.ofPtr h b ptr esft = some (⟨b, ptr⟩, h1) ∧
      h1.blocks b = some ⟨.ControlBlockPointer, ptr, 1, if esft then 1 else 0⟩ ∧
      (esft = true → h1.weak_this ptr = some ⟨b, ptr⟩) ∧
      (esft = false → h1.weak_this = h.weak_this) ∧
      (∀ b1, b1 ≠ b → h1.blocks b1 = h.blocks b1) ∧
      h1.destroyed = h.destroyed ∧ h1.deleted = h.deleted) ∧
    (∃ h1, MakeShared h b buf esft = some (⟨b, buf⟩, h1) ∧
      h1.blocks b = some ⟨.ControlBlockObject, buf, 1, if esft then 1 else 0⟩ ∧
      (esft = true → h1.weak_this buf = some ⟨b, buf⟩) ∧
      (esft = false → h1.weak_this = h.weak_this) ∧
      (∀ b1, b1 ≠ b → h1.blocks b1 = h.blocks b1) ∧
      h1.destroyed = h.destroyed ∧ h1.deleted = h.deleted) := by
  constructor
  · obtain ⟨⟨p, h1⟩, hr⟩ := @SharedPtr.ofPtr_isSome h b ptr esft hb hfree hptr
    have hinv := SharedPtr.ofPtr_inv hr
    obtain ⟨hp, rest⟩ := hinv
    subst hp
    exact ⟨h1, hr, rest⟩
  · obtain ⟨⟨p, h1⟩, hr⟩ := MakeShared_isSome esft hb hfree hbuf
    have hinv := MakeShared_inv hr
    obtain ⟨hp, rest⟩ := hinv
    subst hp
    exact ⟨h1, hr, rest⟩

/-- Instance of `ownership_established`: a self-observing value at 100 wrapped with a
block at 1, on the empty heap. -/
theorem ownership_established_witness :
    (∃ h1, SharedPtr.ofPtr Heap.empty 1 100 true = some (⟨1, 100⟩, h1) ∧
      h1.blocks 1 = some ⟨.ControlBlockPointer, 100, 1, if true = true then 1 else 0⟩ ∧
      (true = true → h1.weak_this 100 = some ⟨1, 100⟩) ∧
      (true = false → h1.weak_this = Heap.empty.weak_this) ∧
      (∀ b1, b1 ≠ 1 → h1.blocks b1 = Heap.empty.blocks b1) ∧
      h1.destroyed = Heap.empty.destroyed ∧ h1.deleted = Heap.empty.deleted) ∧
    (∃ h1, MakeShared Heap.empty 1 100 true = some (⟨1, 100⟩, h1) ∧
      h1.blocks 1 = some ⟨.ControlBlockObject, 100, 1, if true = true then 1 else 0⟩ ∧
      (true = true → h1.weak_this 100 = some ⟨1, 100⟩) ∧
      (true = false → h1.weak_this = Heap.empty.weak_this) ∧
      (∀ b1, b1 ≠ 1 → h1.blocks b1 = Heap.empty.blocks b1) ∧
      h1.destroyed = Heap.empty.destroyed ∧ h1.deleted = Heap.empty.deleted) :=
  ownership_established Heap.empty 1 100 100 true (by decide) rfl (fun _ => by decide)
    (by decide)


/-! ### Self-observation -/

/-- `SharedFromThis()` on a self-observing object whose `weak_this` is the empty
`WeakPtr` returns the empty handle (`Get()` null, `UseCount()` 0, no block) and leaves
the heap as it was; this is the case right after the construction of an object that is
not a copy. -/
theorem EnableSharedFromThis.SharedFromThis_unwrapped (h : Heap) (a : Nat) :
    (h.weak_this a = some WeakPtr.null →
      EnableSharedFromThis.SharedFromThis h a = some (SharedPtr.null, h) ∧
        SharedPtr.null.block_ = 0 ∧ SharedPtr.null.Get = 0 ∧
        SharedPtr.UseCount h SharedPtr.null = some 0) ∧
    EnableSharedFromThis.SharedFromThis (EnableSharedFromThis.ctor h a) a =
      some (SharedPtr.null, EnableSharedFromThis.ctor h a) := by
  have key : ∀ h0 : Heap, h0.weak_this a = some WeakPtr.null →
      EnableSharedFromThis.SharedFromThis h0 a = some (SharedPtr.null, h0) := by
    intro h0 hw
    unfold EnableSharedFromThis.SharedFromThis
    rw [hw]
    simp [WeakPtr.Lock, WeakPtr.Expired, WeakPtr.null, SharedPtr.null]
  refine ⟨fun hw => ⟨key h hw, rfl, rfl, rfl⟩, key _ ?_⟩
  simp [EnableSharedFromThis.ctor]

/-- Instance of `EnableSharedFromThis.SharedFromThis_unwrapped`: a self-observing object
at 100 on a heap without blocks. -/
theorem EnableSharedFromThis.SharedFromThis_unwrapped_witness :
    (EnableSharedFromThis.SharedFromThis sampleUnwrappedHeap 100 =
        some (SharedPtr.null, sampleUnwrappedHeap) ∧
      SharedPtr.null.block_ = 0 ∧ SharedPtr.null.Get = 0 ∧
      SharedPtr.UseCount sampleUnwrappedHeap SharedPtr.null = some 0) :=
  (EnableSharedFromThis.SharedFromThis_unwrapped sampleUnwrappedHeap 100).1 (by decide)

/-! ### `Reset(T*)` -/

/-- For a type that is not self-observing, `Reset(T* ptr)` is the release of the current
ownership followed by `SharedPtr(T* ptr)`. -/
theorem SharedPtr.ResetPtr_eq_release_then_ofPtr (h : Heap) (this : SharedPtr) (b ptr : Nat) :
    SharedPtr.ResetPtr h this b ptr =
      (SharedPtr.Reset h this).bind (fun r => SharedPtr.ofPtr r.2 b ptr false) := by
  unfold SharedPtr.ResetPtr SharedPtr.ofPtr
  cases hres : SharedPtr.Reset h this with
  | none => rfl
  | some r =>
    obtain ⟨t1, h1⟩ := r
    simp only [Option.bind, SharedPtr.Reset, ne_eq, not_true_eq_false, if_false,
      Bool.false_eq_true]

/-- C16 (the code at the failing input): a self-observing object at 100 not yet managed
and an empty handle.  `Reset(T*)` creates the block at 1 with strong counter 1 but
leaves the weak counter at 0 and the object's `weak_this` empty, so `SharedFromThis()`
returns the empty handle; releasing (nothing to release) and then constructing by
`SharedPtr(T*)` gives weak counter 1 and `weak_this` wired to the block. -/
theorem SharedPtr.ResetPtr_leaves_weak_this_unwired :
    (SharedPtr.ResetPtr sampleUnwrappedHeap ⟨0, 0⟩ 1 100).map
        (fun r => (r.1, r.2.blocks 1, r.2.weak_this 100,
          (EnableSharedFromThis.SharedFromThis r.2 100).map Prod.fst)) =
      some (⟨1, 100⟩, some ⟨.ControlBlockPointer, 100, 1, 0⟩, some ⟨0, 0⟩, some ⟨0, 0⟩) ∧
    ((SharedPtr.Reset sampleUnwrappedHeap ⟨0, 0⟩).bind
        (fun r => SharedPtr.ofPtr r.2 1 100 true)).map
        (fun r => (r.1, r.2.blocks 1, r.2.weak_this 100,
          (EnableSharedFromThis.SharedFromThis r.2 100).map Prod.fst)) =
      some (⟨1, 100⟩, some ⟨.ControlBlockPointer, 100, 1, 1⟩, some ⟨1, 100⟩,
        some ⟨1, 100⟩) := by
  constructor <;> decide

/-! ### Observers -/

/-- C19 (counterexample to the statement as written): the handle made by `SharedPtr(T*)`
from a null pointer has a block whose strong counter is 1, and its boolean conversion
is false. -/
theorem SharedPtr.toBool_false_on_live_block :
    (SharedPtr.ofPtr Heap.empty 1 0 false).map
        (fun r => (r.1, SharedPtr.UseCount r.2 r.1, r.1.toBool)) =
      some (⟨1, 0⟩, some 1, false) := by
  decide

/-- C19 (amended): `Get()` returns the observed address, or null when the block is
empty; `UseCount()` returns the strong counter of the block, or 0 when the block is
empty; the boolean conversion is true exactly when `Get()` is not null, that is when
the block is non-empty and the observed address is not null. -/
theorem SharedPtr.observers_spec (h : Heap) (p : SharedPtr) (blk : Block) :
    (p.block_ = 0 → p.Get = 0 ∧ SharedPtr.UseCount h p = some 0) ∧
    (p.block_ ≠ 0 → p.Get = p.observed_) ∧
    (p.block_ ≠ 0 → h.blocks p.block_ = some blk →
      SharedPtr.UseCount h p = some blk.strong_counter_) ∧
    (p.toBool = true ↔ p.Get ≠ 0) ∧
    (p.toBool = true ↔ p.block_ ≠ 0 ∧ p.observed_ ≠ 0) := by
  refine ⟨fun hb => ?_, fun hb => ?_, fun hb hblk => ?_, ?_, ?_⟩
  · simp [SharedPtr.Get, SharedPtr.UseCount, hb]
  · simp [SharedPtr.Get, hb]
  · simp [SharedPtr.UseCount, BaseBlock.GetStrongCounter, hb, hblk]
  · simp [SharedPtr.toBool]
  · by_cases hb : p.block_ = 0 <;> simp [SharedPtr.toBool, SharedPtr.Get, hb]

/-- Instance of `SharedPtr.observers_spec`: the empty handle, and the handle `(1, 100)`
on `sampleHeap`. -/
theorem SharedPtr.observers_spec_witness :
    ((⟨0, 0⟩ : SharedPtr).Get = 0 ∧ SharedPtr.UseCount sampleHeap ⟨0, 0⟩ = some 0) ∧
    (⟨1, 100⟩ : SharedPtr).Get = 100 ∧
    SharedPtr.UseCount sampleHeap ⟨1, 100⟩ = some 1 ∧
    ((⟨1, 100⟩ : SharedPtr).toBool = true ↔ (⟨1, 100⟩ : SharedPtr).Get ≠ 0) :=
  ⟨(SharedPtr.observers_spec sampleHeap ⟨0, 0⟩ ⟨.ControlBlockPointer, 100, 1, 2⟩).1 rfl,
    (SharedPtr.observers_spec sampleHeap ⟨1, 100⟩ ⟨.ControlBlockPointer, 100, 1, 2⟩).2.1
      (by decide),
    (SharedPtr.observers_spec sampleHeap ⟨1, 100⟩ ⟨.ControlBlockPointer, 100, 1, 2⟩).2.2.1
      (by decide) (by decide),
    (SharedPtr.observers_spec sampleHeap ⟨1, 100⟩ ⟨.ControlBlockPointer, 100, 1, 2⟩).2.2.2.1⟩

end SharedFromThis

namespace Unique

/-- C20: after `u.Reset(p)` the handle holds `p` and keeps its deleter; when the address
held before is not null the deleter has been invoked once more, on that address, while
`Get()` already returns `p`; when it is null no deleter has been invoked (so `Reset` on
an empty handle invokes nothing).  The destructor leaves the invocations that `Reset()`
with a null argument leaves. -/
theorem UniquePtr.Reset_spec {D : Type} (u : UniquePtr D) (calls : List (DeleterCall D))
    (p : Nat) :
    (u.Reset calls p).1.Get = p ∧
    (u.Reset calls p).1.GetDeleter = u.GetDeleter ∧
    (u.Get ≠ 0 → (u.Reset calls p).2 = calls ++ [⟨u.GetDeleter, u.Get, p⟩]) ∧
    (u.Get = 0 → (u.Reset calls p).2 = calls) ∧
    u.destructor calls = (u.Reset calls 0).2 ∧
    (u.Get ≠ 0 → u.destructor calls = calls ++ [⟨u.GetDeleter, u.Get, 0⟩]) ∧
    (u.Get = 0 → u.destructor calls = calls) := by
  have hget : u.Get = u.ptr_.first_ := rfl
  by_cases hg : u.ptr_.first_ = 0
  · refine ⟨?_, ?_, fun hne => ?_, fun _ => ?_, rfl, fun hne => ?_, fun _ => ?_⟩
    · simp [UniquePtr.Reset, UniquePtr.Get, CompressedPair.GetFirst, hg]
    · simp [UniquePtr.Reset, UniquePtr.Get, UniquePtr.GetDeleter, CompressedPair.GetFirst,
        CompressedPair.GetSecond, hg]
    · exact absurd (hget.trans hg) hne
    · simp [UniquePtr.Reset, UniquePtr.Get, CompressedPair.GetFirst, hg]
    · exact absurd (hget.trans hg) hne
    · simp [UniquePtr.destructor, UniquePtr.Reset, UniquePtr.Get, CompressedPair.GetFirst, hg]
  · refine ⟨?_, ?_, fun _ => ?_, fun he => ?_, rfl, fun _ => ?_, fun he => ?_⟩
    · simp [UniquePtr.Reset, UniquePtr.Get, CompressedPair.GetFirst, hg]
    · simp [UniquePtr.Reset, UniquePtr.Get, UniquePtr.GetDeleter, CompressedPair.GetFirst,
        CompressedPair.GetSecond, hg]
    · simp [UniquePtr.Reset, UniquePtr.Get, UniquePtr.GetDeleter, CompressedPair.GetFirst,
        CompressedPair.GetSecond, hg]
    · exact absurd (hget.symm.trans he) hg
    · simp [UniquePtr.destructor, UniquePtr.Reset, UniquePtr.Get, UniquePtr.GetDeleter,
        CompressedPair.GetFirst, CompressedPair.GetSecond, hg]
    · exact absurd (hget.symm.trans he) hg

/-- Instance of `UniquePtr.Reset_spec`: a handle owning 100 is reset to 200 and an empty
handle is reset to 200, both with the deleter named 7. -/
theorem UniquePtr.Reset_spec_witness :
    ((sampleUnique.Reset [] 200).2 = [] ++ [⟨7, 100, 200⟩] ∧
      sampleUnique.destructor [] = [] ++ [⟨7, 100, 0⟩]) ∧
    ((sampleEmptyUnique.Reset [] 200).2 = [] ∧ sampleEmptyUnique.destructor [] = []) :=
  ⟨⟨(UniquePtr.Reset_spec sampleUnique [] 200).2.2.1 (by decide),
      (UniquePtr.Reset_spec sampleUnique [] 200).2.2.2.2.2.1 (by decide)⟩,
    ⟨(UniquePtr.Reset_spec sampleEmptyUnique [] 200).2.2.2.1 rfl,
      (UniquePtr.Reset_spec sampleEmptyUnique [] 200).2.2.2.2.2.2 rfl⟩⟩

end Unique

namespace SharedFromThis

theorem size_t_dec_one : size_t_dec 1 = 0 := by
  rw [size_t_dec_of_pos (le_refl 1) (by have := size_t_mod_pos; omega)]

/-- C14: a self-observing value managed by one `SharedPtr` and observed only by its own
`weak_this` (strong counter 1, weak counter 1, `weak_this` wired to the block), in a
block of either shape.  Releasing the `SharedPtr`, by `Reset()` or by its destructor,
runs the value's destructor once; that destructor brings the weak counter to 0 and
removes `weak_this` (heap `h2`); the block is then deleted in the same release. -/
theorem SharedPtr.release_last_self_only (h : Heap) (p : SharedPtr) (blk : Block) (o : Nat)
    (hb : p.block_ ≠ 0) (hblk : h.blocks p.block_ = some blk) (hobj : blk.object_ ≠ 0)
    (hsc : blk.strong_counter_ = 1) (hwc : blk.weak_counter_ = 1)
    (hself : h.weak_this blk.object_ = some ⟨p.block_, o⟩) :
    ∃ h1 h2, SharedPtr.Reset h p = some (⟨0, 0⟩, h1) ∧
      SharedPtr.destructor h p = some h1 ∧
      destroyValue (h.setBlock p.block_ { blk with strong_counter_ := 0 }) blk.object_ =
        some h2 ∧
      h2.blocks p.block_ = some { blk with strong_counter_ := 0, weak_counter_ := 0 } ∧
      h2.weak_this blk.object_ = none ∧
      h1 = h2.deleteBlock p.block_ ∧
      h1.blocks p.block_ = none ∧
      h1.destroyed = h.destroyed ++ [blk.object_] ∧
      h1.deleted = h.deleted ++ [p.block_] := by
  obtain ⟨shape, obj, sc, wc⟩ := blk
  simp only at hobj hsc hwc hself
  subst hsc hwc
  have hdv : destroyValue (h.setBlock p.block_ ⟨shape, obj, 0, 1⟩) obj =
      some { blocks := Function.update (Function.update h.blocks p.block_
                (some ⟨shape, obj, 0, 1⟩)) p.block_ (some ⟨shape, obj, 0, 0⟩),
             weak_this := Function.update h.weak_this obj none,
             destroyed := h.destroyed ++ [obj], deleted := h.deleted } := by
    simp [destroyValue, Heap.setBlock, hself, EnableSharedFromThis.destructor, hb,
      size_t_dec_one]
  have hdec : BaseBlock.DecStrongCounter h p.block_ =
      some (Heap.deleteBlock
        { blocks := Function.update (Function.update h.blocks p.block_
              (some ⟨shape, obj, 0, 1⟩)) p.block_ (some ⟨shape, obj, 0, 0⟩),
          weak_this := Function.update h.weak_this obj none,
          destroyed := h.destroyed ++ [obj], deleted := h.deleted } p.block_) := by
    cases shape <;>
    · simp only [BaseBlock.DecStrongCounter, hb, hblk, if_false,
        ControlBlockPointer.DecStrongCounter, ControlBlockObject.DecStrongCounter,
        size_t_dec_one, deleteObject, hobj, hdv]
      simp
  refine ⟨_, _, ?_, ?_, hdv, ?_, ?_, rfl, ?_, ?_, ?_⟩
  · simp [SharedPtr.Reset, hb, hdec]
  · simp [SharedPtr.destructor, SharedPtr.Reset, hb, hdec]
  · simp
  · simp
  · simp [Heap.deleteBlock]
  · simp [Heap.deleteBlock]
  · simp [Heap.deleteBlock]

/-- Instance of `SharedPtr.release_last_self_only`: the embedded block of
`sampleSelfOnlyHeap`. -/
theorem SharedPtr.release_last_self_only_witness :
    ∃ h1 h2, SharedPtr.Reset sampleSelfOnlyHeap ⟨1, 100⟩ = some (⟨0, 0⟩, h1) ∧
      SharedPtr.destructor sampleSelfOnlyHeap ⟨1, 100⟩ = some h1 ∧
      destroyValue (sampleSelfOnlyHeap.setBlock 1 ⟨.ControlBlockObject, 100, 0, 1⟩) 100 =
        some h2 ∧
      h2.blocks 1 = some ⟨.ControlBlockObject, 100, 0, 0⟩ ∧
      h2.weak_this 100 = none ∧
      h1 = h2.deleteBlock 1 ∧
      h1.blocks 1 = none ∧
      h1.destroyed = sampleSelfOnlyHeap.destroyed ++ [100] ∧
      h1.deleted = sampleSelfOnlyHeap.deleted ++ [1] :=
  SharedPtr.release_last_self_only sampleSelfOnlyHeap ⟨1, 100⟩ ⟨.ControlBlockObject, 100, 1, 1⟩
    100 (by decide) (by decide) (by decide) rfl rfl (by decide)

/-- Releasing the only `SharedPtr` of `sampleSelfOnlyHeap` and of the pointer-owning
block made by `SharedPtr(T*)` for a self-observing value, evaluated: the value at 100
is destroyed once and the block at 1 is deleted. -/
theorem SharedPtr.release_last_self_only_eval :
    (SharedPtr.Reset sampleSelfOnlyHeap ⟨1, 100⟩).map
        (fun r => (r.1, r.2.blocks 1, r.2.destroyed, r.2.deleted)) =
      some (⟨0, 0⟩, none, [100], [1]) ∧
    (SharedPtr.Reset sampleWrappedHeap ⟨1, 100⟩).map
        (fun r => (r.1, r.2.blocks 1, r.2.destroyed, r.2.deleted)) =
      some (⟨0, 0⟩, none, [100], [1]) := by
  constructor <;> decide


/-! ### Aliasing -/

/-- The destructor of a value extends the log of destroyed values by its address and
deletes no block. -/
theorem destroyValue_logs {h h1 : Heap} {a : Nat} (hd : destroyValue h a = some h1) :
    h1.destroyed = h.destroyed ++ [a] ∧ h1.deleted = h.deleted := by
  unfold destroyValue at hd
  cases hw : h.weak_this a with
  | none =>
    simp only [hw, Option.some.injEq] at hd
    subst hd
    exact ⟨rfl, rfl⟩
  | some w =>
    simp only [hw] at hd
    cases he : EnableSharedFromThis.destructor h w with
    | none => simp [he] at hd
    | some h2 =>
      simp only [he, Option.some.injEq] at hd
      subst hd
      unfold EnableSharedFromThis.destructor at he
      by_cases hb : w.block_ = 0
      · simp only [hb, ne_eq, not_true_eq_false, if_false, Option.some.injEq] at he
        subst he
        exact ⟨rfl, rfl⟩
      · cases hblk : h.blocks w.block_ with
        | none => simp [hb, hblk] at he
        | some blk =>
          simp only [hb, hblk, ne_eq, not_false_eq_true, if_true, Option.some.injEq] at he
          subst he
          exact ⟨rfl, rfl⟩

/-- The destructor of a value has a defined outcome when its `weak_this` is absent,
empty, or on an allocated block. -/
theorem destroyValue_isSome {h : Heap} {a : Nat}
    (hw : ∀ w, h.weak_this a = some w → w.block_ = 0 ∨ (h.blocks w.block_).isSome = true) :
    ∃ h1, destroyValue h a = some h1 := by
  unfold destroyValue
  cases hwt : h.weak_this a with
  | none => exact ⟨_, rfl⟩
  | some w =>
    simp only
    unfold EnableSharedFromThis.destructor
    rcases hw w hwt with h0 | h0
    · simp [h0]
    · by_cases hb : w.block_ = 0
      · simp [hb]
      · cases hblk : h.blocks w.block_ with
        | none => rw [hblk] at h0; simp at h0
        | some blk => simp [hb]

/-- Releasing the last `SharedPtr` of a block that manages a value runs the destructor
of the value once. -/
theorem SharedPtr.Reset_last_destroys {h : Heap} {p : SharedPtr} {blk : Block}
    (hb : p.block_ ≠ 0) (hblk : h.blocks p.block_ = some blk) (hobj : blk.object_ ≠ 0)
    (hsc : blk.strong_counter_ = 1) (hself : h.selfWiredTo p.block_ blk) :
    ∃ h1, SharedPtr.Reset h p = some (⟨0, 0⟩, h1) ∧
      h1.destroyed = h.destroyed ++ [blk.object_] := by
  obtain ⟨shape, obj, sc, wc⟩ := blk
  simp only at hobj hsc
  subst hsc
  unfold Heap.selfWiredTo at hself
  simp only at hself
  have hsome : (h.blocks p.block_).isSome = true := by rw [hblk]; rfl
  have hw1 : ∀ w, h.weak_this obj = some w →
      w.block_ = 0 ∨ (h.blocks w.block_).isSome = true := by
    intro w hw
    rw [hw] at hself
    rcases hself with h0 | h0
    · exact Or.inl h0
    · exact Or.inr (by rw [h0]; exact hsome)
  have hw2 : ∀ w, (h.setBlock p.block_ ⟨shape, obj, 0, wc⟩).weak_this obj = some w →
      w.block_ = 0 ∨
        ((h.setBlock p.block_ ⟨shape, obj, 0, wc⟩).blocks w.block_).isSome = true := by
    intro w hw
    have hw0 : h.weak_this obj = some w := hw
    rw [hw0] at hself
    rcases hself with h0 | h0
    · exact Or.inl h0
    · exact Or.inr (by rw [h0]; simp)
  have key : ∃ h1, BaseBlock.DecStrongCounter h p.block_ = some h1 ∧
      h1.destroyed = h.destroyed ++ [obj] := by
    have hcommon : ∀ f : Heap → Nat → Block → Option Heap,
        (f h p.block_ ⟨shape, obj, 1, wc⟩ =
          if (1 : Nat) > 1 then
            some (h.setBlock p.block_ ⟨shape, obj, 1 - 1, wc⟩)
          else if ((1 : Nat) = 1 ∧ wc = 0) ∨ ((1 : Nat) = 0 ∧ wc = 0) then
            match destroyValue h obj with
            | none => none
            | some h1 => some (h1.deleteBlock p.block_)
          else if ((1 : Nat) = 0 ∧ wc ≠ 0) ∨ (wc ≠ 0 ∧ (1 : Nat) = 1) then
            match destroyValue (h.setBlock p.block_ ⟨shape, obj, size_t_dec 1, wc⟩) obj with
            | none => none
            | some h1 =>
              match h1.blocks p.block_ with
              | none => none
              | some blk1 =>
                if blk1.weak_counter_ = 0 then some (h1.deleteBlock p.block_) else some h1
          else some h) →
        ∃ h1, f h p.block_ ⟨shape, obj, 1, wc⟩ = some h1 ∧
          h1.destroyed = h.destroyed ++ [obj] := by
      intro f hf
      rw [hf]
      by_cases hwc : wc = 0
      · obtain ⟨h2, hdv⟩ := destroyValue_isSome hw1
        simp only [gt_iff_lt, lt_self_iff_false, if_false, hwc, and_self, true_or, if_true, hdv]
        exact ⟨_, rfl, (destroyValue_logs hdv).1⟩
      · obtain ⟨h2, hdv⟩ := destroyValue_isSome hw2
        have hlog := (destroyValue_logs hdv).1
        have hal := (destroyValue_blocks hdv).2 p.block_
        simp only [Heap.setBlock_blocks_same, Option.isSome_some] at hal
        rw [size_t_dec_one]
        simp only [gt_iff_lt, lt_self_iff_false, if_false, hwc, and_false, and_self,
          one_ne_zero, false_and, or_self, ne_eq, not_false_eq_true, true_and, or_true,
          if_true, hdv]
        cases hb2 : h2.blocks p.block_ with
        | none => rw [hb2] at hal; simp at hal
        | some blk2 =>
          simp only
          split
          · exact ⟨_, rfl, hlog⟩
          · exact ⟨_, rfl, hlog⟩
    cases shape with
    | ControlBlockPointer =>
      have e : BaseBlock.DecStrongCounter h p.block_ =
          ControlBlockPointer.DecStrongCounter h p.block_ ⟨.ControlBlockPointer, obj, 1, wc⟩ := by
        simp [BaseBlock.DecStrongCounter, hb, hblk]
      rw [e]
      exact hcommon ControlBlockPointer.DecStrongCounter
        (by simp only [ControlBlockPointer.DecStrongCounter, deleteObject, hobj, if_false])
    | ControlBlockObject =>
      have e : BaseBlock.DecStrongCounter h p.block_ =
          ControlBlockObject.DecStrongCounter h p.block_ ⟨.ControlBlockObject, obj, 1, wc⟩ := by
        simp [BaseBlock.DecStrongCounter, hb, hblk]
      rw [e]
      exact hcommon ControlBlockObject.DecStrongCounter
        (by simp only [ControlBlockObject.DecStrongCounter])
  obtain ⟨h1, hdec, hd⟩ := key
  exact ⟨h1, by simp [SharedPtr.Reset, hb, hdec], hd⟩


/-- C17: aliasing.  For a non-empty handle `A` on a block whose value is alive (strong
counter at least 1 and below the largest `size_t`) and any address `q`, the aliasing
constructor gives `B = (A`'s block`, q)` with `B.Get() == q` and the strong counter one
higher.  Resetting `A` afterwards gives back the heap from before `B` was made: the
block is allocated with its strong counter at least 1 and nothing has been destroyed or
deleted.  When `B` is then the last handle (strong counter 1), releasing `B` destroys
the managed value once. -/
theorem SharedPtr.alias_spec (h : Heap) (A : SharedPtr) (q : Nat) (blk : Block)
    (hb : A.block_ ≠ 0) (hblk : h.blocks A.block_ = some blk)
    (hsc : 1 ≤ blk.strong_counter_) (hov : blk.strong_counter_ + 1 < SIZE_T_MOD) :
    ∃ h1, SharedPtr.alias h A q = some (⟨A.block_, q⟩, h1) ∧
      (⟨A.block_, q⟩ : SharedPtr).Get = q ∧
      SharedPtr.UseCount h A = some blk.strong_counter_ ∧
      SharedPtr.UseCount h1 ⟨A.block_, q⟩ = some (blk.strong_counter_ + 1) ∧
      h1.destroyed = h.destroyed ∧ h1.deleted = h.deleted ∧
      SharedPtr.Reset h1 A = some (⟨0, 0⟩, h) ∧
      SharedPtr.UseCount h ⟨A.block_, q⟩ = some blk.strong_counter_ ∧
      (blk.strong_counter_ = 1 → blk.object_ ≠ 0 → h.selfWiredTo A.block_ blk →
        ∃ h3, SharedPtr.Reset h ⟨A.block_, q⟩ = some (⟨0, 0⟩, h3) ∧
          SharedPtr.destructor h ⟨A.block_, q⟩ = some h3 ∧
          h3.destroyed = h.destroyed ++ [blk.object_]) := by
  have hgt : size_t_inc blk.strong_counter_ > 1 := by
    rw [size_t_inc_of_lt hov]; omega
  have hback : size_t_inc blk.strong_counter_ - 1 = blk.strong_counter_ := by
    rw [size_t_inc_of_lt hov]; omega
  refine ⟨h.setBlock A.block_ { blk with strong_counter_ := size_t_inc blk.strong_counter_ },
    ?_, ?_, ?_, ?_, rfl, rfl, ?_, ?_, ?_⟩
  · simp [SharedPtr.alias, BaseBlock.IncStrongCounter, hb, hblk]
  · simp [SharedPtr.Get, hb]
  · simp [SharedPtr.UseCount, BaseBlock.GetStrongCounter, hb, hblk]
  · simp [SharedPtr.UseCount, BaseBlock.GetStrongCounter, hb, size_t_inc_of_lt hov]
  · cases hshape : blk.shape <;>
    · simp [SharedPtr.Reset, hb, BaseBlock.DecStrongCounter, hshape,
        ControlBlockPointer.DecStrongCounter, ControlBlockObject.DecStrongCounter, hgt,
        hback, Heap.setBlock_setBlock]
      rw [← hshape]
      exact Heap.setBlock_self h hblk
  · simp [SharedPtr.UseCount, BaseBlock.GetStrongCounter, hb, hblk]
  · intro hsc1 hobj hself
    obtain ⟨h3, hres, hd⟩ :=
      SharedPtr.Reset_last_destroys (p := ⟨A.block_, q⟩) hb hblk hobj hsc1 hself
    exact ⟨h3, hres, by simp [SharedPtr.destructor, hres], hd⟩

/-- Instance of `SharedPtr.alias_spec`: the handle `(1, 100)` on `sampleHeap` (strong
counter 1) aliased to the address 104. -/
theorem SharedPtr.alias_spec_witness :
    ∃ h1, SharedPtr.alias sampleHeap ⟨1, 100⟩ 104 = some (⟨1, 104⟩, h1) ∧
      (⟨1, 104⟩ : SharedPtr).Get = 104 ∧
      SharedPtr.UseCount sampleHeap ⟨1, 100⟩ = some 1 ∧
      SharedPtr.UseCount h1 ⟨1, 104⟩ = some (1 + 1) ∧
      h1.destroyed = sampleHeap.destroyed ∧ h1.deleted = sampleHeap.deleted ∧
      SharedPtr.Reset h1 ⟨1, 100⟩ = some (⟨0, 0⟩, sampleHeap) ∧
      SharedPtr.UseCount sampleHeap ⟨1, 104⟩ = some 1 ∧
      ((1 : Nat) = 1 → (100 : Nat) ≠ 0 →
        sampleHeap.selfWiredTo 1 ⟨.ControlBlockPointer, 100, 1, 2⟩ →
        ∃ h3, SharedPtr.Reset sampleHeap ⟨1, 104⟩ = some (⟨0, 0⟩, h3) ∧
          SharedPtr.destructor sampleHeap ⟨1, 104⟩ = some h3 ∧
          h3.destroyed = sampleHeap.destroyed ++ [100]) :=
  SharedPtr.alias_spec sampleHeap ⟨1, 100⟩ 104 ⟨.ControlBlockPointer, 100, 1, 2⟩
    (by decide) (by decide) (by decide) (by unfold SIZE_T_MOD; norm_num)

/-- Aliasing on `sampleHeap`, the reset of the original handle and the release of the
alias, evaluated: the value at 100 is untouched until the alias is released. -/
theorem SharedPtr.alias_sample_eval :
    ((SharedPtr.alias sampleHeap ⟨1, 100⟩ 104).bind (fun r =>
        (SharedPtr.Reset r.2 ⟨1, 100⟩).bind (fun r1 =>
          (SharedPtr.Reset r1.2 r.1).map (fun r2 =>
            (r.1, r.2.blocks 1, r1.2.blocks 1, r1.2.destroyed, r2.2.destroyed))))) =
      some (⟨1, 104⟩, some ⟨.ControlBlockPointer, 100, 2, 2⟩,
        some ⟨.ControlBlockPointer, 100, 1, 2⟩, [], [100]) := by
  decide

/-! ### `WeakPtr` construction and assignment -/

/-- What `IncWeakCounter` does to an allocated block. -/
theorem BaseBlock.IncWeakCounter_of_block {h : Heap} {b : Nat} {blk : Block} (hb : b ≠ 0)
    (hblk : h.blocks b = some blk) (hov : blk.weak_counter_ + 1 < SIZE_T_MOD) :
    BaseBlock.IncWeakCounter h b =
      some (h.setBlock b { blk with weak_counter_ := blk.weak_counter_ + 1 }) := by
  simp [BaseBlock.IncWeakCounter, hb, hblk, size_t_inc_of_lt hov]

/-- C18: a `WeakPtr` made from a `SharedPtr` or copied from a `WeakPtr` holds the
source's block and observed address; when the block is non-empty its weak counter is
one more than before (below the largest `size_t`) and nothing else in the heap changes,
in particular not the strong counter; when it is empty the heap is untouched.  Move
construction transfers the pair, empties the source and does not touch the heap.  Move
assignment from a different handle is `Reset()` of the destination followed by the
transfer, with no `IncWeakCounter`; copy assignment from a different handle is
`Reset()` of the destination followed by the copy; `Reset()` of a non-empty destination
is one `DecWeakCounter` on its block. -/
theorem WeakPtr.construct_assign_spec (h : Heap) (s : SharedPtr) (w this : WeakPtr)
    (blk : Block) :
    (s.block_ = 0 → WeakPtr.ofShared h s = some (⟨s.block_, s.observed_⟩, h)) ∧
    (s.block_ ≠ 0 → h.blocks s.block_ = some blk → blk.weak_counter_ + 1 < SIZE_T_MOD →
      WeakPtr.ofShared h s = some (⟨s.block_, s.observed_⟩,
        h.setBlock s.block_ { blk with weak_counter_ := blk.weak_counter_ + 1 })) ∧
    (w.block_ = 0 → WeakPtr.copy h w = some (⟨w.block_, w.observed_⟩, h)) ∧
    (w.block_ ≠ 0 → h.blocks w.block_ = some blk → blk.weak_counter_ + 1 < SIZE_T_MOD →
      WeakPtr.copy h w = some (⟨w.block_, w.observed_⟩,
        h.setBlock w.block_ { blk with weak_counter_ := blk.weak_counter_ + 1 })) ∧
    WeakPtr.move w = (⟨w.block_, w.observed_⟩, ⟨0, 0⟩) ∧
    WeakPtr.moveAssign h this w =
      (WeakPtr.Reset h this).map (fun r => (⟨w.block_, w.observed_⟩, ⟨0, 0⟩, r.2)) ∧
    WeakPtr.assign h this w = (WeakPtr.Reset h this).bind (fun r => WeakPtr.copy r.2 w) ∧
    (this.block_ ≠ 0 → WeakPtr.Reset h this =
      (BaseBlock.DecWeakCounter h this.block_).map (fun h1 => (⟨0, 0⟩, h1))) ∧
    (this.block_ = 0 → WeakPtr.Reset h this = some (this, h)) := by
  refine ⟨fun hb => ?_, fun hb hblk hov => ?_, fun hb => ?_, fun hb hblk hov => ?_, rfl,
    ?_, ?_, fun hb => ?_, fun hb => ?_⟩
  · simp [WeakPtr.ofShared, hb]
  · simp [WeakPtr.ofShared, hb, BaseBlock.IncWeakCounter_of_block hb hblk hov]
  · simp [WeakPtr.copy, hb]
  · simp [WeakPtr.copy, hb, BaseBlock.IncWeakCounter_of_block hb hblk hov]
  · unfold WeakPtr.moveAssign
    cases hres : WeakPtr.Reset h this with
    | none => rfl
    | some r => rfl
  · unfold WeakPtr.assign WeakPtr.copy
    cases hres : WeakPtr.Reset h this with
    | none => rfl
    | some r => rfl
  · unfold WeakPtr.Reset
    cases hdec : BaseBlock.DecWeakCounter h this.block_ <;> simp [hb, hdec]
  · simp [WeakPtr.Reset, hb]

/-- Instance of `WeakPtr.construct_assign_spec`: on `sampleHeap` (block at 1 with weak
counter 2), from the handle `(1, 100)` and from the empty handles. -/
theorem WeakPtr.construct_assign_spec_witness :
    WeakPtr.ofShared sampleHeap ⟨0, 0⟩ = some (⟨0, 0⟩, sampleHeap) ∧
    WeakPtr.ofShared sampleHeap ⟨1, 100⟩ = some (⟨1, 100⟩,
      sampleHeap.setBlock 1 ⟨.ControlBlockPointer, 100, 1, 2 + 1⟩) ∧
    WeakPtr.copy sampleHeap ⟨0, 0⟩ = some (⟨0, 0⟩, sampleHeap) ∧
    WeakPtr.copy sampleHeap ⟨1, 100⟩ = some (⟨1, 100⟩,
      sampleHeap.setBlock 1 ⟨.ControlBlockPointer, 100, 1, 2 + 1⟩) ∧
    WeakPtr.Reset sampleHeap ⟨1, 100⟩ =
      (BaseBlock.DecWeakCounter sampleHeap 1).map (fun h1 => (⟨0, 0⟩, h1)) ∧
    WeakPtr.Reset sampleHeap ⟨0, 0⟩ = some (⟨0, 0⟩, sampleHeap) :=
  ⟨(WeakPtr.construct_assign_spec sampleHeap ⟨0, 0⟩ ⟨0, 0⟩ ⟨0, 0⟩
      ⟨.ControlBlockPointer, 100, 1, 2⟩).1 rfl,
    (WeakPtr.construct_assign_spec sampleHeap ⟨1, 100⟩ ⟨1, 100⟩ ⟨1, 100⟩
      ⟨.ControlBlockPointer, 100, 1, 2⟩).2.1 (by decide) (by decide)
      (by unfold SIZE_T_MOD; norm_num),
    (WeakPtr.construct_assign_spec sampleHeap ⟨0, 0⟩ ⟨0, 0⟩ ⟨0, 0⟩
      ⟨.ControlBlockPointer, 100, 1, 2⟩).2.2.1 rfl,
    (WeakPtr.construct_assign_spec sampleHeap ⟨1, 100⟩ ⟨1, 100⟩ ⟨1, 100⟩
      ⟨.ControlBlockPointer, 100, 1, 2⟩).2.2.2.1 (by decide) (by decide)
      (by unfold SIZE_T_MOD; norm_num),
    (WeakPtr.construct_assign_spec sampleHeap ⟨1, 100⟩ ⟨1, 100⟩ ⟨1, 100⟩
      ⟨.ControlBlockPointer, 100, 1, 2⟩).2.2.2.2.2.2.2.1 (by decide),
    (WeakPtr.construct_assign_spec sampleHeap ⟨0, 0⟩ ⟨0, 0⟩ ⟨0, 0⟩
      ⟨.ControlBlockPointer, 100, 1, 2⟩).2.2.2.2.2.2.2.2 rfl⟩

/-- Move assignment and copy assignment of `WeakPtr` on `sampleHeap`, destination and
source both on the block at 1 (weak counter 2), evaluated: move assignment leaves weak
counter 1 and empties the source, copy assignment leaves weak counter 2. -/
theorem WeakPtr.weak_assign_sample_eval :
    (WeakPtr.moveAssign sampleHeap ⟨1, 100⟩ ⟨1, 100⟩).map
        (fun r => (r.1, r.2.1, r.2.2.blocks 1)) =
      some (⟨1, 100⟩, ⟨0, 0⟩, some ⟨.ControlBlockPointer, 100, 1, 1⟩) ∧
    (WeakPtr.assign sampleHeap ⟨1, 100⟩ ⟨1, 100⟩).map (fun r => (r.1, r.2.blocks 1)) =
      some (⟨1, 100⟩, some ⟨.ControlBlockPointer, 100, 1, 2⟩) := by
  constructor <;> decide


/-- `DecWeakCounter` on the block at `b` leaves every other block as it was. -/
theorem BaseBlock.DecWeakCounter_blocks_ne {h h1 : Heap} {b b1 : Nat}
    (hdec : BaseBlock.DecWeakCounter h b = some h1) (hne : b1 ≠ b) :
    h1.blocks b1 = h.blocks b1 := by
  unfold BaseBlock.DecWeakCounter at hdec
  by_cases hb : b = 0
  · simp [hb] at hdec
  · simp only [hb, if_false] at hdec
    cases hblk : h.blocks b with
    | none => simp [hblk] at hdec
    | some blk =>
      simp only [hblk] at hdec
      cases hshape : blk.shape <;>
      · simp only [hshape, ControlBlockPointer.DecWeakCounter,
          ControlBlockObject.DecWeakCounter] at hdec
        split_ifs at hdec <;>
        · simp only [Option.some.injEq] at hdec
          subst hdec
          first
            | rfl
            | exact Heap.deleteBlock_blocks_ne h hne
            | exact Heap.setBlock_blocks_ne h _ hne

/-- Move assignment of a `WeakPtr` from a handle on another block leaves the source's
block, and so its weak counter, as it was: the only counter operation is the
`DecWeakCounter` on the destination's prior block. -/
theorem WeakPtr.moveAssign_keeps_source_block {h h1 : Heap} {this w d s : WeakPtr}
    (hm : WeakPtr.moveAssign h this w = some (d, s, h1)) (hne : w.block_ ≠ this.block_) :
    d = ⟨w.block_, w.observed_⟩ ∧ s = ⟨0, 0⟩ ∧ h1.blocks w.block_ = h.blocks w.block_ := by
  unfold WeakPtr.moveAssign WeakPtr.Reset at hm
  by_cases hb : this.block_ = 0
  · simp only [hb, ne_eq, not_true_eq_false, if_false, Option.some.injEq,
      Prod.mk.injEq] at hm
    exact ⟨hm.1.symm, hm.2.1.symm, by rw [← hm.2.2]⟩
  · simp only [hb, ne_eq, not_false_eq_true, if_true] at hm
    cases hdec : BaseBlock.DecWeakCounter h this.block_ with
    | none => simp [hdec] at hm
    | some h2 =>
      simp only [hdec, Option.some.injEq, Prod.mk.injEq] at hm
      refine ⟨hm.1.symm, hm.2.1.symm, ?_⟩
      rw [← hm.2.2]
      exact BaseBlock.DecWeakCounter_blocks_ne hdec hne


end SharedFromThis

namespace Unique

/-! ### `Release`, move and `Swap` -/

/-- C21: `u.Release()` returns the address `u` held, leaves `u` empty (`Get()` null,
boolean conversion false) with its deleter unchanged, and invokes no deleter: as an
operation of a program it leaves the invocations of deleters as they were. -/
theorem UniquePtr.Release_spec {D : Type} (u : UniquePtr D) (calls : List (DeleterCall D)) :
    u.Release.1 = u.Get ∧ u.Release.2.Get = 0 ∧ u.Release.2.toBool = false ∧
    u.Release.2.GetDeleter = u.GetDeleter ∧
    step { handles := [some u], calls := calls } (.release 0) =
      some { handles := [some u.Release.2], calls := calls } := by
  refine ⟨rfl, rfl, ?_, rfl, rfl⟩
  simp [UniquePtr.toBool, UniquePtr.Release, UniquePtr.Get, CompressedPair.GetFirst]

/-- The invocations of deleters after `Reset(ptr)`. -/
theorem UniquePtr.Reset_calls {D : Type} (u : UniquePtr D) (calls : List (DeleterCall D))
    (p : Nat) :
    (u.Reset calls p).2 =
      calls ++ (if u.Get ≠ 0 then [⟨u.GetDeleter, u.Get, p⟩] else []) := by
  by_cases hg : u.ptr_.first_ = 0
  · simp [UniquePtr.Reset, UniquePtr.Get, CompressedPair.GetFirst, hg]
  · simp [UniquePtr.Reset, UniquePtr.Get, UniquePtr.GetDeleter, CompressedPair.GetFirst,
      CompressedPair.GetSecond, hg]

/-- The handle after `Reset(ptr)`. -/
theorem UniquePtr.Reset_handle {D : Type} (u : UniquePtr D) (calls : List (DeleterCall D))
    (p : Nat) :
    (u.Reset calls p).1 = { ptr_ := ⟨p, u.GetDeleter⟩ } := by
  by_cases hg : u.ptr_.first_ = 0
  · simp [UniquePtr.Reset, UniquePtr.Get, UniquePtr.GetDeleter, CompressedPair.GetFirst,
      CompressedPair.GetSecond, hg]
  · simp [UniquePtr.Reset, UniquePtr.Get, UniquePtr.GetDeleter, CompressedPair.GetFirst,
      CompressedPair.GetSecond, hg]

/-- The destination, the source and the invocations after a move assignment from a
different handle. -/
theorem UniquePtr.moveAssign_fields {D : Type} (this other : UniquePtr D)
    (calls : List (DeleterCall D)) :
    (this.moveAssign other calls).1 = { ptr_ := ⟨other.Get, other.GetDeleter⟩ } ∧
    (this.moveAssign other calls).2.1.Get = 0 ∧
    (this.moveAssign other calls).2.2 =
      calls ++ (if this.Get ≠ 0 then [⟨this.GetDeleter, this.Get, other.Get⟩] else []) := by
  refine ⟨?_, rfl, ?_⟩
  · simp only [UniquePtr.moveAssign]
    rw [UniquePtr.Reset_handle]
    rfl
  · simp only [UniquePtr.moveAssign]
    rw [UniquePtr.Reset_calls]
    rfl

/-- C22: moving a `UniquePtr`.  Move construction gives a handle with the source's
address and deleter, empties the source and, as an operation of a program, invokes no
deleter.  Move assignment from a different handle gives the destination the source's
address and deleter and empties the source; the only invocation it adds is the one of
the destination's own deleter on the destination's prior address, made when that
address is not null and while the destination still has its own deleter, so no deleter
is invoked on the transferred address when the two handles hold different addresses. -/
theorem UniquePtr.move_transfers {D : Type} (this other : UniquePtr D)
    (calls : List (DeleterCall D)) :
    (other.move.1.Get = other.Get ∧ other.move.1.GetDeleter = other.GetDeleter ∧
      other.move.2.Get = 0 ∧
      step { handles := [some other], calls := calls } (.move 0) =
        some { handles := [some other.move.2, some other.move.1], calls := calls }) ∧
    ((this.moveAssign other calls).1.Get = other.Get ∧
      (this.moveAssign other calls).1.GetDeleter = other.GetDeleter ∧
      (this.moveAssign other calls).2.1.Get = 0 ∧
      (this.Get ≠ 0 → (this.moveAssign other calls).2.2 =
        calls ++ [⟨this.GetDeleter, this.Get, other.Get⟩]) ∧
      (this.Get = 0 → (this.moveAssign other calls).2.2 = calls) ∧
      (this.Get ≠ other.Get →
        ((this.moveAssign other calls).2.2.filter (fun c => c.address = other.Get)) =
          calls.filter (fun c => c.address = other.Get))) := by
  obtain ⟨hdst, _, hcalls⟩ := UniquePtr.moveAssign_fields this other calls
  refine ⟨⟨rfl, rfl, rfl, rfl⟩, ?_, ?_, rfl, fun hne => ?_, fun he => ?_, fun hne => ?_⟩
  · rw [hdst]
    rfl
  · rw [hdst]
    rfl
  · rw [hcalls]; simp [hne]
  · rw [hcalls]; simp [he]
  · rw [hcalls]
    by_cases h0 : this.Get = 0
    · simp [h0]
    · simp [h0, List.filter_append, hne]

/-- Instance of `UniquePtr.move_transfers`: the handle owning 100 with deleter 7 is
move-assigned from the handle owning 200 with deleter 8, and an empty handle is
move-assigned from the same source. -/
theorem UniquePtr.move_transfers_witness :
    ((sampleUnique.moveAssign ⟨⟨200, 8⟩⟩ []).2.2 = [] ++ [⟨7, 100, 200⟩] ∧
      ((sampleUnique.moveAssign ⟨⟨200, 8⟩⟩ []).2.2.filter
          (fun c => c.address = (⟨⟨200, 8⟩⟩ : UniquePtr Nat).Get)) =
        ([] : List (DeleterCall Nat)).filter
          (fun c => c.address = (⟨⟨200, 8⟩⟩ : UniquePtr Nat).Get)) ∧
    (sampleEmptyUnique.moveAssign ⟨⟨200, 8⟩⟩ []).2.2 = [] :=
  ⟨⟨(UniquePtr.move_transfers sampleUnique ⟨⟨200, 8⟩⟩ []).2.2.2.2.1 (by decide),
      (UniquePtr.move_transfers sampleUnique ⟨⟨200, 8⟩⟩ []).2.2.2.2.2.2 (by decide)⟩,
    (UniquePtr.move_transfers sampleEmptyUnique ⟨⟨200, 8⟩⟩ []).2.2.2.2.2.1 rfl⟩

/-- C23: `a` owns the non-null address `p` and `b` is another handle, holding another
address or none.  After `b.Reset(a.Release())` and the destruction of both handles, in
either order, the invocations added are: the one of `b`'s deleter on `b`'s prior
address when that is not null, and one invocation of `b`'s deleter on `p`.  So the
invocations on `p` are one more than before, and `a`'s destructor invokes nothing. -/
theorem UniquePtr.release_then_reset_once {D : Type} (a b : UniquePtr D)
    (calls : List (DeleterCall D)) (hp : a.Get ≠ 0) (hne : b.Get ≠ a.Get) :
    a.Release.2.destructor (b.Reset calls a.Release.1).2 = (b.Reset calls a.Release.1).2 ∧
    (b.Reset calls a.Release.1).1.destructor
        (a.Release.2.destructor (b.Reset calls a.Release.1).2) =
      calls ++ (if b.Get ≠ 0 then [⟨b.GetDeleter, b.Get, a.Get⟩] else []) ++
        [⟨b.GetDeleter, a.Get, 0⟩] ∧
    a.Release.2.destructor
        ((b.Reset calls a.Release.1).1.destructor (b.Reset calls a.Release.1).2) =
      calls ++ (if b.Get ≠ 0 then [⟨b.GetDeleter, b.Get, a.Get⟩] else []) ++
        [⟨b.GetDeleter, a.Get, 0⟩] ∧
    ((b.Reset calls a.Release.1).1.destructor
        (a.Release.2.destructor (b.Reset calls a.Release.1).2)).countP
        (fun c => c.address = a.Get) =
      calls.countP (fun c => c.address = a.Get) + 1 := by
  have hrel : a.Release.1 = a.Get := rfl
  have hempty : ∀ l : List (DeleterCall D), a.Release.2.destructor l = l := by
    intro l
    unfold UniquePtr.destructor
    rw [UniquePtr.Reset_calls]
    simp [UniquePtr.Release, UniquePtr.Get, CompressedPair.GetFirst]
  have hb : ∀ l : List (DeleterCall D), (b.Reset calls a.Release.1).1.destructor l =
      l ++ [⟨b.GetDeleter, a.Get, 0⟩] := by
    intro l
    unfold UniquePtr.destructor
    rw [UniquePtr.Reset_calls, UniquePtr.Reset_handle, hrel]
    have h1 : ({ ptr_ := ⟨a.Get, b.GetDeleter⟩ } : UniquePtr D).Get = a.Get := rfl
    have h2 : ({ ptr_ := ⟨a.Get, b.GetDeleter⟩ } : UniquePtr D).GetDeleter = b.GetDeleter := rfl
    rw [h1, h2]
    simp [hp]
  refine ⟨hempty _, ?_, ?_, ?_⟩
  · rw [hempty, hb, UniquePtr.Reset_calls, hrel]
  · rw [hempty, hb, UniquePtr.Reset_calls, hrel]
  · rw [hempty, hb, UniquePtr.Reset_calls, hrel]
    by_cases h0 : b.Get = 0
    · simp [h0, List.countP_append]
    · simp [h0, List.countP_append, hne]

/-- Instance of `UniquePtr.release_then_reset_once`: `a` owns 100 and `b` owns 200. -/
theorem UniquePtr.release_then_reset_once_witness :
    sampleUnique.Release.2.destructor
        ((⟨⟨200, 8⟩⟩ : UniquePtr Nat).Reset [] sampleUnique.Release.1).2 =
      ((⟨⟨200, 8⟩⟩ : UniquePtr Nat).Reset [] sampleUnique.Release.1).2 ∧
    ((⟨⟨200, 8⟩⟩ : UniquePtr Nat).Reset [] sampleUnique.Release.1).1.destructor
        (sampleUnique.Release.2.destructor
          ((⟨⟨200, 8⟩⟩ : UniquePtr Nat).Reset [] sampleUnique.Release.1).2) =
      [] ++ (if (⟨⟨200, 8⟩⟩ : UniquePtr Nat).Get ≠ 0 then
          [⟨(⟨⟨200, 8⟩⟩ : UniquePtr Nat).GetDeleter, (⟨⟨200, 8⟩⟩ : UniquePtr Nat).Get,
            sampleUnique.Get⟩] else []) ++
        [⟨(⟨⟨200, 8⟩⟩ : UniquePtr Nat).GetDeleter, sampleUnique.Get, 0⟩] :=
  ⟨(UniquePtr.release_then_reset_once sampleUnique ⟨⟨200, 8⟩⟩ [] (by decide) (by decide)).1,
    (UniquePtr.release_then_reset_once sampleUnique ⟨⟨200, 8⟩⟩ [] (by decide)
      (by decide)).2.1⟩

/-- The release of 100 into the handle owning 200 and both destructions, evaluated:
deleter 8 is invoked on 200 and then on 100, deleter 7 never. -/
theorem UniquePtr.release_then_reset_eval :
    ((⟨⟨200, 8⟩⟩ : UniquePtr Nat).Reset [] sampleUnique.Release.1).1.destructor
        (sampleUnique.Release.2.destructor
          ((⟨⟨200, 8⟩⟩ : UniquePtr Nat).Reset [] sampleUnique.Release.1).2) =
      [⟨8, 200, 100⟩, ⟨8, 100, 0⟩] := by
  decide

end Unique

namespace Unique

/-! ### Exclusive ownership -/

/-- The address of an optional handle. -/
theorem addrAt_def {D : Type} (hs : List (Option (UniquePtr D))) (i : Nat) :
    addrAt hs i = match hs[i]? with
      | some (some u) => u.Get
      | _ => 0 := rfl

/-- A live handle gives its slot's address. -/
theorem addrAt_of_getHandle {D : Type} {s : State D} {i : Nat} {u : UniquePtr D}
    (hu : s.getHandle i = some u) : addrAt s.handles i = u.Get ∧ i < s.handles.length := by
  unfold State.getHandle at hu
  unfold addrAt
  cases hget : s.handles[i]? with
  | none => simp [hget] at hu
  | some o =>
    have hlt : i < s.handles.length := by
      by_contra hge
      rw [List.getElem?_eq_none (by omega)] at hget
      simp at hget
    cases o with
    | none => simp [hget] at hu
    | some v =>
      simp only [hget, Option.some.injEq] at hu
      subst hu
      exact ⟨rfl, hlt⟩

/-- Addresses after a write to a slot of the list. -/
theorem addrAt_set {D : Type} (hs : List (Option (UniquePtr D))) {k : Nat}
    (hk : k < hs.length) (x : Option (UniquePtr D)) (i : Nat) :
    addrAt (hs.set k x) i =
      if i = k then (match x with | some u => u.Get | none => 0) else addrAt hs i := by
  unfold addrAt
  by_cases hik : i = k
  · subst hik
    simp only [if_true]
    rw [List.getElem?_set_self hk]
    cases x <;> rfl
  · simp only [hik, if_false]
    rw [List.getElem?_set_ne (Ne.symm hik)]

/-- Addresses after a new slot. -/
theorem addrAt_append {D : Type} (hs : List (Option (UniquePtr D)))
    (x : Option (UniquePtr D)) (i : Nat) :
    addrAt (hs ++ [x]) i =
      if i = hs.length then (match x with | some u => u.Get | none => 0)
      else addrAt hs i := by
  unfold addrAt
  by_cases hi : i = hs.length
  · subst hi
    simp only [if_true]
    rw [List.getElem?_append_right (le_refl _)]
    simp only [Nat.sub_self, List.getElem?_cons_zero]
    cases x <;> rfl
  · simp only [hi, if_false]
    by_cases hlt : i < hs.length
    · rw [List.getElem?_append_left hlt]
    · rw [List.getElem?_eq_none (by simp; omega), List.getElem?_eq_none (by omega)]

/-- No address is held past the end of the list. -/
theorem addrAt_of_length_le {D : Type} (hs : List (Option (UniquePtr D))) {i : Nat}
    (hi : hs.length ≤ i) : addrAt hs i = 0 := by
  unfold addrAt
  rw [List.getElem?_eq_none hi]

/-- Exclusive ownership carries over to a state whose non-null addresses are those of
some slots of the old state, different slots for different new slots, and whose new
invocations are on non-null addresses of old slots that no new slot comes from. -/
theorem State.Exclusive.of_reindex {D : Type} {s s1 : State D} (f : Nat → Nat)
    (hex : s.Exclusive)
    (hf : ∀ i, addrAt s1.handles i ≠ 0 → addrAt s1.handles i = addrAt s.handles (f i))
    (hinj : ∀ i j, addrAt s1.handles i ≠ 0 → addrAt s1.handles j ≠ 0 → f i = f j → i = j)
    (hcalls : ∀ c ∈ s1.calls, c ∈ s.calls ∨
      (c.address ≠ 0 ∧ ∃ k, c.address = addrAt s.handles k ∧
        ∀ i, addrAt s1.handles i ≠ 0 → f i ≠ k)) :
    s1.Exclusive := by
  obtain ⟨hdistinct, hlog⟩ := hex
  constructor
  · intro i j hi hij
    have hj : addrAt s1.handles j ≠ 0 := by rw [← hij]; exact hi
    have h1 := hf i hi
    have h2 := hf j hj
    have hfi : addrAt s.handles (f i) ≠ 0 := by rw [← h1]; exact hi
    have := hdistinct (f i) (f j) hfi (by rw [← h1, ← h2]; exact hij)
    exact hinj i j hi hj this
  · intro c hc
    rcases hcalls c hc with hold | ⟨hc0, k, hk, hfree⟩
    · refine ⟨(hlog c hold).1, fun i hi => ?_⟩
      have hne : addrAt s1.handles i ≠ 0 := by rw [hi]; exact (hlog c hold).1
      have := hf i hne
      exact (hlog c hold).2 (f i) (by rw [← this]; exact hi)
    · refine ⟨hc0, fun i hi => ?_⟩
      have hne : addrAt s1.handles i ≠ 0 := by rw [hi]; exact hc0
      have h1 := hf i hne
      have hfi : addrAt s.handles (f i) ≠ 0 := by rw [← h1]; exact hne
      have := hdistinct (f i) k hfi (by rw [← h1, hi, hk])
      exact hfree i hne this

/-- Every operation keeps exclusive ownership. -/
theorem step_exclusive {D : Type} {s s1 : State D} {op : Op} (hex : s.Exclusive)
    (hstep : step s op = some s1) : s1.Exclusive := by
  cases op with
  | move src =>
    simp only [step] at hstep
    cases hu : s.getHandle src with
    | none => simp [hu] at hstep
    | some u =>
      simp only [hu, Option.some.injEq] at hstep
      subst hstep
      obtain ⟨hau, hlt⟩ := addrAt_of_getHandle hu
      have hA : ∀ i, addrAt (s.handles.set src (some u.move.2) ++ [some u.move.1]) i =
          if i = s.handles.length then u.Get else if i = src then 0 else addrAt s.handles i := by
        intro i
        rw [addrAt_append, List.length_set, addrAt_set _ hlt]
        rfl
      refine State.Exclusive.of_reindex (fun i => if i = s.handles.length then src else i)
        hex ?_ ?_ ?_
      · intro i hi
        simp only [hA] at hi ⊢
        by_cases h1 : i = s.handles.length
        · simp only [h1, if_true]; exact hau.symm
        · by_cases h2 : i = src
          · subst h2
            simp [h1] at hi
          · simp [h1, h2]
      · intro i j hi hj hij
        simp only [hA] at hi hj
        by_cases h1 : i = s.handles.length <;> by_cases h2 : j = s.handles.length
        · rw [h1, h2]
        · simp only [h1, h2, if_true, if_false] at hij
          subst hij
          simp [h2] at hj
        · simp only [h1, h2, if_true, if_false] at hij
          subst hij
          simp [h1] at hi
        · simpa [h1, h2] using hij
      · intro c hc
        exact Or.inl hc
  | moveAssign dst src =>
    simp only [step] at hstep
    cases ht : s.getHandle dst with
    | none => simp [ht] at hstep
    | some t =>
      cases hu : s.getHandle src with
      | none => simp [ht, hu] at hstep
      | some u =>
        simp only [ht, hu] at hstep
        obtain ⟨hat, hltd⟩ := addrAt_of_getHandle ht
        obtain ⟨hau, hlts⟩ := addrAt_of_getHandle hu
        by_cases hds : dst = src
        · simp only [hds, if_true, Option.some.injEq] at hstep
          subst hstep
          have hself : (t.moveAssignSelf s.calls).1.Get = t.Get ∧
              (t.moveAssignSelf s.calls).2 = s.calls := by
            simp only [UniquePtr.moveAssignSelf]
            rw [UniquePtr.Reset_handle, UniquePtr.Reset_calls]
            exact ⟨rfl, by simp [UniquePtr.Release, UniquePtr.Get, CompressedPair.GetFirst]⟩
          have hA : ∀ i, addrAt (s.handles.set src (some (t.moveAssignSelf s.calls).1)) i =
              addrAt s.handles i := by
            intro i
            rw [addrAt_set _ hlts]
            by_cases h1 : i = src
            · simp only [h1, if_true, hself.1]
              rw [← hds]; exact hat.symm
            · simp [h1]
          refine State.Exclusive.of_reindex id hex ?_ ?_ ?_
          · intro i _
            exact hA i
          · intro i j _ _ hij
            exact hij
          · intro c hc
            simp only [hself.2] at hc
            exact Or.inl hc
        · simp only [hds, if_false, Option.some.injEq] at hstep
          subst hstep
          have hm := UniquePtr.moveAssign_fields t u s.calls
          have hA : ∀ i, addrAt ((s.handles.set dst (some (t.moveAssign u s.calls).1)).set src
              (some (t.moveAssign u s.calls).2.1)) i =
              if i = src then 0 else if i = dst then u.Get else addrAt s.handles i := by
            intro i
            rw [addrAt_set _ (by rw [List.length_set]; exact hlts), addrAt_set _ hltd]
            simp only [hm.1, hm.2.1]
            rfl
          have hcalls := hm.2.2
          refine State.Exclusive.of_reindex (fun i => if i = dst then src else i) hex ?_ ?_ ?_
          · intro i hi
            simp only [hA] at hi ⊢
            by_cases h1 : i = src
            · simp [h1] at hi
            · by_cases h2 : i = dst
              · simp only [h1, h2, if_true, if_false]
                rw [if_neg hds]
                exact hau.symm
              · simp [h1, h2]
          · intro i j hi hj hij
            simp only [hA] at hi hj
            have hi1 : i ≠ src := fun h => by simp [h] at hi
            have hj1 : j ≠ src := fun h => by simp [h] at hj
            by_cases h1 : i = dst <;> by_cases h2 : j = dst
            · rw [h1, h2]
            · simp only [h1, h2, if_true, if_false] at hij
              exact absurd hij.symm hj1
            · simp only [h1, h2, if_true, if_false] at hij
              exact absurd hij hi1
            · simpa [h1, h2] using hij
          · intro c hc
            simp only [hcalls, List.mem_append] at hc
            rcases hc with hc | hc
            · exact Or.inl hc
            · right
              by_cases h0 : t.Get = 0
              · simp [h0] at hc
              · simp only [h0, ne_eq, not_false_eq_true, if_true, List.mem_singleton] at hc
                subst hc
                refine ⟨h0, dst, hat.symm, fun i hi => ?_⟩
                simp only [hA] at hi
                by_cases h2 : i = dst
                · simp only [h2, if_true]
                  exact fun h => hds h.symm
                · simp [h2]
  | release i =>
    simp only [step] at hstep
    cases hu : s.getHandle i with
    | none => simp [hu] at hstep
    | some u =>
      simp only [hu, Option.some.injEq] at hstep
      subst hstep
      obtain ⟨hau, hlt⟩ := addrAt_of_getHandle hu
      have hA : ∀ j, addrAt (s.handles.set i (some u.Release.2)) j =
          if j = i then 0 else addrAt s.handles j := by
        intro j
        rw [addrAt_set _ hlt]
        rfl
      refine State.Exclusive.of_reindex id hex ?_ ?_ ?_
      · intro j hj
        simp only [hA] at hj ⊢
        by_cases h1 : j = i
        · simp [h1] at hj
        · simp [h1]
      · intro j k _ _ hjk
        exact hjk
      · intro c hc
        exact Or.inl hc
  | reset i =>
    simp only [step] at hstep
    cases hu : s.getHandle i with
    | none => simp [hu] at hstep
    | some u =>
      simp only [hu, Option.some.injEq] at hstep
      subst hstep
      obtain ⟨hau, hlt⟩ := addrAt_of_getHandle hu
      have hA : ∀ j, addrAt (s.handles.set i (some (u.Reset s.calls 0).1)) j =
          if j = i then 0 else addrAt s.handles j := by
        intro j
        rw [addrAt_set _ hlt, UniquePtr.Reset_handle]
        rfl
      refine State.Exclusive.of_reindex id hex ?_ ?_ ?_
      · intro j hj
        simp only [hA] at hj ⊢
        by_cases h1 : j = i
        · simp [h1] at hj
        · simp [h1]
      · intro j k _ _ hjk
        exact hjk
      · intro c hc
        simp only [UniquePtr.Reset_calls, List.mem_append] at hc
        rcases hc with hc | hc
        · exact Or.inl hc
        · right
          by_cases h0 : u.Get = 0
          · simp [h0] at hc
          · simp only [h0, ne_eq, not_false_eq_true, if_true, List.mem_singleton] at hc
            subst hc
            refine ⟨h0, i, hau.symm, fun j hj => ?_⟩
            simp only [hA] at hj
            by_cases h2 : j = i
            · simp [h2] at hj
            · exact h2
  | swap i j =>
    simp only [step] at hstep
    cases ht : s.getHandle i with
    | none => simp [ht] at hstep
    | some t =>
      cases hu : s.getHandle j with
      | none => simp [ht, hu] at hstep
      | some u =>
        simp only [ht, hu] at hstep
        obtain ⟨hat, hlti⟩ := addrAt_of_getHandle ht
        obtain ⟨hau, hltj⟩ := addrAt_of_getHandle hu
        by_cases hij : i = j
        · simp only [hij, if_true, Option.some.injEq] at hstep
          subst hstep
          exact hex
        · simp only [hij, if_false, Option.some.injEq] at hstep
          subst hstep
          have hA : ∀ m, addrAt ((s.handles.set i (some (t.Swap u).1)).set j
              (some (t.Swap u).2)) m =
              if m = j then t.Get else if m = i then u.Get else addrAt s.handles m := by
            intro m
            rw [addrAt_set _ (by rw [List.length_set]; exact hltj), addrAt_set _ hlti]
            rfl
          refine State.Exclusive.of_reindex
            (fun m => if m = j then i else if m = i then j else m) hex ?_ ?_ ?_
          · intro m _
            simp only [hA]
            by_cases h1 : m = j
            · simp only [h1, if_true]; exact hat.symm
            · by_cases h2 : m = i
              · subst h2
                simp only [if_neg hij, if_true]
                exact hau.symm
              · simp [h1, h2]
          · intro m n _ _ hmn
            by_cases h1 : m = j <;> by_cases h2 : m = i <;> by_cases h3 : n = j <;>
              by_cases h4 : n = i <;> simp_all
          · intro c hc
            exact Or.inl hc
  | destroy i =>
    simp only [step] at hstep
    cases hu : s.getHandle i with
    | none => simp [hu] at hstep
    | some u =>
      simp only [hu, Option.some.injEq] at hstep
      subst hstep
      obtain ⟨hau, hlt⟩ := addrAt_of_getHandle hu
      have hA : ∀ j, addrAt (s.handles.set i none) j =
          if j = i then 0 else addrAt s.handles j := by
        intro j
        rw [addrAt_set _ hlt]
      refine State.Exclusive.of_reindex id hex ?_ ?_ ?_
      · intro j hj
        simp only [hA] at hj ⊢
        by_cases h1 : j = i
        · simp [h1] at hj
        · simp [h1]
      · intro j k _ _ hjk
        exact hjk
      · intro c hc
        simp only [UniquePtr.destructor, UniquePtr.Reset_calls, List.mem_append] at hc
        rcases hc with hc | hc
        · exact Or.inl hc
        · right
          by_cases h0 : u.Get = 0
          · simp [h0] at hc
          · simp only [h0, ne_eq, not_false_eq_true, if_true, List.mem_singleton] at hc
            subst hc
            refine ⟨h0, i, hau.symm, fun j hj => ?_⟩
            simp only [hA] at hj
            by_cases h2 : j = i
            · simp [h2] at hj
            · exact h2

/-- Every program keeps exclusive ownership. -/
theorem run_exclusive {D : Type} {ops : List Op} :
    ∀ {s s1 : State D}, s.Exclusive → run s ops = some s1 → s1.Exclusive := by
  induction ops with
  | nil =>
    intro s s1 hex hrun
    simp only [run, Option.some.injEq] at hrun
    subst hrun
    exact hex
  | cons op ops ih =>
    intro s s1 hex hrun
    simp only [run] at hrun
    cases hstep : step s op with
    | none => simp [hstep] at hrun
    | some s2 =>
      simp only [hstep] at hrun
      exact ih (step_exclusive hex hstep) hrun

end Unique

namespace Unique

/-- A slot with a non-null address holds a live handle. -/
theorem getHandle_of_addrAt {D : Type} {s : State D} {i : Nat}
    (hi : addrAt s.handles i ≠ 0) :
    ∃ u, s.getHandle i = some u ∧ u.Get = addrAt s.handles i := by
  unfold addrAt at hi ⊢
  unfold State.getHandle
  cases hget : s.handles[i]? with
  | none => simp [hget] at hi
  | some o =>
    cases o with
    | none => simp [hget] at hi
    | some u => exact ⟨u, rfl, rfl⟩

/-- An operation is defined exactly when the handles it names are alive. -/
theorem step_isSome_iff {D : Type} (s : State D) (op : Op) :
    (step s op).isSome = true ↔ ∀ i ∈ op.operands, (s.getHandle i).isSome = true := by
  cases op with
  | move src =>
    cases hu : s.getHandle src <;> simp [step, Op.operands, hu]
  | moveAssign dst src =>
    cases ht : s.getHandle dst <;> cases hu : s.getHandle src <;>
      simp [step, Op.operands, ht, hu]
    split <;> rfl
  | release i =>
    cases hu : s.getHandle i <;> simp [step, Op.operands, hu]
  | reset i =>
    cases hu : s.getHandle i <;> simp [step, Op.operands, hu]
  | swap i j =>
    cases ht : s.getHandle i <;> cases hu : s.getHandle j <;>
      simp [step, Op.operands, ht, hu]
    split <;> rfl
  | destroy i =>
    cases hu : s.getHandle i <;> simp [step, Op.operands, hu]

/-- C24: exclusive ownership is an invariant.  Start from handles whose non-null
addresses are pairwise distinct, with no deleter invoked yet.  After any sequence of
move construction, move assignment, `Release()`, `Reset()` without argument, `Swap` and
destruction applied to live handles, two different live handles never hold the same
non-null address, and every address on which a deleter has been invoked is non-null
and held by no live handle. -/
theorem exclusive_ownership {D : Type} (s0 s : State D) (ops : List Op)
    (hstart : ∀ i j u v, s0.getHandle i = some u → s0.getHandle j = some v →
      u.Get ≠ 0 → u.Get = v.Get → i = j)
    (hcalls : s0.calls = []) (hrun : run s0 ops = some s) :
    (∀ i j u v, s.getHandle i = some u → s.getHandle j = some v → i ≠ j →
      u.Get ≠ 0 → u.Get ≠ v.Get) ∧
    (∀ c ∈ s.calls, c.address ≠ 0 ∧
      ∀ i u, s.getHandle i = some u → u.Get ≠ c.address) := by
  have hex0 : s0.Exclusive := by
    constructor
    · intro i j hi hij
      obtain ⟨u, hu, hue⟩ := getHandle_of_addrAt hi
      obtain ⟨v, hv, hve⟩ := getHandle_of_addrAt (s := s0) (i := j) (by rw [← hij]; exact hi)
      exact hstart i j u v hu hv (by rw [hue]; exact hi) (by rw [hue, hve]; exact hij)
    · intro c hc
      rw [hcalls] at hc
      simp at hc
  obtain ⟨hd, hl⟩ := run_exclusive hex0 hrun
  constructor
  · intro i j u v hu hv hij hne heq
    have hau := (addrAt_of_getHandle hu).1
    have hav := (addrAt_of_getHandle hv).1
    exact hij (hd i j (by rw [hau]; exact hne) (by rw [hau, hav]; exact heq))
  · intro c hc
    refine ⟨(hl c hc).1, fun i u hu heq => ?_⟩
    have hau := (addrAt_of_getHandle hu).1
    exact (hl c hc).2 i (by rw [hau]; exact heq)

/-- Instance of `exclusive_ownership`: `sampleProgram` run on `sampleState`. -/
theorem exclusive_ownership_witness :
    (∀ i j u v, sampleFinalState.getHandle i = some u →
      sampleFinalState.getHandle j = some v → i ≠ j → u.Get ≠ 0 → u.Get ≠ v.Get) ∧
    (∀ c ∈ sampleFinalState.calls, c.address ≠ 0 ∧
      ∀ i u, sampleFinalState.getHandle i = some u → u.Get ≠ c.address) :=
  exclusive_ownership sampleState sampleFinalState sampleProgram
    (by
      intro i j u v hi hj hne heq
      rcases i with _ | _ | i <;> rcases j with _ | _ | j <;>
        simp [State.getHandle, sampleState] at hi hj <;>
        first
          | rfl
          | (subst hi hj; simp [UniquePtr.Get, CompressedPair.GetFirst] at heq))
    rfl rfl

/-- The run of `sampleProgram` on `sampleState`, evaluated: deleter 7 is invoked on 100
when the first handle is move-assigned, deleter 8 on 200 at the `Reset()`; all three
handles that were constructed end empty or destroyed. -/
theorem sampleFinalState_eval :
    (run sampleState sampleProgram).map
        (fun s => (s.handles.map (fun o => o.map (fun u => (u.Get, u.GetDeleter))), s.calls)) =
      some ([some (0, 8), some (0, 8), none], [⟨7, 100, 200⟩, ⟨8, 200, 0⟩]) := by
  decide

end Unique

namespace Intrusive

/-! ### Counting of the intrusive handle -/

/-- What `IncRef` does to a live object whose counter is below the largest `size_t`. -/
theorem RefCounted.IncRef_of_live {h : Heap} {a c : Nat} (hc : h.counter_ a = some c)
    (hov : c + 1 < SIZE_T_MOD) :
    RefCounted.IncRef h a =
      some { h with counter_ := Function.update h.counter_ a (some (c + 1)) } := by
  simp [RefCounted.IncRef, hc, SimpleCounter.IncRef, size_t_inc_of_lt hov]

/-- What `DecRef` does to a live object whose counter is not 0. -/
theorem RefCounted.DecRef_of_live {h : Heap} {a c : Nat} (hc : h.counter_ a = some c)
    (hpos : 1 ≤ c) :
    ∃ h1, RefCounted.DecRef h a = some h1 ∧
      RefCounted.RefCount h1 a = (if c = 1 then none else some (c - 1)) ∧
      h1.destroyed = (if c = 1 then h.destroyed ++ [a] else h.destroyed) ∧
      ∀ b, b ≠ a → h1.counter_ b = h.counter_ b := by
  have hne : c ≠ 0 := by omega
  by_cases h1 : c = 1
  · subst h1
    refine ⟨DefaultDelete.Destroy
      { h with counter_ := Function.update h.counter_ a (some 0) } a, ?_, ?_, ?_, ?_⟩
    · simp [RefCounted.DecRef, hc, SimpleCounter.DecRef, SimpleCounter.RefCount]
    · simp [RefCounted.RefCount, DefaultDelete.Destroy]
    · simp [DefaultDelete.Destroy]
    · intro b hb
      simp [DefaultDelete.Destroy, Function.update_noteq hb]
  · have h2 : c - 1 ≠ 0 := by omega
    refine ⟨{ h with counter_ := Function.update h.counter_ a (some (c - 1)) }, ?_, ?_, ?_, ?_⟩
    · simp [RefCounted.DecRef, hc, SimpleCounter.DecRef, SimpleCounter.RefCount, hne, h2]
    · simp [RefCounted.RefCount, SimpleCounter.RefCount, h1]
    · simp [h1]
    · intro b hb
      simp [Function.update_noteq hb]

/-- C25: counting of `IntrusivePtr` over a live `RefCounted` object at the non-null
address `a` whose counter is `c`.  Construction from the raw pointer and copying a
handle on the object return a handle on `a` and leave the counter at `c + 1` (for `c`
below the largest `size_t`).  `Reset()` and the destructor of a handle on the object,
whose counter is then at least 1, leave the handle empty and the counter at `c - 1`;
`Deleter::Destroy` is invoked on the object exactly when `c - 1` is 0, that is when
`c = 1`.  `Reset()` on an empty handle changes nothing.  `MakeIntrusive` on a fresh
address gives a handle with `UseCount() == 1`, whether the returned handle is
constructed in place or moved. -/
theorem IntrusivePtr.counting_spec (h : Heap) (a c : Nat) (elide : Bool) :
    (a ≠ 0 → h.counter_ a = some c → c + 1 < SIZE_T_MOD →
      ∃ h1, IntrusivePtr.ofPtr h a = some (⟨a⟩, h1) ∧
        IntrusivePtr.copy h ⟨a⟩ = some (⟨a⟩, h1) ∧
        IntrusivePtr.UseCount h1 ⟨a⟩ = some (c + 1) ∧
        h1.destroyed = h.destroyed ∧ ∀ b, b ≠ a → h1.counter_ b = h.counter_ b) ∧
    (a ≠ 0 → h.counter_ a = some c → 1 ≤ c →
      ∃ h1, IntrusivePtr.Reset h ⟨a⟩ = some (⟨0⟩, h1) ∧
        IntrusivePtr.destructor h ⟨a⟩ = some h1 ∧
        RefCounted.RefCount h1 a = (if c = 1 then none else some (c - 1)) ∧
        h1.destroyed = (if c = 1 then h.destroyed ++ [a] else h.destroyed) ∧
        ∀ b, b ≠ a → h1.counter_ b = h.counter_ b) ∧
    (IntrusivePtr.Reset h ⟨0⟩ = some (⟨0⟩, h) ∧ IntrusivePtr.destructor h ⟨0⟩ = some h) ∧
    (a ≠ 0 → h.counter_ a = none →
      ∃ h1, MakeIntrusive h a elide = some (⟨a⟩, h1) ∧
        IntrusivePtr.UseCount h1 ⟨a⟩ = some 1 ∧ h1.destroyed = h.destroyed) := by
  refine ⟨fun ha hc hov => ?_, fun ha hc hpos => ?_, ⟨rfl, rfl⟩, fun ha hc => ?_⟩
  · refine ⟨{ h with counter_ := Function.update h.counter_ a (some (c + 1)) },
      ?_, ?_, ?_, rfl, ?_⟩
    · simp [IntrusivePtr.ofPtr, IntrusivePtr.Reset, Ne.symm ha, ha,
        RefCounted.IncRef_of_live hc hov]
    · simp [IntrusivePtr.copy, IntrusivePtr.Reset, Ne.symm ha, ha,
        RefCounted.IncRef_of_live hc hov]
    · simp [IntrusivePtr.UseCount, ha, RefCounted.RefCount, SimpleCounter.RefCount]
    · intro b hb
      simp [Function.update_noteq hb]
  · obtain ⟨h1, hdec, hcount, hdes, hoth⟩ := RefCounted.DecRef_of_live hc hpos
    refine ⟨h1, ?_, ?_, hcount, hdes, hoth⟩
    · simp [IntrusivePtr.Reset, ha, hdec]
    · simp [IntrusivePtr.destructor, IntrusivePtr.Reset, ha, hdec]
  · have hnew : h.newObject a =
        some { h with counter_ := Function.update h.counter_ a (some 0) } := by
      simp [Heap.newObject, ha, hc]
    have one : (0 : Nat) + 1 < SIZE_T_MOD := by have := size_t_mod_pos; omega
    have two : (1 : Nat) + 1 < SIZE_T_MOD := by have := size_t_mod_pos; omega
    refine ⟨{ h with counter_ := Function.update h.counter_ a (some 1) }, ?_, ?_, rfl⟩
    · cases elide with
      | true =>
        simp [MakeIntrusive, hnew, IntrusivePtr.ofPtr, IntrusivePtr.Reset,
          Ne.symm ha, ha, RefCounted.IncRef, SimpleCounter.IncRef, size_t_inc_of_lt one]
      | false =>
        simp [MakeIntrusive, hnew, IntrusivePtr.ofPtr, IntrusivePtr.move,
          IntrusivePtr.destructor, IntrusivePtr.Reset, Ne.symm ha, ha, RefCounted.IncRef,
          RefCounted.DecRef, SimpleCounter.IncRef, SimpleCounter.DecRef,
          SimpleCounter.RefCount, size_t_inc_of_lt one, size_t_inc_of_lt two]
    · simp [IntrusivePtr.UseCount, ha, RefCounted.RefCount, SimpleCounter.RefCount]

/-- Instance of `IntrusivePtr.counting_spec`: the object at 100 with counter 1, and
`MakeIntrusive` at 100 on the empty heap with the returned handle moved. -/
theorem IntrusivePtr.counting_spec_witness :
    (∃ h1, IntrusivePtr.ofPtr (sampleHeap 1) 100 = some (⟨100⟩, h1) ∧
        IntrusivePtr.copy (sampleHeap 1) ⟨100⟩ = some (⟨100⟩, h1) ∧
        IntrusivePtr.UseCount h1 ⟨100⟩ = some (1 + 1) ∧
        h1.destroyed = (sampleHeap 1).destroyed ∧
        ∀ b, b ≠ 100 → h1.counter_ b = (sampleHeap 1).counter_ b) ∧
    (∃ h1, IntrusivePtr.Reset (sampleHeap 1) ⟨100⟩ = some (⟨0⟩, h1) ∧
        IntrusivePtr.destructor (sampleHeap 1) ⟨100⟩ = some h1 ∧
        RefCounted.RefCount h1 100 = (if (1 : Nat) = 1 then none else some (1 - 1)) ∧
        h1.destroyed =
          (if (1 : Nat) = 1 then (sampleHeap 1).destroyed ++ [100]
           else (sampleHeap 1).destroyed) ∧
        ∀ b, b ≠ 100 → h1.counter_ b = (sampleHeap 1).counter_ b) ∧
    (∃ h1, MakeIntrusive Heap.empty 100 false = some (⟨100⟩, h1) ∧
        IntrusivePtr.UseCount h1 ⟨100⟩ = some 1 ∧ h1.destroyed = Heap.empty.destroyed) :=
  ⟨(IntrusivePtr.counting_spec (sampleHeap 1) 100 1 true).1 (by decide)
      (by simp [sampleHeap]) (by unfold SIZE_T_MOD; norm_num),
    (IntrusivePtr.counting_spec (sampleHeap 1) 100 1 true).2.1 (by decide)
      (by simp [sampleHeap]) (le_refl 1),
    (IntrusivePtr.counting_spec Heap.empty 100 0 false).2.2.2 (by decide) rfl⟩

/-- Counting on the object at 100, evaluated: a second handle raises the counter from 1
to 2, releasing one of two handles lowers it to 1 and destroys nothing, releasing the
only handle destroys the object. -/
theorem IntrusivePtr.counting_sample_eval :
    (IntrusivePtr.copy (sampleHeap 1) ⟨100⟩).map
        (fun r => (r.1, RefCounted.RefCount r.2 100, r.2.destroyed)) =
      some (⟨100⟩, some 2, []) ∧
    (IntrusivePtr.Reset (sampleHeap 2) ⟨100⟩).map
        (fun r => (r.1, RefCounted.RefCount r.2 100, r.2.destroyed)) =
      some (⟨0⟩, some 1, []) ∧
    (IntrusivePtr.Reset (sampleHeap 1) ⟨100⟩).map
        (fun r => (r.1, RefCounted.RefCount r.2 100, r.2.destroyed)) =
      some (⟨0⟩, none, [100]) := by
  refine ⟨?_, ?_, ?_⟩ <;> decide

/-! ### Move assignment of the intrusive handle -/

/-- C30 (the code at the failing input): `a` is the only handle on the object at 100
(counter 1) and `b` is empty.  Move construction from `a` gives a handle on 100, leaves
`a` empty and the counter at 1.  The move assignment `b = std::move(a)` gives `b` the
address 100 and leaves `a` empty, but the counter is 2 with one handle on the object;
the destruction of `b`, the last handle, then leaves the counter at 1 and the object is
never destroyed, whereas after the move construction it destroys the object. -/
theorem IntrusivePtr.moveAssign_raises_count :
    (IntrusivePtr.move (sampleHeap 1) ⟨100⟩).map
        (fun r => (r.1, r.2.1, RefCounted.RefCount r.2.2 100, r.2.2.destroyed)) =
      some (⟨100⟩, ⟨0⟩, some 1, []) ∧
    (IntrusivePtr.moveAssign (sampleHeap 1) ⟨0⟩ ⟨100⟩).map
        (fun r => (r.1, r.2.1, RefCounted.RefCount r.2.2 100, r.2.2.destroyed)) =
      some (⟨100⟩, ⟨0⟩, some 2, []) ∧
    ((IntrusivePtr.moveAssign (sampleHeap 1) ⟨0⟩ ⟨100⟩).bind
        (fun r => IntrusivePtr.destructor r.2.2 r.1)).map
        (fun h => (RefCounted.RefCount h 100, h.destroyed)) =
      some (some 1, []) ∧
    ((IntrusivePtr.move (sampleHeap 1) ⟨100⟩).bind
        (fun r => IntrusivePtr.destructor r.2.2 r.1)).map
        (fun h => (RefCounted.RefCount h 100, h.destroyed)) =
      some (none, [100]) := by
  refine ⟨?_, ?_, ?_, ?_⟩ <;> decide

/-- Move assignment into an empty handle from a handle on a live object whose counter
is `c`: the source is emptied without `DecRef`, so the counter ends at `c + 1`. -/
theorem IntrusivePtr.moveAssign_into_empty (h : Heap) (a c : Nat) (ha : a ≠ 0)
    (hc : h.counter_ a = some c) (hov : c + 1 < SIZE_T_MOD) :
    IntrusivePtr.moveAssign h ⟨0⟩ ⟨a⟩ =
      some (⟨a⟩, ⟨0⟩, { h with counter_ := Function.update h.counter_ a (some (c + 1)) }) := by
  simp [IntrusivePtr.moveAssign, IntrusivePtr.Reset, Ne.symm ha, ha,
    RefCounted.IncRef_of_live hc hov]

/-- Move construction from a handle on a live object whose counter `c` is at least 1:
`IncRef` and the `DecRef` of `other.Reset()` cancel, the counter stays `c`. -/
theorem IntrusivePtr.move_keeps_count (h : Heap) (a c : Nat) (ha : a ≠ 0)
    (hc : h.counter_ a = some c) (hpos : 1 ≤ c) (hov : c + 1 < SIZE_T_MOD) :
    ∃ h1, IntrusivePtr.move h ⟨a⟩ = some (⟨a⟩, ⟨0⟩, h1) ∧
      RefCounted.RefCount h1 a = some c ∧ h1.destroyed = h.destroyed := by
  refine ⟨{ h with counter_ := Function.update h.counter_ a (some c) }, ?_, ?_, rfl⟩
  · have h1 : c + 1 - 1 = c := by omega
    have h2 : ¬ c + 1 = 0 := by omega
    have h3 : ¬ c = 0 := by omega
    simp [IntrusivePtr.move, IntrusivePtr.Reset, Ne.symm ha, ha,
      RefCounted.IncRef_of_live hc hov, RefCounted.DecRef, SimpleCounter.DecRef,
      SimpleCounter.RefCount, h1, h2, h3]
  · simp [RefCounted.RefCount, SimpleCounter.RefCount]

end Intrusive

namespace SharedFromThis

/-! ### The counter operations at every state, and under interleaving -/

/-- C28 (the code at the failing inputs): `DecStrongCounter` on a block whose strong
counter is already 0.  With weak counter 1, in both shapes, the strong counter wraps
to the largest `size_t` and the destructor of the managed value is run; with weak
counter 0 the destructor of the managed value is run and the block is deleted. -/
theorem BaseBlock.DecStrongCounter_at_zero_wraps :
    (BaseBlock.DecStrongCounter (sampleCounters .ControlBlockPointer 0 1) 1).map
        (fun h => (h.blocks 1, h.destroyed, h.deleted)) =
      some (some ⟨.ControlBlockPointer, 100, 2 ^ 64 - 1, 1⟩, [100], []) ∧
    (BaseBlock.DecStrongCounter (sampleCounters .ControlBlockObject 0 1) 1).map
        (fun h => (h.blocks 1, h.destroyed, h.deleted)) =
      some (some ⟨.ControlBlockObject, 100, 2 ^ 64 - 1, 1⟩, [100], []) ∧
    (BaseBlock.DecStrongCounter (sampleCounters .ControlBlockPointer 0 0) 1).map
        (fun h => (h.blocks 1, h.destroyed, h.deleted)) =
      some (none, [100], [1]) ∧
    (BaseBlock.DecStrongCounter (sampleCounters .ControlBlockObject 0 0) 1).map
        (fun h => (h.blocks 1, h.destroyed, h.deleted)) =
      some (none, [100], [1]) := by
  refine ⟨?_, ?_, ?_, ?_⟩ <;> decide

/-- C29 (the code at the failing inputs): `DecWeakCounter` of the embedded shape with
weak counter 2 deletes the block when the strong counter is 0, although one weak
reference is left, and brings the weak counter to 0 when the strong counter is 1; in
both shapes, with weak counter 0 and strong counter 1, the weak counter wraps to the
largest `size_t`.  The pointer-owning shape with weak counter 2 and strong counter 0
leaves weak counter 1 and keeps the block. -/
theorem BaseBlock.DecWeakCounter_embedded_slips :
    (BaseBlock.DecWeakCounter (sampleCounters .ControlBlockObject 0 2) 1).map
        (fun h => (h.blocks 1, h.destroyed, h.deleted)) =
      some (none, [], [1]) ∧
    (BaseBlock.DecWeakCounter (sampleCounters .ControlBlockObject 1 2) 1).map
        (fun h => (h.blocks 1, h.destroyed, h.deleted)) =
      some (some ⟨.ControlBlockObject, 100, 1, 0⟩, [], []) ∧
    (BaseBlock.DecWeakCounter (sampleCounters .ControlBlockObject 1 0) 1).map
        (fun h => (h.blocks 1, h.destroyed, h.deleted)) =
      some (some ⟨.ControlBlockObject, 100, 1, 2 ^ 64 - 1⟩, [], []) ∧
    (BaseBlock.DecWeakCounter (sampleCounters .ControlBlockPointer 1 0) 1).map
        (fun h => (h.blocks 1, h.destroyed, h.deleted)) =
      some (some ⟨.ControlBlockPointer, 100, 1, 2 ^ 64 - 1⟩, [], []) ∧
    (BaseBlock.DecWeakCounter (sampleCounters .ControlBlockPointer 0 2) 1).map
        (fun h => (h.blocks 1, h.destroyed, h.deleted)) =
      some (some ⟨.ControlBlockPointer, 100, 0, 1⟩, [], []) := by
  refine ⟨?_, ?_, ?_, ?_, ?_⟩ <;> decide

/-- A thread that runs its call of `DecStrongCounter` alone leaves the heap that
`ControlBlockPointer.DecStrongCounter` gives. -/
theorem ControlBlockPointer.DecStrongCounter_alone_eq {h : Heap} {b : Nat} {blk : Block}
    (hblk : h.blocks b = some blk) (hlt : blk.strong_counter_ < SIZE_T_MOD) :
    ControlBlockPointer.DecStrongCounter_alone h b =
      ControlBlockPointer.DecStrongCounter h b blk := by
  unfold ControlBlockPointer.DecStrongCounter_alone
  by_cases hgt : blk.strong_counter_ > 1
  · simp only [ControlBlockPointer.DecStrongCounter_step, hblk, hgt, if_true, Option.map,
      ControlBlockPointer.DecStrongCounter]
    rw [size_t_dec_of_pos (by omega) hlt]
  · simp only [ControlBlockPointer.DecStrongCounter_step, hblk, hgt, if_false]
    cases hseq : ControlBlockPointer.DecStrongCounter h b blk with
    | none => rfl
    | some h1 => rfl

/-- An interleaving of two calls: two threads release the two `SharedPtr` of
a pointer-owning block with strong counter 2 and weak counter 0.  When each thread
evaluates `strong_counter_ > 1` before the other decrements, both take the first
branch: the strong counter ends at 0, both calls have returned, and neither has
destroyed the value or deleted the block.  One call after the other destroys the value
and deletes the block in the second call. -/
theorem ControlBlockPointer.DecStrongCounter_interleaved_misses_zero :
    (Threads.run 1 ⟨sampleCounters .ControlBlockPointer 2 0, .entry, .entry⟩
        [.first, .second, .first, .second]).map
        (fun t => (t.first, t.second, t.heap.blocks 1, t.heap.destroyed, t.heap.deleted)) =
      some (.returned, .returned, some ⟨.ControlBlockPointer, 100, 0, 0⟩, [], []) ∧
    (Threads.run 1 ⟨sampleCounters .ControlBlockPointer 2 0, .entry, .entry⟩
        [.first, .first, .second]).map
        (fun t => (t.first, t.second, t.heap.blocks 1, t.heap.destroyed, t.heap.deleted)) =
      some (.returned, .returned, none, [100], [1]) ∧
    ((ControlBlockPointer.DecStrongCounter_alone
        (sampleCounters .ControlBlockPointer 2 0) 1).bind
        (fun h => ControlBlockPointer.DecStrongCounter_alone h 1)).map
        (fun h => (h.blocks 1, h.destroyed, h.deleted)) =
      some (none, [100], [1]) := by
  refine ⟨?_, ?_, ?_⟩ <;> decide

end SharedFromThis

namespace Weak

/-- A thread that runs its call of `DecStrongCounter` alone leaves the heap that
`ControlBlockPointer.DecStrongCounter` gives. -/
theorem ControlBlockPointer.weak_DecStrongCounter_alone_eq {h : Heap} {b : Nat} {blk : Block}
    (hblk : h.blocks b = some blk) (hlt : blk.strong_counter_ < SIZE_T_MOD) :
    ControlBlockPointer.DecStrongCounter_alone h b =
      some (ControlBlockPointer.DecStrongCounter h b blk) := by
  obtain ⟨shape, obj, sc, wc⟩ := blk
  simp only at hlt
  have hself : h.setBlock b ⟨shape, obj, sc, wc⟩ = h := by
    unfold Heap.setBlock
    rw [← hblk, Function.update_eq_self]
  unfold ControlBlockPointer.DecStrongCounter_alone ControlBlockPointer.DecStrongCounter
  by_cases h0 : sc = 0
  · subst h0
    by_cases ho : obj = 0
    · subst ho
      by_cases hw : wc = 0
      · subst hw
        simp [Threads.run, Threads.step, ControlBlockPointer.DecStrongCounter_step, hblk,
          hself]
      · simp [Threads.run, Threads.step, ControlBlockPointer.DecStrongCounter_step, hblk,
          hw, hself]
    · by_cases hw : wc = 0
      · subst hw
        simp [Threads.run, Threads.step, ControlBlockPointer.DecStrongCounter_step, hblk,
          ho, hself]
      · simp [Threads.run, Threads.step, ControlBlockPointer.DecStrongCounter_step, hblk,
          ho, hw, hself]
  · have hd : size_t_dec sc = sc - 1 := size_t_dec_of_pos (by omega) hlt
    by_cases h1 : sc - 1 = 0
    · by_cases ho : obj = 0 <;> by_cases hw : wc = 0 <;>
        simp [Threads.run, Threads.step, ControlBlockPointer.DecStrongCounter_step, hblk,
          h0, h1, hd, ho, hw, Heap.setBlock, Heap.destroyValue, Heap.deleteBlock]
    · simp [Threads.run, Threads.step, ControlBlockPointer.DecStrongCounter_step, hblk,
        h0, h1, hd, Heap.setBlock]

/-- The weak-capable variant under the same two threads (strong counter 2, weak counter
1): when both decrements precede both tests `strong_counter_ == 0`, each thread finds
the counter at 0 and each runs `delete object_`, so the value is destroyed twice. -/
theorem ControlBlockPointer.DecStrongCounter_interleaved_double_delete :
    (Threads.run 1 ⟨sampleCounters 2 1, .entry, .entry⟩
        [.first, .first, .second, .second, .first, .first, .second, .second]).map
        (fun t => (t.first, t.second, t.heap.blocks 1, t.heap.destroyed, t.heap.deleted)) =
      some (.returned, .returned, some ⟨.ControlBlockPointer, 100, 0, 1⟩, [100, 100], []) ∧
    ((ControlBlockPointer.DecStrongCounter_alone (sampleCounters 2 1) 1).bind
        (fun h => ControlBlockPointer.DecStrongCounter_alone h 1)).map
        (fun h => (h.blocks 1, h.destroyed, h.deleted)) =
      some (some ⟨.ControlBlockPointer, 100, 0, 1⟩, [100], []) := by
  refine ⟨?_, ?_⟩ <;> decide

end Weak

namespace SharedFromThis

/-! ### Copy assignment and `operator==` -/

/-- C31 (counterexample to the statement as written): on `sampleTwoHeap` the aliasing
constructor gives `a`, a handle on the block at 2 that observes 100, and `b` is the
handle on the block at 1 that observes 100.  The copy assignment `a = b` finds the
observed addresses equal and changes nothing: `a` stays on the block at 2, the
counters stay as they were, and `a == b` is false. -/
theorem SharedPtr.assign_same_observed_not_eq :
    (SharedPtr.alias sampleTwoHeap ⟨2, 200⟩ 100).map Prod.fst = some ⟨2, 100⟩ ∧
    (SharedPtr.assign sampleAliasHeap ⟨2, 100⟩ ⟨1, 100⟩).map
        (fun r => (r.1, SharedPtr.operator_eq r.1 ⟨1, 100⟩, r.2.blocks 1, r.2.blocks 2)) =
      some (⟨2, 100⟩, false, some ⟨.ControlBlockPointer, 100, 1, 0⟩,
        some ⟨.ControlBlockObject, 200, 2, 0⟩) := by
  constructor <;> decide

/-- C31 (amended): copy assignment `a = b` and `operator==`.  When `b` is empty the
assignment is the release of `a` and leaves `a` empty, equal to `b`.  When `b` is
non-empty and observes another address than `a`, the assignment is the release of `a`
followed by `IncStrongCounter` on `b`'s block, and `a` then has the block and the
observed address of `b`, so `a == b`.  When `a` and `b` are non-empty and observe the
same address, the assignment changes nothing, and `a == b` holds exactly when `a` was
already on `b`'s block. -/
theorem SharedPtr.assign_then_eq (h : Heap) (a b : SharedPtr) :
    (b.block_ = 0 → b.observed_ = 0 →
      SharedPtr.assign h a b = (SharedPtr.Reset h a).map (fun r => (⟨0, 0⟩, r.2)) ∧
      SharedPtr.operator_eq ⟨0, 0⟩ b = true) ∧
    (b.block_ ≠ 0 → b.observed_ ≠ a.observed_ →
      SharedPtr.assign h a b =
        (SharedPtr.Reset h a).bind (fun r =>
          (BaseBlock.IncStrongCounter r.2 b.block_).map (fun h2 =>
            (⟨b.block_, b.observed_⟩, h2))) ∧
      SharedPtr.operator_eq ⟨b.block_, b.observed_⟩ b = true) ∧
    (a.block_ ≠ 0 → b.block_ ≠ 0 → b.observed_ = a.observed_ →
      SharedPtr.assign h a b = some (a, h) ∧
      (SharedPtr.operator_eq a b = true ↔ a.block_ = b.block_)) := by
  refine ⟨fun hb ho => ⟨?_, ?_⟩, fun hb ho => ⟨?_, ?_⟩, fun _ hb ho => ⟨?_, ?_⟩⟩
  · unfold SharedPtr.assign
    cases hres : SharedPtr.Reset h a with
    | none => simp [hb]
    | some r => simp [hb]
  · simp [SharedPtr.operator_eq, hb, ho]
  · unfold SharedPtr.assign
    cases hres : SharedPtr.Reset h a with
    | none => simp [hb, ho]
    | some r =>
      cases hinc : BaseBlock.IncStrongCounter r.2 b.block_ <;> simp [hb, ho, hinc]
  · simp [SharedPtr.operator_eq]
  · simp [SharedPtr.assign, hb, ho]
  · simp [SharedPtr.operator_eq, ho]

/-- Instance of `SharedPtr.assign_then_eq` on `sampleTwoHeap`: into the handle
`(1, 100)` from the empty handle, from the handle `(2, 200)`, and from itself. -/
theorem SharedPtr.assign_then_eq_witness :
    (SharedPtr.assign sampleTwoHeap ⟨1, 100⟩ ⟨0, 0⟩ =
        (SharedPtr.Reset sampleTwoHeap ⟨1, 100⟩).map (fun r => (⟨0, 0⟩, r.2)) ∧
      SharedPtr.operator_eq ⟨0, 0⟩ ⟨0, 0⟩ = true) ∧
    (SharedPtr.assign sampleTwoHeap ⟨1, 100⟩ ⟨2, 200⟩ =
        (SharedPtr.Reset sampleTwoHeap ⟨1, 100⟩).bind (fun r =>
          (BaseBlock.IncStrongCounter r.2 2).map (fun h2 => (⟨2, 200⟩, h2))) ∧
      SharedPtr.operator_eq ⟨2, 200⟩ ⟨2, 200⟩ = true) ∧
    (SharedPtr.assign sampleTwoHeap ⟨1, 100⟩ ⟨1, 100⟩ = some (⟨1, 100⟩, sampleTwoHeap) ∧
      (SharedPtr.operator_eq ⟨1, 100⟩ ⟨1, 100⟩ = true ↔ (1 : Nat) = 1)) :=
  ⟨(SharedPtr.assign_then_eq sampleTwoHeap ⟨1, 100⟩ ⟨0, 0⟩).1 rfl rfl,
    (SharedPtr.assign_then_eq sampleTwoHeap ⟨1, 100⟩ ⟨2, 200⟩).2.1 (by decide) (by decide),
    (SharedPtr.assign_then_eq sampleTwoHeap ⟨1, 100⟩ ⟨1, 100⟩).2.2 (by decide) (by decide)
      rfl⟩

/-- Copy assignment on `sampleTwoHeap` from the handle on the block at 2, evaluated with
the comparison: the destination then equals the source. -/
theorem SharedPtr.assign_then_eq_eval :
    (SharedPtr.assign sampleTwoHeap ⟨1, 100⟩ ⟨2, 200⟩).map
        (fun r => (r.1, SharedPtr.operator_eq r.1 ⟨2, 200⟩)) =
      some (⟨2, 200⟩, true) := by
  decide

end SharedFromThis

/-! ### The pointer-owning blocks of the two weak-capable variants agree -/

theorem SharedFromThis.Heap.toWeak_setBlock (h : SharedFromThis.Heap) (b : Nat)
    (blk : SharedFromThis.Block) :
    (h.setBlock b blk).toWeak = h.toWeak.setBlock b blk.toWeak := by
  unfold SharedFromThis.Heap.toWeak SharedFromThis.Heap.setBlock Weak.Heap.setBlock
  congr 1
  funext a
  by_cases ha : a = b
  · subst ha; simp
  · simp [Function.update_noteq ha]

theorem SharedFromThis.Heap.toWeak_deleteBlock (h : SharedFromThis.Heap) (b : Nat) :
    (h.deleteBlock b).toWeak = h.toWeak.deleteBlock b := by
  unfold SharedFromThis.Heap.toWeak SharedFromThis.Heap.deleteBlock Weak.Heap.deleteBlock
  congr 1
  funext a
  by_cases ha : a = b
  · subst ha; simp
  · simp [Function.update_noteq ha]

/-- The destructor of a value that is not self-observing only extends the log. -/
theorem SharedFromThis.deleteObject_plain {h : SharedFromThis.Heap} {a : Nat}
    (ha : a ≠ 0) (hplain : h.weak_this a = none) :
    ∃ h1, SharedFromThis.deleteObject h a = some h1 ∧
      h1.toWeak = h.toWeak.destroyValue a ∧ h1.blocks = h.blocks := by
  refine ⟨{ h with destroyed := h.destroyed ++ [a] }, ?_, rfl, rfl⟩
  simp [SharedFromThis.deleteObject, SharedFromThis.destroyValue, ha, hplain]

/-- A block read in `weak/shared.h` sits at the same address. -/
theorem SharedFromThis.Heap.toWeak_blocks {h : SharedFromThis.Heap} {b : Nat}
    {blk : SharedFromThis.Block} (hblk : h.blocks b = some blk) :
    h.toWeak.blocks b = some blk.toWeak := by
  simp [SharedFromThis.Heap.toWeak, hblk]

/-- Overwriting a block twice keeps the second write (weak/shared.h). -/
theorem Weak.Heap.setBlock_twice (h : Weak.Heap) (b : Nat) (blk1 blk2 : Weak.Block) :
    (h.setBlock b blk1).setBlock b blk2 = h.setBlock b blk2 := by
  simp [Weak.Heap.setBlock]

/-- Deleting a block that was just overwritten (weak/shared.h). -/
theorem Weak.Heap.deleteBlock_setBlock (h : Weak.Heap) (b : Nat) (blk : Weak.Block) :
    (h.setBlock b blk).deleteBlock b = h.deleteBlock b := by
  simp [Weak.Heap.setBlock, Weak.Heap.deleteBlock]

/-- Overwriting a block commutes with the destructor log (weak/shared.h). -/
theorem Weak.Heap.destroyValue_setBlock (h : Weak.Heap) (b a : Nat) (blk : Weak.Block) :
    (h.setBlock b blk).destroyValue a = (h.destroyValue a).setBlock b blk := rfl

/-- Overwriting a block with its own fields changes nothing (weak/shared.h). -/
theorem Weak.Heap.setBlock_same {h : Weak.Heap} {b : Nat} {blk : Weak.Block}
    (hblk : h.blocks b = some blk) : h.setBlock b blk = h := by
  unfold Weak.Heap.setBlock
  rw [← hblk, Function.update_eq_self]

/-- C32: the pointer-owning control blocks of `shared-from-this/shared.h` and of
`weak/shared.h` agree where the counter being decremented is at least 1 and the
managed value is not self-observing.  On such a block `DecStrongCounter` returns in
both files and the heap of the first, read in the second, is the heap the second
produces: the same counters for a block that stays allocated, the same log of
destroyed values and the same log of deleted blocks.  The same holds for
`DecWeakCounter`. -/
theorem pointer_blocks_agree (h : SharedFromThis.Heap) (b : Nat)
    (blk : SharedFromThis.Block) (hb : b ≠ 0) (hblk : h.blocks b = some blk)
    (hshape : blk.shape = .ControlBlockPointer) (hplain : h.weak_this blk.object_ = none) :
    (1 ≤ blk.strong_counter_ →
      ∃ h1 hw1, SharedFromThis.BaseBlock.DecStrongCounter h b = some h1 ∧
        Weak.BaseBlock.DecStrongCounter h.toWeak b = some hw1 ∧
        hw1 = h1.toWeak ∧
        hw1.blocks b = (h1.blocks b).map SharedFromThis.Block.toWeak ∧
        hw1.destroyed = h1.destroyed ∧ hw1.deleted = h1.deleted) ∧
    (1 ≤ blk.weak_counter_ →
      ∃ h1 hw1, SharedFromThis.BaseBlock.DecWeakCounter h b = some h1 ∧
        Weak.BaseBlock.DecWeakCounter h.toWeak b = some hw1 ∧
        hw1 = h1.toWeak ∧
        hw1.blocks b = (h1.blocks b).map SharedFromThis.Block.toWeak ∧
        hw1.destroyed = h1.destroyed ∧ hw1.deleted = h1.deleted) := by
  obtain ⟨shape, obj, sc, wc⟩ := blk
  simp only at hshape hplain
  subst hshape
  have hwblk := SharedFromThis.Heap.toWeak_blocks hblk
  have key : ∀ (x : Option SharedFromThis.Heap) (y : Weak.Heap),
      (∃ h1, x = some h1 ∧ y = h1.toWeak) →
      ∃ h1 hw1, x = some h1 ∧ some y = some hw1 ∧ hw1 = h1.toWeak ∧
        hw1.blocks b = (h1.blocks b).map SharedFromThis.Block.toWeak ∧
        hw1.destroyed = h1.destroyed ∧ hw1.deleted = h1.deleted := by
    intro x y hxy
    obtain ⟨h1, hx, hy⟩ := hxy
    subst hy
    exact ⟨h1, h1.toWeak, hx, rfl, rfl, rfl, rfl, rfl⟩
  constructor
  · intro hsc
    simp only at hsc
    have hw : Weak.BaseBlock.DecStrongCounter h.toWeak b =
        some (Weak.ControlBlockPointer.DecStrongCounter h.toWeak b
          (SharedFromThis.Block.toWeak ⟨.ControlBlockPointer, obj, sc, wc⟩)) := by
      simp [Weak.BaseBlock.DecStrongCounter, hb, hwblk, SharedFromThis.Block.toWeak,
        SharedFromThis.BlockShape.toWeak]
    rw [hw]
    apply key
    have hs : SharedFromThis.BaseBlock.DecStrongCounter h b =
        SharedFromThis.ControlBlockPointer.DecStrongCounter h b
          ⟨.ControlBlockPointer, obj, sc, wc⟩ := by
      simp [SharedFromThis.BaseBlock.DecStrongCounter, hb, hblk]
    rw [hs]
    by_cases hgt : sc > 1
    · have hne : sc ≠ 0 := by omega
      have hne1 : sc - 1 ≠ 0 := by omega
      refine ⟨_, by simp [SharedFromThis.ControlBlockPointer.DecStrongCounter, hgt]; rfl, ?_⟩
      simp [Weak.ControlBlockPointer.DecStrongCounter, SharedFromThis.Block.toWeak, hne, hne1,
        SharedFromThis.Heap.toWeak_setBlock]
    · have h1 : sc = 1 := by omega
      subst h1
      by_cases hwc : wc = 0
      · subst hwc
        by_cases ho : obj = 0
        · subst ho
          refine ⟨h.deleteBlock b, by
            simp [SharedFromThis.ControlBlockPointer.DecStrongCounter,
              SharedFromThis.deleteObject], ?_⟩
          simp [Weak.ControlBlockPointer.DecStrongCounter, SharedFromThis.Block.toWeak,
            SharedFromThis.Heap.toWeak_deleteBlock, Weak.Heap.deleteBlock_setBlock]
        · obtain ⟨h2, hdel, htw, _⟩ := SharedFromThis.deleteObject_plain ho hplain
          refine ⟨h2.deleteBlock b, by
            simp [SharedFromThis.ControlBlockPointer.DecStrongCounter, hdel], ?_⟩
          simp [Weak.ControlBlockPointer.DecStrongCounter, SharedFromThis.Block.toWeak, ho,
            SharedFromThis.Heap.toWeak_deleteBlock, htw, Weak.Heap.destroyValue_setBlock,
            Weak.Heap.deleteBlock_setBlock]
      · by_cases ho : obj = 0
        · subst ho
          refine ⟨h.setBlock b ⟨.ControlBlockPointer, 0, 0, wc⟩, by
            simp [SharedFromThis.ControlBlockPointer.DecStrongCounter, hwc,
              SharedFromThis.deleteObject, SharedFromThis.size_t_dec_one], ?_⟩
          simp [Weak.ControlBlockPointer.DecStrongCounter, SharedFromThis.Block.toWeak, hwc,
            SharedFromThis.Heap.toWeak_setBlock]
        · have hplain2 : (h.setBlock b ⟨.ControlBlockPointer, obj, 0, wc⟩).weak_this obj =
              none := hplain
          obtain ⟨h2, hdel, htw, hbl⟩ := SharedFromThis.deleteObject_plain ho hplain2
          refine ⟨h2, by
            simp [SharedFromThis.ControlBlockPointer.DecStrongCounter, hwc,
              SharedFromThis.size_t_dec_one, hdel, hbl, hwc], ?_⟩
          simp [Weak.ControlBlockPointer.DecStrongCounter, SharedFromThis.Block.toWeak, hwc, ho,
            htw, SharedFromThis.Heap.toWeak_setBlock, Weak.Heap.destroyValue_setBlock]
  · intro hwc1
    simp only at hwc1
    have hw : Weak.BaseBlock.DecWeakCounter h.toWeak b =
        some (Weak.ControlBlockPointer.DecWeakCounter h.toWeak b
          (SharedFromThis.Block.toWeak ⟨.ControlBlockPointer, obj, sc, wc⟩)) := by
      simp [Weak.BaseBlock.DecWeakCounter, hb, hwblk, SharedFromThis.Block.toWeak,
        SharedFromThis.BlockShape.toWeak]
    rw [hw]
    apply key
    have hs : SharedFromThis.BaseBlock.DecWeakCounter h b =
        SharedFromThis.ControlBlockPointer.DecWeakCounter h b
          ⟨.ControlBlockPointer, obj, sc, wc⟩ := by
      simp [SharedFromThis.BaseBlock.DecWeakCounter, hb, hblk]
    rw [hs]
    by_cases hgt : wc > 1
    · have hne : wc ≠ 0 := by omega
      have hne1 : wc - 1 ≠ 0 := by omega
      refine ⟨_, by simp [SharedFromThis.ControlBlockPointer.DecWeakCounter, hgt]; rfl, ?_⟩
      simp [Weak.ControlBlockPointer.DecWeakCounter, SharedFromThis.Block.toWeak, hne, hne1,
        SharedFromThis.Heap.toWeak_setBlock]
    · have h1 : wc = 1 := by omega
      subst h1
      by_cases hsc : sc = 0
      · subst hsc
        refine ⟨h.deleteBlock b, by
          simp [SharedFromThis.ControlBlockPointer.DecWeakCounter], ?_⟩
        simp [Weak.ControlBlockPointer.DecWeakCounter, SharedFromThis.Block.toWeak,
          SharedFromThis.Heap.toWeak_deleteBlock, Weak.Heap.deleteBlock_setBlock]
      · refine ⟨h.setBlock b ⟨.ControlBlockPointer, obj, sc, 0⟩, by
          simp [SharedFromThis.ControlBlockPointer.DecWeakCounter, hsc,
            SharedFromThis.size_t_dec_one], ?_⟩
        simp [Weak.ControlBlockPointer.DecWeakCounter, SharedFromThis.Block.toWeak, hsc,
          SharedFromThis.Heap.toWeak_setBlock]

/-- Instance of `pointer_blocks_agree`: the block at 1 with strong counter 1 and weak
counter 1, managing the value at 100. -/
theorem pointer_blocks_agree_witness :
    (∃ h1 hw1, SharedFromThis.BaseBlock.DecStrongCounter
          (SharedFromThis.sampleCounters .ControlBlockPointer 1 1) 1 = some h1 ∧
        Weak.BaseBlock.DecStrongCounter
          (SharedFromThis.sampleCounters .ControlBlockPointer 1 1).toWeak 1 = some hw1 ∧
        hw1 = h1.toWeak ∧
        hw1.blocks 1 = (h1.blocks 1).map SharedFromThis.Block.toWeak ∧
        hw1.destroyed = h1.destroyed ∧ hw1.deleted = h1.deleted) ∧
    (∃ h1 hw1, SharedFromThis.BaseBlock.DecWeakCounter
          (SharedFromThis.sampleCounters .ControlBlockPointer 1 1) 1 = some h1 ∧
        Weak.BaseBlock.DecWeakCounter
          (SharedFromThis.sampleCounters .ControlBlockPointer 1 1).toWeak 1 = some hw1 ∧
        hw1 = h1.toWeak ∧
        hw1.blocks 1 = (h1.blocks 1).map SharedFromThis.Block.toWeak ∧
        hw1.destroyed = h1.destroyed ∧ hw1.deleted = h1.deleted) :=
  ⟨(pointer_blocks_agree (SharedFromThis.sampleCounters .ControlBlockPointer 1 1) 1
      ⟨.ControlBlockPointer, 100, 1, 1⟩ (by decide)
      (by simp [SharedFromThis.sampleCounters]) rfl rfl).1 (le_refl 1),
    (pointer_blocks_agree (SharedFromThis.sampleCounters .ControlBlockPointer 1 1) 1
      ⟨.ControlBlockPointer, 100, 1, 1⟩ (by decide)
      (by simp [SharedFromThis.sampleCounters]) rfl rfl).2 (le_refl 1)⟩

/-- The two pointer-owning blocks evaluated side by side.  With strong counter 1 and
weak counter 1 both files leave the counters at 0 and 1, destroy the value and keep
the block.  With strong counter 0 they differ: `shared-from-this/shared.h` wraps the
counter, `weak/shared.h` leaves it at 0. -/
theorem pointer_blocks_eval :
    (SharedFromThis.BaseBlock.DecStrongCounter
        (SharedFromThis.sampleCounters .ControlBlockPointer 1 1) 1).map
        (fun h => (h.blocks 1, h.destroyed, h.deleted)) =
      some (some ⟨.ControlBlockPointer, 100, 0, 1⟩, [100], []) ∧
    (Weak.BaseBlock.DecStrongCounter (Weak.sampleCounters 1 1) 1).map
        (fun h => (h.blocks 1, h.destroyed, h.deleted)) =
      some (some ⟨.ControlBlockPointer, 100, 0, 1⟩, [100], []) ∧
    (SharedFromThis.BaseBlock.DecStrongCounter
        (SharedFromThis.sampleCounters .ControlBlockPointer 0 1) 1).map
        (fun h => (h.blocks 1, h.destroyed, h.deleted)) =
      some (some ⟨.ControlBlockPointer, 100, 2 ^ 64 - 1, 1⟩, [100], []) ∧
    (Weak.BaseBlock.DecStrongCounter (Weak.sampleCounters 0 1) 1).map
        (fun h => (h.blocks 1, h.destroyed, h.deleted)) =
      some (some ⟨.ControlBlockPointer, 100, 0, 1⟩, [100], []) := by
  refine ⟨?_, ?_, ?_, ?_⟩ <;> decide

namespace Unique

/-! ### Self-move-assignment -/

/-- C33: the self-move-assignment `u = std::move(u)` is the identity.  `Release()`
empties the handle, so `Reset` finds no address to delete and installs the released
address again: `Get()` is unchanged, no deleter is invoked, and as an operation of a
program it leaves the state as it was. -/
theorem UniquePtr.moveAssignSelf_identity {D : Type} (u : UniquePtr D)
    (calls : List (DeleterCall D)) :
    (u.moveAssignSelf calls).1.Get = u.Get ∧
    (u.moveAssignSelf calls).2 = calls ∧
    (u.moveAssignSelf calls).1.GetDeleter = u.GetDeleter ∧
    (u.moveAssignSelf calls).1 = u ∧
    step { handles := [some u], calls := calls } (.moveAssign 0 0) =
      some { handles := [some u], calls := calls } := by
  have hcalls : (u.moveAssignSelf calls).2 = calls := by
    simp only [UniquePtr.moveAssignSelf]
    rw [UniquePtr.Reset_calls]
    simp [UniquePtr.Release, UniquePtr.Get, CompressedPair.GetFirst]
  have hself : (u.moveAssignSelf calls).1 = u := by
    simp only [UniquePtr.moveAssignSelf]
    rw [UniquePtr.Reset_handle]
    rfl
  refine ⟨by rw [hself], hcalls, by rw [hself], hself, ?_⟩
  simp [step, State.getHandle, hself, hcalls]

/-- Self-move-assignment of the handle owning 100, evaluated, next to the
move assignment from another handle, which invokes the deleter on 100. -/
theorem UniquePtr.moveAssignSelf_eval :
    ((sampleUnique.moveAssignSelf []).1.Get, (sampleUnique.moveAssignSelf []).2) =
      (100, []) ∧
    ((sampleUnique.moveAssign ⟨⟨200, 8⟩⟩ []).1.Get,
        (sampleUnique.moveAssign ⟨⟨200, 8⟩⟩ []).2.2) =
      (200, [⟨7, 100, 200⟩]) := by
  constructor <;> decide

end Unique

namespace SharedFromThis

/-! ### The last `SharedPtr` released under a live `WeakPtr`, embedded shape -/

/-- C3 (the code at the failing input): `MakeShared`, two `WeakPtr` made from the
handle, `Reset()` of the first `WeakPtr`, then `Reset()` of the `SharedPtr`.  After the
first four operations the embedded block at 1 is referenced by one `SharedPtr` and one
live `WeakPtr`, and its counters are strong 1 and weak 0.  Releasing the `SharedPtr`
destroys the value at 100 once and deletes the block, so the live `WeakPtr` holds the
address of a deleted block and `Expired()` on it has no defined outcome.  With
`SharedPtr(T*)` in place of `MakeShared` the pointer-owning block stays allocated with
strong 0 and weak 1, and the `WeakPtr` is expired. -/
theorem run_release_deletes_block_under_weak :
    (run State.init [.makeShared 1 100 false, .weakOfShared 0, .weakOfShared 0,
        .weakReset 0]).map
        (fun s => (s.shared, s.weak, s.sharedRefs 1, s.weakRefs 1, s.heap.blocks 1)) =
      some ([some ⟨1, 100⟩], [some ⟨0, 0⟩, some ⟨1, 100⟩], 1, 1,
        some ⟨.ControlBlockObject, 100, 1, 0⟩) ∧
    (run State.init [.makeShared 1 100 false, .weakOfShared 0, .weakOfShared 0,
        .weakReset 0, .sharedReset 0]).map
        (fun s => (s.weak, s.heap.blocks 1, s.heap.destroyed, s.heap.deleted,
          (s.getWeak 1).bind (WeakPtr.Expired s.heap))) =
      some ([some ⟨0, 0⟩, some ⟨1, 100⟩], none, [100], [1], none) ∧
    (run State.init [.sharedOfPtr 1 100 false, .weakOfShared 0, .weakOfShared 0,
        .weakReset 0, .sharedReset 0]).map
        (fun s => (s.weak, s.heap.blocks 1, s.heap.destroyed, s.heap.deleted,
          (s.getWeak 1).bind (WeakPtr.Expired s.heap))) =
      some ([some ⟨0, 0⟩, some ⟨1, 100⟩], some ⟨.ControlBlockPointer, 100, 0, 1⟩, [100], [],
        some true) := by
  refine ⟨?_, ?_, ?_⟩ <;> rfl

/-! ### `SharedFromThis()` on a copy of a wrapped object -/

/-- C15 (the code at the failing input): the self-observing object at 100 is wrapped by
`SharedPtr(T*)` with the block at 1, and the object at 200 is copy-constructed from it;
no `SharedPtr` has ever wrapped the object at 200.  Its `weak_this` is a copy of the
one of the object at 100, on the block at 1 (weak counter 2).  `SharedFromThis()` on
the object at 200 returns the non-empty handle `(1, 100)`, on the block and the address
of the other object, and raises the strong counter of that block from 1 to 2. -/
theorem EnableSharedFromThis.SharedFromThis_on_copy_of_wrapped :
    (EnableSharedFromThis.copy sampleWrappedHeap 100 200).map
        (fun h => (h.weak_this 200, h.blocks 1)) =
      some (some ⟨1, 100⟩, some ⟨.ControlBlockPointer, 100, 1, 2⟩) ∧
    ((EnableSharedFromThis.copy sampleWrappedHeap 100 200).bind
        (fun h => EnableSharedFromThis.SharedFromThis h 200)).map
        (fun r => (r.1, r.1.Get, SharedPtr.UseCount r.2 r.1, r.2.blocks 1)) =
      some (⟨1, 100⟩, 100, some 2, some ⟨.ControlBlockPointer, 100, 2, 2⟩) ∧
    (EnableSharedFromThis.SharedFromThis (EnableSharedFromThis.ctor sampleWrappedHeap 200)
        200).map (fun r => (r.1, SharedPtr.UseCount r.2 r.1, r.2.blocks 1)) =
      some (⟨0, 0⟩, some 0, some ⟨.ControlBlockPointer, 100, 1, 1⟩) := by
  refine ⟨?_, ?_, ?_⟩ <;> decide

/-- The copy constructor of the base on a wired source: the new object's `weak_this` is
on the source's block and `SharedFromThis()` on the new object returns a handle on
that block whenever the value is alive. -/
theorem EnableSharedFromThis.SharedFromThis_of_copy {h : Heap} {src a b o : Nat}
    {blk : Block} (hb : b ≠ 0) (hw : h.weak_this src = some ⟨b, o⟩)
    (hblk : h.blocks b = some blk) (hsc : blk.strong_counter_ ≠ 0) :
    ∃ h1 h2, EnableSharedFromThis.copy h src a = some h1 ∧
      h1.weak_this a = some ⟨b, o⟩ ∧
      EnableSharedFromThis.SharedFromThis h1 a = some (⟨b, o⟩, h2) := by
  have hcopy : WeakPtr.copy h ⟨b, o⟩ = some (⟨b, o⟩,
      h.setBlock b { blk with weak_counter_ := size_t_inc blk.weak_counter_ }) := by
    simp [WeakPtr.copy, hb, BaseBlock.IncWeakCounter, hblk]
  have hc : ∃ h1, EnableSharedFromThis.copy h src a = some h1 ∧
      h1.weak_this a = some ⟨b, o⟩ ∧
      h1.blocks b = some { blk with weak_counter_ := size_t_inc blk.weak_counter_ } :=
    ⟨{ (h.setBlock b { blk with weak_counter_ := size_t_inc blk.weak_counter_ }) with
        weak_this := Function.update h.weak_this a (some ⟨b, o⟩) },
      by simp [EnableSharedFromThis.copy, hw, hcopy, Heap.setBlock], by simp,
      by simp [Heap.setBlock]⟩
  obtain ⟨h1, hc1, hw1, hblk1⟩ := hc
  have hl := WeakPtr.Lock_of_block (h := h1) (w := ⟨b, o⟩) hb hblk1 hsc
  have hs : EnableSharedFromThis.SharedFromThis h1 a = some (⟨b, o⟩,
      h1.setBlock b { blk with strong_counter_ := size_t_inc blk.strong_counter_,
                               weak_counter_ := size_t_inc blk.weak_counter_ }) := by
    unfold EnableSharedFromThis.SharedFromThis
    rw [hw1]
    exact hl
  exact ⟨h1, _, hc1, hw1, hs⟩

end SharedFromThis

end SmartPointers
